import Mathlib

/-!
Online shop backend: price calculation and review aggregation.

A shallow embedding of `backend/utils/calcPrices.js`,
`backend/utils/validateUserFields.js`, of `addProductReviewHandler`,
`getProductsHandler`, `filterProductsHandler` and `updateProductDetailsHandler`
from `backend/controllers/productController.js`, of `createOrderHandler` from
`backend/controllers/orderController.js`, and of `userResponse`,
`loginUserHandler` and `deleteUserByIdHandler` from
`backend/controllers/userController.js`.

Handlers are functions from what they read (the request, and what the store
calls resolve to) to a record of their effects: the calls made on `res`, the
store calls, and the object handed to `save`.

Number model.  A JavaScript number is a `JSNum`: a rational, one of the two
infinities, or NaN.  There is no negative zero: the code modelled cannot tell
it from zero (it prints as "0.00", it is falsy, and it is never a divisor).

Two readings of the arithmetic are given.  In the exact reading (`JSNum.add`,
`calcPrices`, `averageRating`, `getProductsHandler`) the finite values are
added, multiplied and divided as rationals, without rounding.  In the
binary64 reading (`Binary64.add`, `Binary64.calcPrices`,
`Binary64.averageRating`, `Binary64.getProductsHandler`) every number literal
and every result of an operation is rounded to the nearest IEEE 754 binary64
number, ties to even, with overflow to the infinities, and `toFixed(2)`
switches to the exponent form from `10^21` on, as the language prescribes.
The properties that depend on rounding are stated in the binary64 reading.
-/

namespace OnlineShop

/-! ## Numbers -/

/-- A JavaScript number value with exact arithmetic on the finite part. -/
inductive JSNum where
  | fin (q : ℚ)
  | posInf
  | negInf
  | nan
  deriving DecidableEq

namespace JSNum

/-- The unary minus of JavaScript. -/
def neg : JSNum → JSNum
  | fin q => fin (-q)
  | posInf => negInf
  | negInf => posInf
  | nan => nan

/-- The binary `+` of JavaScript on numbers. -/
def add : JSNum → JSNum → JSNum
  | fin a, fin b => fin (a + b)
  | nan, _ => nan
  | _, nan => nan
  | posInf, negInf => nan
  | negInf, posInf => nan
  | posInf, _ => posInf
  | _, posInf => posInf
  | negInf, _ => negInf
  | _, negInf => negInf

/-- The binary `/` of JavaScript on numbers (there is no negative zero, so a
non-zero number over zero takes the sign of the numerator). -/
def div : JSNum → JSNum → JSNum
  | nan, _ => nan
  | _, nan => nan
  | fin a, fin b =>
    if b = 0 then (if a = 0 then nan else if 0 < a then posInf else negInf) else fin (a / b)
  | fin _, _ => fin 0
  | posInf, fin b => if b < 0 then negInf else posInf
  | negInf, fin b => if b < 0 then posInf else negInf
  | _, _ => nan

/-- The binary `*` of JavaScript on numbers (there is no negative zero). -/
def mul : JSNum → JSNum → JSNum
  | fin a, fin b => fin (a * b)
  | nan, _ => nan
  | _, nan => nan
  | fin a, posInf => if a = 0 then nan else if 0 < a then posInf else negInf
  | fin a, negInf => if a = 0 then nan else if 0 < a then negInf else posInf
  | posInf, fin b => if b = 0 then nan else if 0 < b then posInf else negInf
  | negInf, fin b => if b = 0 then nan else if 0 < b then negInf else posInf
  | posInf, posInf => posInf
  | posInf, negInf => negInf
  | negInf, posInf => negInf
  | negInf, negInf => posInf

/-- The comparison `a > b` of JavaScript on numbers. -/
def gt : JSNum → JSNum → Bool
  | fin a, fin b => decide (b < a)
  | nan, _ => false
  | _, nan => false
  | posInf, posInf => false
  | posInf, _ => true
  | negInf, _ => false
  | fin _, posInf => false
  | fin _, negInf => true

/-- The binary `-` of JavaScript on numbers. -/
def sub (a b : JSNum) : JSNum := add a (neg b)

/-- The comparison `a < b` of JavaScript on numbers. -/
def lt (a b : JSNum) : Bool := gt b a

/-- The function `Math.ceil`. -/
def ceil : JSNum → JSNum
  | fin q => fin ((⌈q⌉ : ℤ) : ℚ)
  | posInf => posInf
  | negInf => negInf
  | nan => nan

/-- The expression `n || d` on numbers: `d` when `n` is `0` or NaN. -/
def orElse : JSNum → JSNum → JSNum
  | fin q, d => if q = 0 then d else fin q
  | nan, d => d
  | n, _ => n

end JSNum

/-! ## `Number.prototype.toFixed(2)` -/

/-- The integer `n` for which `n / 100 - a` is as close to zero as possible,
the larger one when there are two (`a` is the absolute value being printed). -/
def nearestHundredths (a : ℚ) : Nat := Int.toNat ⌊a * 100 + 1 / 2⌋

/-- Fixed-point text of `n / 100`: the decimal digits of `n`, left-padded with
zeros to three characters, with a point before the last two. -/
def fixedChars (n : Nat) : List Char :=
  let m : List Char := if n = 0 then ['0'] else Nat.toDigits 10 n
  let m : List Char := if m.length ≤ 2 then List.replicate (2 + 1 - m.length) '0' ++ m else m
  let k : Nat := m.length
  m.take (k - 2) ++ '.' :: m.drop (k - 2)

/-- The characters of `x.toFixed(2)` for a finite `x`: a minus sign when
`x < 0`, then the fixed-point text of the nearest number of hundredths of
`|x|`.  The exponent form that the builtin switches to for magnitudes from
`10^21` on is not part of this exact-arithmetic model. -/
def toFixed2Chars (x : ℚ) : List Char :=
  let s : List Char := if x < 0 then ['-'] else []
  let a : ℚ := if x < 0 then -x else x
  s ++ fixedChars (nearestHundredths a)

/-- The string `x.toFixed(2)` of a finite number. -/
def toFixed2 (x : ℚ) : String := String.mk (toFixed2Chars x)

/-- The string `v.toFixed(2)` of any number value. -/
def JSNum.toFixed2 : JSNum → String
  | .fin q => OnlineShop.toFixed2 q
  | .posInf => "Infinity"
  | .negInf => "-Infinity"
  | .nan => "NaN"

/-! ## `parseFloat` -/

/-- White space and line terminators of the language, by code point. -/
def isJSWhiteSpace (c : Char) : Bool :=
  c.toNat ∈ [0x09, 0x0A, 0x0B, 0x0C, 0x0D, 0x20, 0xA0, 0x1680, 0x2000, 0x2001, 0x2002,
    0x2003, 0x2004, 0x2005, 0x2006, 0x2007, 0x2008, 0x2009, 0x200A, 0x2028, 0x2029,
    0x202F, 0x205F, 0x3000, 0xFEFF]

/-- The number written by a run of decimal digit characters. -/
def digitsValue (cs : List Char) : Nat :=
  cs.foldl (fun acc c => 10 * acc + (c.toNat - 48)) 0

/-- An optional exponent part at the head of the input: the exponent and the
rest of the input (exponent `0` and the input itself when there is none). -/
def scanExponent (cs : List Char) : Int × List Char :=
  match cs with
  | c :: rest =>
    if c = 'e' ∨ c = 'E' then
      match rest with
      | '-' :: r =>
        if r.takeWhile Char.isDigit = [] then (0, cs)
        else (-(digitsValue (r.takeWhile Char.isDigit) : Int), r.dropWhile Char.isDigit)
      | '+' :: r =>
        if r.takeWhile Char.isDigit = [] then (0, cs)
        else ((digitsValue (r.takeWhile Char.isDigit) : Int), r.dropWhile Char.isDigit)
      | r =>
        if r.takeWhile Char.isDigit = [] then (0, cs)
        else ((digitsValue (r.takeWhile Char.isDigit) : Int), r.dropWhile Char.isDigit)
    else (0, cs)
  | [] => (0, cs)

/-- The longest prefix of the input that is an unsigned decimal literal
(`Infinity`, `ddd.ddd`, `.ddd` or `ddd`, the last three with an optional
exponent): its value and the rest of the input, or `none` without such a
prefix. -/
def scanUnsigned (cs : List Char) : Option (JSNum × List Char) :=
  if "Infinity".data.isPrefixOf cs then some (JSNum.posInf, cs.drop 8)
  else
    let ip := cs.takeWhile Char.isDigit
    match cs.dropWhile Char.isDigit with
    | '.' :: r =>
      let fp := r.takeWhile Char.isDigit
      if ip = [] ∧ fp = [] then none
      else
        let e := scanExponent (r.dropWhile Char.isDigit)
        some (JSNum.fin ((digitsValue (ip ++ fp) : ℚ) / 10 ^ fp.length * 10 ^ e.1), e.2)
    | r1 =>
      if ip = [] then none
      else
        let e := scanExponent r1
        some (JSNum.fin ((digitsValue ip : ℚ) * 10 ^ e.1), e.2)

/-- The longest prefix that is a signed decimal literal, as `scanUnsigned`. -/
def scanSigned (cs : List Char) : Option (JSNum × List Char) :=
  match cs with
  | '-' :: r => (scanUnsigned r).map fun p => (p.1.neg, p.2)
  | '+' :: r => scanUnsigned r
  | _ => scanUnsigned cs

/-- The builtin `parseFloat` on a string: leading white space is skipped, the
longest prefix that is a decimal literal is read, NaN when there is none. -/
def parseFloat (s : String) : JSNum :=
  match scanSigned (s.data.dropWhile isJSWhiteSpace) with
  | some p => p.1
  | none => JSNum.nan

/-! ## `calcPrices` -/

/-- A line item of an order, as far as `calcPrices` reads it. -/
structure OrderItem where
  price : ℚ
  qty : ℚ
  deriving DecidableEq

/-- The object returned by `calcPrices`. -/
structure Prices where
  itemsPrice : String
  shippingPrice : String
  taxPrice : String
  totalPrice : String
  deriving DecidableEq

/-- The unrounded `itemsPrice`: the `reduce` over the order items, in exact
arithmetic. -/
def itemsSum (orderItems : List OrderItem) : ℚ :=
  orderItems.foldl (fun acc item => acc + item.price * item.qty) 0

/-- The numeric `shippingPrice`. -/
def shippingOf (itemsPrice : ℚ) : ℚ := if itemsPrice > 100 then 0 else 10

/-- The tax rate `0.19`. -/
def taxRate : ℚ := 19 / 100

/-- The function `calcPrices` of `backend/utils/calcPrices.js`, in exact
arithmetic on finite prices and quantities. -/
def calcPrices (orderItems : List OrderItem) : Prices :=
  let itemsPrice : ℚ := itemsSum orderItems
  let shippingPrice : ℚ := shippingOf itemsPrice
  let taxPrice : String := toFixed2 (itemsPrice * taxRate)
  let totalPrice : String :=
    (JSNum.add (JSNum.fin (itemsPrice + shippingPrice)) (parseFloat taxPrice)).toFixed2
  { itemsPrice := toFixed2 itemsPrice
    shippingPrice := toFixed2 shippingPrice
    taxPrice := taxPrice
    totalPrice := totalPrice }

/-! ## `Number(value)` -/

/-- A primitive value of a parsed JSON request body (`undefined` for an absent
field). -/
inductive JSValue where
  | undefined
  | null
  | bool (b : Bool)
  | number (n : JSNum)
  | string (s : String)
  deriving DecidableEq

/-- The value of a digit character in a radix up to sixteen. -/
def radixDigit (c : Char) : Option Nat :=
  if c.isDigit then some (c.toNat - 48)
  else if 'a'.toNat ≤ c.toNat ∧ c.toNat ≤ 'f'.toNat then some (c.toNat - 'a'.toNat + 10)
  else if 'A'.toNat ≤ c.toNat ∧ c.toNat ≤ 'F'.toNat then some (c.toNat - 'A'.toNat + 10)
  else none

/-- The number written by a non-empty run of digits of the radix, `none` when
the run is empty or has a character that is no digit of the radix. -/
def radixValue (radix : Nat) (cs : List Char) : Option Nat :=
  if cs = [] then none
  else cs.foldl (fun acc c =>
    match acc, radixDigit c with
    | some v, some d => if d < radix then some (radix * v + d) else none
    | _, _ => none) (some 0)

/-- A hexadecimal, octal or binary integer literal (`0x`, `0o`, `0b`). -/
def nonDecimalLiteral (cs : List Char) : Option Nat :=
  match cs with
  | '0' :: 'x' :: r => radixValue 16 r
  | '0' :: 'X' :: r => radixValue 16 r
  | '0' :: 'o' :: r => radixValue 8 r
  | '0' :: 'O' :: r => radixValue 8 r
  | '0' :: 'b' :: r => radixValue 2 r
  | '0' :: 'B' :: r => radixValue 2 r
  | _ => none

/-- The conversion of a string to a number: white space is trimmed on both
sides, the empty string is `0`, and the whole rest has to be one numeric
literal, NaN otherwise. -/
def stringToNumber (s : String) : JSNum :=
  let cs := ((s.data.dropWhile isJSWhiteSpace).reverse.dropWhile isJSWhiteSpace).reverse
  if cs = [] then JSNum.fin 0
  else
    match nonDecimalLiteral cs with
    | some n => JSNum.fin n
    | none =>
      match scanSigned cs with
      | some (v, []) => v
      | _ => JSNum.nan

/-- The call `Number(value)` on a primitive value. -/
def JSValue.toNumber : JSValue → JSNum
  | .undefined => JSNum.nan
  | .null => JSNum.fin 0
  | .bool true => JSNum.fin 1
  | .bool false => JSNum.fin 0
  | .number n => n
  | .string s => stringToNumber s

/-! ## `addProductReviewHandler` -/

/-- A user reference as stored or as carried by the request: a database
object id (by its hexadecimal text) or a plain string. -/
inductive UserRef where
  | objectId (hex : String)
  | str (s : String)
  deriving DecidableEq

/-- The method `toString()` of a user reference. -/
def UserRef.toString : UserRef → String
  | .objectId hex => hex
  | .str s => s

/-- An element of `product.reviews`. -/
structure Review where
  name : String
  rating : JSNum
  comment : JSValue
  user : UserRef
  deriving DecidableEq

/-- A product document, with the fields the product controller reads. -/
structure Product where
  _id : String
  name : JSValue
  image : JSValue
  brand : JSValue
  quantity : JSValue
  category : JSValue
  description : JSValue
  price : JSValue
  countInStock : JSValue
  reviews : List Review
  rating : JSNum
  numReviews : JSNum
  deriving DecidableEq

/-- What the handler reads of the request: `req.body.rating`,
`req.body.comment`, `req.user._id` and `req.user.username`. -/
structure ReviewRequest where
  rating : JSValue
  comment : JSValue
  userId : UserRef
  username : String
  deriving DecidableEq

/-- A response `res.status(status).json({ message })`. -/
structure Response where
  status : Nat
  message : String
  deriving DecidableEq

/-- The effects of one handler call: the response sent (`none` when
`product.save()` rejected and the handler threw), the product object
afterwards (`none` when none was found) and whether `save` was called. -/
structure ReviewOutcome where
  response : Option Response
  product : Option Product
  saveCalled : Bool
  deriving DecidableEq

/-- The mean computed by the handler, in exact arithmetic: the `reduce` over
the reviews divided by their number. -/
def averageRating (reviews : List Review) : JSNum :=
  JSNum.div (reviews.foldl (fun acc item => JSNum.add item.rating acc) (JSNum.fin 0))
    (JSNum.fin reviews.length)

/-- The function `addProductReviewHandler` of the product controller.
`found` is what `Product.findById(req.params.productId)` resolved to and
`saveResolves` tells whether `product.save()` resolves for a product. -/
def addProductReviewHandler (found : Option Product) (saveResolves : Product → Bool)
    (req : ReviewRequest) : ReviewOutcome :=
  match found with
  | some product =>
    let alreadyReviewed : Option Review :=
      product.reviews.find? (fun r => r.user.toString == req.userId.toString)
    if alreadyReviewed.isSome then
      { response := some ⟨400, "Produkt wurde bereits bewertet."⟩
        product := some product
        saveCalled := false }
    else
      let review : Review :=
        { name := req.username
          rating := req.rating.toNumber
          comment := req.comment
          user := req.userId }
      let reviews : List Review := product.reviews ++ [review]
      let product : Product :=
        { product with
          reviews := reviews
          numReviews := JSNum.fin reviews.length
          rating := averageRating reviews }
      if saveResolves product then
        { response := some ⟨201, "Bewertung hinzugefügt."⟩
          product := some product
          saveCalled := true }
      else
        { response := none
          product := some product
          saveCalled := true }
  | none =>
    { response := some ⟨404, "Produkt nicht gefunden."⟩
      product := none
      saveCalled := false }

/-- Whether a primitive value is truthy: `undefined`, `null`, `false`, `0`,
NaN and the empty string are not. -/
def JSValue.truthy : JSValue → Bool
  | .undefined => false
  | .null => false
  | .bool b => b
  | .number (JSNum.fin q) => decide (q ≠ 0)
  | .number JSNum.nan => false
  | .number _ => true
  | .string s => decide (s ≠ "")

/-! ## `calcPrices` on arbitrary primitive values -/

/-- What `calcPrices` reads of an element of its argument: `item.price` and
`item.qty`, whatever values they are. -/
structure PricedItem where
  price : JSValue
  qty : JSValue
  deriving DecidableEq

/-- The `reduce` of `calcPrices` when price and qty are arbitrary primitive
values, in exact arithmetic: `*` converts both operands to numbers. -/
def itemsSumValues (orderItems : List PricedItem) : JSNum :=
  orderItems.foldl
    (fun acc item => JSNum.add acc (JSNum.mul item.price.toNumber item.qty.toNumber))
    (JSNum.fin 0)

/-- The function `calcPrices` of `backend/utils/calcPrices.js` on items whose
price and qty are arbitrary primitive values, in exact arithmetic. -/
def calcPricesValues (orderItems : List PricedItem) : Prices :=
  let itemsPrice : JSNum := itemsSumValues orderItems
  let shippingPrice : JSNum :=
    if JSNum.gt itemsPrice (JSNum.fin 100) then JSNum.fin 0 else JSNum.fin 10
  let taxPrice : String := (JSNum.mul itemsPrice (JSNum.fin taxRate)).toFixed2
  let totalPrice : String :=
    (JSNum.add (JSNum.add itemsPrice shippingPrice) (parseFloat taxPrice)).toFixed2
  { itemsPrice := itemsPrice.toFixed2
    shippingPrice := shippingPrice.toFixed2
    taxPrice := taxPrice
    totalPrice := totalPrice }

/-! ## `createOrderHandler` -/

/-- An element of `req.body.orderItems`: its `_id`, `qty`, the `price` the
client sent, and its other fields. -/
structure ClientItem where
  _id : String
  qty : JSValue
  price : JSValue
  rest : List (String × JSValue)
  deriving DecidableEq

/-- The object `{ ...itemFromClient, product: itemFromClient._id, price:
matchingItemFromDB.price }`: the client's fields with `price` replaced. -/
structure LineItem where
  _id : String
  qty : JSValue
  rest : List (String × JSValue)
  product : String
  price : JSValue
  deriving DecidableEq

/-- What the callback of `orderItems.map` returns: a line item, or the
response object `res` that `res.status(404).json(..)` returns. -/
inductive ValidItem where
  | line (item : LineItem)
  | res
  deriving DecidableEq

/-- What `calcPrices` reads of a valid order item (`res` has neither a
`price` nor a `qty`). -/
def ValidItem.priced : ValidItem → PricedItem
  | .line item => { price := item.price, qty := item.qty }
  | .res => { price := JSValue.undefined, qty := JSValue.undefined }

/-- The data passed to `new Order(..)`. -/
structure Order where
  orderItems : List ValidItem
  user : UserRef
  shippingAddress : JSValue
  paymentMethod : JSValue
  itemsPrice : String
  taxPrice : String
  shippingPrice : String
  totalPrice : String
  deriving DecidableEq

/-- What the handler reads of the request: the three body fields
(`orderItems` is `none` when absent) and `req.user._id`. -/
structure OrderRequest where
  orderItems : Option (List ClientItem)
  shippingAddress : JSValue
  paymentMethod : JSValue
  userId : UserRef
  deriving DecidableEq

/-- A call `res.status(status).json(body)` of the order handler. -/
inductive OrderReply where
  | message (status : Nat) (message : String)
  | order (status : Nat) (order : Order)
  deriving DecidableEq

/-- The effects of one call of the order handler: the calls
`res.status(..).json(..)` in the order they were made, the lists of ids that
`Product.find` was asked for, and the order whose `save()` was called. -/
structure OrderOutcome where
  replies : List OrderReply
  queries : List (List String)
  saved : Option Order
  deriving DecidableEq

/-- The callback of `orderItems.map`: the element it returns and the calls on
`res` it makes. -/
def validOrderItem (itemsFromDB : List Product) (itemFromClient : ClientItem) :
    ValidItem × List OrderReply :=
  match itemsFromDB.find? (fun itemFromDB => itemFromDB._id == itemFromClient._id) with
  | none =>
    (ValidItem.res,
      [OrderReply.message 404 ("Produkt nicht gefunden: " ++ itemFromClient._id)])
  | some matchingItemFromDB =>
    (ValidItem.line
      { _id := itemFromClient._id
        qty := itemFromClient.qty
        rest := itemFromClient.rest
        product := itemFromClient._id
        price := matchingItemFromDB.price }, [])

/-- The function `createOrderHandler` of the order controller.  `find` is
what `Product.find` resolves to for a list of ids, and `saveResult` is what
`order.save()` resolves to (`none` when it rejects and the handler throws). -/
def createOrderHandler (find : List String → List Product) (saveResult : Order → Option Order)
    (req : OrderRequest) : OrderOutcome :=
  match req.orderItems with
  | none =>
    { replies := [OrderReply.message 400 "Keine Bestellpositionen vorhanden."]
      queries := []
      saved := none }
  | some [] =>
    { replies := [OrderReply.message 400 "Keine Bestellpositionen vorhanden."]
      queries := []
      saved := none }
  | some orderItems =>
    let ids : List String := orderItems.map fun item => item._id
    let itemsFromDB : List Product := find ids
    let mapped : List (ValidItem × List OrderReply) := orderItems.map (validOrderItem itemsFromDB)
    let validOrderItems : List ValidItem := mapped.map Prod.fst
    let prices : Prices := calcPricesValues (validOrderItems.map ValidItem.priced)
    let order : Order :=
      { orderItems := validOrderItems
        user := req.userId
        shippingAddress := req.shippingAddress
        paymentMethod := req.paymentMethod
        itemsPrice := prices.itemsPrice
        taxPrice := prices.taxPrice
        shippingPrice := prices.shippingPrice
        totalPrice := prices.totalPrice }
    match saveResult order with
    | some createdOrder =>
      { replies := (mapped.map Prod.snd).flatten ++ [OrderReply.order 201 createdOrder]
        queries := [ids]
        saved := some order }
    | none =>
      { replies := (mapped.map Prod.snd).flatten
        queries := [ids]
        saved := some order }

/-! ## `loginUserHandler` -/

/-- A plain object: its own fields in order. -/
abbrev JSObject := List (String × JSValue)

/-- The value of a field of an object, `undefined` when it has none. -/
def JSObject.field (o : JSObject) (key : String) : JSValue :=
  match o.find? (fun kv => kv.1 == key) with
  | some kv => kv.2
  | none => JSValue.undefined

/-- The helper `userResponse`: the object without its `password` field. -/
def userResponse (user : JSObject) : JSObject :=
  user.filter (fun kv => kv.1 != "password")

/-- The body of a call `res.json(..)` of the user controller. -/
inductive UserBody where
  | message (message : String)
  | object (o : JSObject)
  deriving DecidableEq

/-- What the login handler reads of the request: `req.body.email` and
`req.body.password`. -/
structure LoginRequest where
  email : JSValue
  password : JSValue
  deriving DecidableEq

/-- The effects of one call of the login handler: the response sent (`none`
when the handler returns without sending one), the emails `User.findOne` was
asked for, and the user id `createToken` was called with. -/
structure LoginOutcome where
  response : Option (Nat × UserBody)
  lookups : List JSValue
  token : Option JSValue
  deriving DecidableEq

/-- The function `loginUserHandler` of the user controller.  `findOne` is
what `User.findOne({ email })` resolves to and `compare` is what
`bcrypt.compare(password, hash)` resolves to. -/
def loginUserHandler (findOne : JSValue → Option JSObject)
    (compare : JSValue → JSValue → Bool) (req : LoginRequest) : LoginOutcome :=
  if !req.email.truthy || !req.password.truthy then
    { response := some (400, UserBody.message "Bitte alle Felder ausfüllen.")
      lookups := []
      token := none }
  else
    match findOne req.email with
    | some existingUser =>
      if compare req.password (existingUser.field "password") then
        { response := some (200, UserBody.object (userResponse existingUser))
          lookups := [req.email]
          token := some (existingUser.field "_id") }
      else
        { response := some (401, UserBody.message "Ungültige E-Mail oder Passwort.")
          lookups := [req.email]
          token := none }
    | none =>
      { response := none
        lookups := [req.email]
        token := none }

/-! ## `validateUserFields` -/

/-- The UTF-16 code units of a string, the elements a regular expression
without the `u` flag works on. -/
def utf16Units (s : String) : List Nat :=
  (s.data.map fun c =>
    if c.toNat < 0x10000 then [c.toNat]
    else [0xD800 + (c.toNat - 0x10000) / 0x400, 0xDC00 + (c.toNat - 0x10000) % 0x400]).flatten

/-- The code units that `.` does not match: the line terminators. -/
def isLineTerminator (u : Nat) : Bool := u = 0x0A ∨ u = 0x0D ∨ u = 0x2028 ∨ u = 0x2029

/-- The class `[a-z]`. -/
def isLowerUnit (u : Nat) : Bool := 0x61 ≤ u ∧ u ≤ 0x7A

/-- The class `[A-Z]`. -/
def isUpperUnit (u : Nat) : Bool := 0x41 ≤ u ∧ u ≤ 0x5A

/-- The class `\d`. -/
def isDigitUnit (u : Nat) : Bool := 0x30 ≤ u ∧ u ≤ 0x39

/-- The class `\w`: ASCII letters, digits and the underscore. -/
def isWordUnit (u : Nat) : Bool := isLowerUnit u || isUpperUnit u || isDigitUnit u || u = 0x5F

/-- The class `[\W_]`. -/
def isSpecialUnit (u : Nat) : Bool := !isWordUnit u || u = 0x5F

/-- The lookahead `(?=.*X)` at the start of the input: some code unit is in
the class `X` and every code unit before it is matched by `.`. -/
def lookahead (cls : Nat → Bool) : List Nat → Bool
  | [] => false
  | u :: rest => cls u || (!isLineTerminator u && lookahead cls rest)

/-- The tail `.{8,}$` at the start of the input: at least eight code units,
all matched by `.`, up to the end of the input. -/
def dotsToEnd (us : List Nat) : Bool :=
  decide (8 ≤ us.length) && us.all fun u => !isLineTerminator u

/-- The test of `/^(?=.*[a-z])(?=.*[A-Z])(?=.*\d)(?=.*[\W_]).{8,}$/` on a
string. -/
def passwordRegexTest (s : String) : Bool :=
  lookahead isLowerUnit (utf16Units s) && lookahead isUpperUnit (utf16Units s) &&
    lookahead isDigitUnit (utf16Units s) && lookahead isSpecialUnit (utf16Units s) &&
    dotsToEnd (utf16Units s)

/-- The call `passwordRegex.test(password)` on a primitive value.  A value
that is no string is tested on its text; the text of `undefined`, `null`, a
boolean or a number never has an uppercase letter together with a digit, so
the test fails. -/
def passwordRegexTestValue : JSValue → Bool
  | .string s => passwordRegexTest s
  | _ => false

/-- The object returned by `validateUserFields`. -/
structure Validation where
  valid : Bool
  message : Option String
  deriving DecidableEq

/-- The function `validateUserFields` of `backend/utils/validateUserFields.js`.
`checkPassword` is `none` when the caller passes no option, which means
`true`. -/
def validateUserFields (username email password : JSValue) (checkPassword : Option Bool) :
    Validation :=
  let checkPassword : Bool := checkPassword.getD true
  if !username.truthy || !email.truthy || (checkPassword && !password.truthy) then
    { valid := false, message := some "Bitte füllen Sie alle Felder aus." }
  else if checkPassword && password.truthy && !passwordRegexTestValue password then
    { valid := false
      message := some ("Das Passwort muss mindestens 8 Zeichen lang sein und " ++
        "Großbuchstaben, Kleinbuchstaben, eine Zahl sowie ein Sonderzeichen enthalten.") }
  else
    { valid := true, message := none }

/-! ## `getProductsHandler` and `filterProductsHandler` -/

/-- The helper `productResponse`: the fields of the product it copies (the
two time stamps are not part of the product model here). -/
def productResponse (product : Product) : Product :=
  { _id := product._id
    name := product.name
    image := product.image
    brand := product.brand
    quantity := product.quantity
    category := product.category
    description := product.description
    reviews := product.reviews
    rating := product.rating
    numReviews := product.numReviews
    price := product.price
    countInStock := product.countInStock }

/-- What the handler reads of `req.query`. -/
structure ProductsQuery where
  pageSize : JSValue
  page : JSValue
  keyword : JSValue
  deriving DecidableEq

/-- The body of the response of `getProductsHandler`. -/
structure ProductsPage where
  products : List Product
  page : JSNum
  pages : JSNum
  hasMore : Bool
  total : Nat
  deriving DecidableEq

/-- The function `getProductsHandler` of the product controller, in exact
arithmetic: the status and the body of its response.  The store is given by `countDocuments` (the
number of products for a keyword filter, `none` for the empty filter) and by
`find` (the products for a keyword filter, a limit and a number to skip). -/
def getProductsHandler (countDocuments : Option JSValue → Nat)
    (find : Option JSValue → JSNum → JSNum → List Product) (query : ProductsQuery) :
    Nat × ProductsPage :=
  let pageSize : JSNum := JSNum.orElse query.pageSize.toNumber (JSNum.fin 10)
  let page : JSNum := JSNum.orElse query.page.toNumber (JSNum.fin 1)
  let keyword : Option JSValue := if query.keyword.truthy then some query.keyword else none
  let count : Nat := countDocuments keyword
  let products : List Product :=
    find keyword pageSize (JSNum.mul pageSize (JSNum.sub page (JSNum.fin 1)))
  (200,
    { products := products.map productResponse
      page := page
      pages := JSNum.ceil (JSNum.div (JSNum.fin count) pageSize)
      hasMore := JSNum.lt page (JSNum.ceil (JSNum.div (JSNum.fin count) pageSize))
      total := count })

/-- What the handler reads of `req.body`. -/
structure FilterBody where
  category : JSValue
  minPrice : JSValue
  maxPrice : JSValue
  deriving DecidableEq

/-- The object `filter.price`: its keys `$gte` and `$lte`, each present or
not. -/
structure PriceFilter where
  gte : Option JSValue
  lte : Option JSValue
  deriving DecidableEq

/-- The object `filter`: its keys `category` and `price`, each present or
not. -/
structure ProductFilter where
  category : Option JSValue
  price : Option PriceFilter
  deriving DecidableEq

/-- The effects of one call of `filterProductsHandler`: the filter passed to
`Product.find`, and the status and body of the response. -/
structure FilterOutcome where
  filter : ProductFilter
  status : Nat
  body : List Product
  deriving DecidableEq

/-- The function `filterProductsHandler` of the product controller; `find`
is what `Product.find(filter).populate("category")` resolves to. -/
def filterProductsHandler (find : ProductFilter → List Product) (body : FilterBody) :
    FilterOutcome :=
  let filter : ProductFilter := { category := none, price := none }
  let filter : ProductFilter :=
    if body.category.truthy then { filter with category := some body.category } else filter
  let filter : ProductFilter :=
    if body.minPrice ≠ JSValue.undefined ∨ body.maxPrice ≠ JSValue.undefined then
      let price : PriceFilter := { gte := none, lte := none }
      let price : PriceFilter :=
        if body.minPrice ≠ JSValue.undefined then { price with gte := some body.minPrice }
        else price
      let price : PriceFilter :=
        if body.maxPrice ≠ JSValue.undefined then { price with lte := some body.maxPrice }
        else price
      { filter with price := some price }
    else filter
  { filter := filter
    status := 200
    body := (find filter).map productResponse }

/-! ## `updateProductDetailsHandler` -/

/-- The comparison `a === b` on primitive values. -/
def JSValue.strictEq : JSValue → JSValue → Bool
  | .number JSNum.nan, _ => false
  | _, .number JSNum.nan => false
  | a, b => decide (a = b)

/-- The helper `checkUniqueProductName`; `findOne` is what
`Product.findOne(query)` finds for a name and an excluded id (`none` when the
query has no `_id` key). -/
def checkUniqueProductName (findOne : JSValue → Option String → Option Product)
    (name : JSValue) (excludeProductId : Option String) : Validation :=
  let exclude : Option String :=
    match excludeProductId with
    | some id => if id ≠ "" then some id else none
    | none => none
  match findOne name exclude with
  | some _ => { valid := false, message := some "Produktname wird bereits verwendet." }
  | none => { valid := true, message := none }

/-- What the handler reads of `req.body`. -/
structure ProductUpdate where
  name : JSValue
  image : JSValue
  brand : JSValue
  quantity : JSValue
  category : JSValue
  description : JSValue
  price : JSValue
  countInStock : JSValue
  deriving DecidableEq

/-- The body of a call `res.json(..)` of the update handler. -/
inductive ProductBody where
  | message (message : String)
  | product (product : Product)
  deriving DecidableEq

/-- The effects of one call of the update handler: the response sent (`none`
when `product.save()` rejected and the handler threw), the product object
afterwards (`none` when none was found) and whether `save` was called. -/
structure UpdateOutcome where
  response : Option (Nat × ProductBody)
  product : Option Product
  saveCalled : Bool
  deriving DecidableEq

/-- The function `updateProductDetailsHandler` of the product controller.
`found` is what `Product.findById` resolved to, `findOne` is the store lookup
of `checkUniqueProductName`, and `saveResult` is what `product.save()`
resolves to (`none` when it rejects). -/
def updateProductDetailsHandler (found : Option Product)
    (findOne : JSValue → Option String → Option Product)
    (saveResult : Product → Option Product) (body : ProductUpdate) : UpdateOutcome :=
  match found with
  | none =>
    { response := some (404, ProductBody.message "Produkt nicht gefunden.")
      product := none
      saveCalled := false }
  | some product =>
    let unique : Validation :=
      if body.name.truthy && !body.name.strictEq product.name then
        checkUniqueProductName findOne body.name (some product._id)
      else { valid := true, message := none }
    if !unique.valid then
      { response := some (400, ProductBody.message (unique.message.getD ""))
        product := some product
        saveCalled := false }
    else
      let product : Product :=
        if body.name.truthy && !body.name.strictEq product.name then
          { product with name := body.name }
        else product
      let product : Product :=
        if body.image ≠ JSValue.undefined then { product with image := body.image } else product
      let product : Product :=
        if body.brand ≠ JSValue.undefined then { product with brand := body.brand } else product
      let product : Product :=
        if body.quantity ≠ JSValue.undefined then { product with quantity := body.quantity }
        else product
      let product : Product :=
        if body.category ≠ JSValue.undefined then { product with category := body.category }
        else product
      let product : Product :=
        if body.description ≠ JSValue.undefined then
          { product with description := body.description }
        else product
      let product : Product :=
        if body.price ≠ JSValue.undefined then { product with price := body.price } else product
      let product : Product :=
        if body.countInStock ≠ JSValue.undefined then
          { product with countInStock := body.countInStock }
        else product
      match saveResult product with
      | some updatedProduct =>
        { response := some (200, ProductBody.product (productResponse updatedProduct))
          product := some product
          saveCalled := true }
      | none =>
        { response := none
          product := some product
          saveCalled := true }

/-! ## `deleteUserByIdHandler` -/

/-- The effects of one call of the delete handler: the response sent (`none`
when `User.deleteOne` rejected and the handler threw) and the ids that
`User.deleteOne({ _id })` was called with. -/
structure DeleteOutcome where
  response : Option (Nat × UserBody)
  deletes : List JSValue
  deriving DecidableEq

/-- The function `deleteUserByIdHandler` of the user controller.  `found` is
what `User.findById(req.params.userId)` resolved to and `deleteResolves`
tells whether `User.deleteOne` resolves for an id. -/
def deleteUserByIdHandler (found : Option JSObject) (deleteResolves : JSValue → Bool) :
    DeleteOutcome :=
  match found with
  | some user =>
    if (user.field "isAdmin").truthy then
      { response := some (400, UserBody.message "Admin-Benutzer kann nicht gelöscht werden.")
        deletes := [] }
    else if deleteResolves (user.field "_id") then
      { response := some (200, UserBody.message "Benutzer entfernt.")
        deletes := [user.field "_id"] }
    else
      { response := none
        deletes := [user.field "_id"] }
  | none =>
    { response := some (404, UserBody.message "Benutzer nicht gefunden.")
      deletes := [] }

/-! ## Binary64 arithmetic -/

/-- The nearest integer to a rational, the even one at a tie. -/
def Binary64.roundHalfEven (x : ℚ) : ℤ :=
  if x - ⌊x⌋ < 1 / 2 then ⌊x⌋
  else if 1 / 2 < x - ⌊x⌋ then ⌊x⌋ + 1
  else if ⌊x⌋ % 2 = 0 then ⌊x⌋ else ⌊x⌋ + 1

/-- The number of binary digits of `n` (`fuel` bounds the number of
halvings; `n` itself is always enough). -/
def Binary64.bitLength : Nat → Nat → Nat
  | 0, _ => 0
  | fuel + 1, n => if n = 0 then 0 else Binary64.bitLength fuel (n / 2) + 1

/-- The binary exponent of a positive rational `a`: the integer `e` with
`2 ^ e ≤ a < 2 ^ (e + 1)`. -/
def Binary64.binExp (a : ℚ) : ℤ :=
  let e : ℤ := (Binary64.bitLength a.num.natAbs a.num.natAbs : ℤ) -
    (Binary64.bitLength a.den a.den : ℤ)
  if (2 : ℚ) ^ e ≤ a then e else e - 1

/-- The exponent of the unit in the last place of the binary64 format at the
magnitude `a`: 53 significant bits, and the fixed spacing `2 ^ (-1074)` of the
subnormal range below `2 ^ (-1022)`. -/
def Binary64.ulpExp (a : ℚ) : ℤ := max (Binary64.binExp a) (-1022) - 52

/-- Rounding of a magnitude to the nearest multiple of its unit in the last
place, ties to the even multiple. -/
def Binary64.roundAbs (a : ℚ) : ℚ :=
  (Binary64.roundHalfEven (a / 2 ^ Binary64.ulpExp a) : ℚ) * 2 ^ Binary64.ulpExp a

/-- Rounding of a rational to binary64 with an unbounded exponent range above:
round to nearest, ties to even. -/
def Binary64.fl (x : ℚ) : ℚ := if x < 0 then -Binary64.roundAbs (-x) else Binary64.roundAbs x

/-- The number value of an exact result: the nearest binary64 number, an
infinity when that is beyond the largest finite one. -/
def Binary64.ofRat (x : ℚ) : JSNum :=
  if (2 : ℚ) ^ (1024 : ℕ) ≤ Binary64.fl x then JSNum.posInf
  else if Binary64.fl x ≤ -(2 : ℚ) ^ (1024 : ℕ) then JSNum.negInf
  else JSNum.fin (Binary64.fl x)

/-- The number value of an exact result that may be infinite or NaN. -/
def Binary64.round : JSNum → JSNum
  | .fin q => Binary64.ofRat q
  | n => n

/-- The binary `+` on binary64 numbers: the exact sum, rounded. -/
def Binary64.add (a b : JSNum) : JSNum := Binary64.round (JSNum.add a b)

/-- The binary `-` on binary64 numbers. -/
def Binary64.sub (a b : JSNum) : JSNum := Binary64.round (JSNum.sub a b)

/-- The binary `*` on binary64 numbers: the exact product, rounded. -/
def Binary64.mul (a b : JSNum) : JSNum := Binary64.round (JSNum.mul a b)

/-- The binary `/` on binary64 numbers: the exact quotient, rounded. -/
def Binary64.div (a b : JSNum) : JSNum := Binary64.round (JSNum.div a b)

/-- The call `Number(value)`: the number value of the literal that a string
holds is the binary64 number nearest to it. -/
def Binary64.toNumber (v : JSValue) : JSNum := Binary64.round v.toNumber

/-- The builtin `parseFloat`: the binary64 number nearest to the decimal
literal read. -/
def Binary64.parseFloat (s : String) : JSNum := Binary64.round (OnlineShop.parseFloat s)

/-- The digits `s` and the decimal exponent `n` of the text of `x` when `k`
digits are enough: `s * 10 ^ (n - k)` rounds to `x`, the nearer one to `x`
when two such `s` exist.  `digits` is the number of digits of the integer
part of `x`. -/
def Binary64.digitsOfLength (x : ℚ) (digits k : Nat) : Option (Nat × Nat) :=
  let scale : ℚ := 10 ^ ((digits : ℤ) - (k : ℤ))
  let lo : Nat := Int.toNat ⌊x / scale⌋
  let okLo : Bool := decide (Binary64.fl ((lo : ℚ) * scale) = x)
  let okHi : Bool := decide (Binary64.fl (((lo : ℚ) + 1) * scale) = x)
  let s : Option Nat :=
    if okLo && okHi then
      (if x - (lo : ℚ) * scale < ((lo : ℚ) + 1) * scale - x then some lo
       else if ((lo : ℚ) + 1) * scale - x < x - (lo : ℚ) * scale then some (lo + 1)
       else if lo % 2 = 0 then some lo else some (lo + 1))
    else if okLo then some lo
    else if okHi then some (lo + 1)
    else none
  s.map fun s => if s = 10 ^ k then (10 ^ (k - 1), digits + 1) else (s, digits)

/-- The shortest digits `s` and the decimal exponent `n` of the text of `x`,
trying the lengths `k`, `k + 1`, ... in turn; seventeen digits are always
enough for a binary64 number. -/
def Binary64.shortestDigits (x : ℚ) (digits : Nat) : Nat → Nat → Nat × Nat
  | 0, _ => (Int.toNat ⌊x / 10 ^ ((digits : ℤ) - 17)⌋, digits)
  | fuel + 1, k =>
    match Binary64.digitsOfLength x digits k with
    | some r => r
    | none => Binary64.shortestDigits x digits fuel (k + 1)

/-- The text `String(x)` of a number `x ≥ 10 ^ 21`: the shortest digits that
read back as `x`, a point after the first one when there are more, then `e+`
and the decimal exponent. -/
def Binary64.exponentChars (x : ℚ) : List Char :=
  let r : Nat × Nat :=
    Binary64.shortestDigits x (Nat.toDigits 10 (Int.toNat ⌊x⌋)).length 17 1
  let e : List Char := 'e' :: '+' :: Nat.toDigits 10 (r.2 - 1)
  match Nat.toDigits 10 r.1 with
  | [d] => d :: e
  | d :: ds => d :: '.' :: ds ++ e
  | [] => e

/-- The string `v.toFixed(2)` of a binary64 number: fixed notation of the
nearest number of hundredths (the larger one at a tie) below `10 ^ 21`, and
the text `String(v)` from there on and for the infinities and NaN. -/
def Binary64.toFixed2 : JSNum → String
  | .fin q =>
    if (10 : ℚ) ^ (21 : ℕ) ≤ |q| then
      String.mk ((if q < 0 then ['-'] else []) ++ Binary64.exponentChars |q|)
    else OnlineShop.toFixed2 q
  | .posInf => "Infinity"
  | .negInf => "-Infinity"
  | .nan => "NaN"

/-! ## `calcPrices` in binary64 -/

/-- The literal `0.19`. -/
def Binary64.taxRate : JSNum := Binary64.ofRat (19 / 100)

/-- The unrounded `itemsPrice`: the `reduce` over the order items, every
product and every sum rounded to binary64. -/
def Binary64.itemsSum (orderItems : List PricedItem) : JSNum :=
  orderItems.foldl
    (fun acc item =>
      Binary64.add acc (Binary64.mul (Binary64.toNumber item.price) (Binary64.toNumber item.qty)))
    (JSNum.fin 0)

/-- The function `calcPrices` of `backend/utils/calcPrices.js` in binary64
arithmetic. -/
def Binary64.calcPrices (orderItems : List PricedItem) : Prices :=
  let itemsPrice : JSNum := Binary64.itemsSum orderItems
  let shippingPrice : JSNum :=
    if JSNum.gt itemsPrice (JSNum.fin 100) then JSNum.fin 0 else JSNum.fin 10
  let taxPrice : String := Binary64.toFixed2 (Binary64.mul itemsPrice Binary64.taxRate)
  let totalPrice : String :=
    Binary64.toFixed2
      (Binary64.add (Binary64.add itemsPrice shippingPrice) (Binary64.parseFloat taxPrice))
  { itemsPrice := Binary64.toFixed2 itemsPrice
    shippingPrice := Binary64.toFixed2 shippingPrice
    taxPrice := taxPrice
    totalPrice := totalPrice }

/-! ## The rating mean and the product list in binary64 -/

/-- The mean computed by `addProductReviewHandler` in binary64 arithmetic: the
`reduce` over the reviews divided by their number. -/
def Binary64.averageRating (reviews : List Review) : JSNum :=
  Binary64.div (reviews.foldl (fun acc item => Binary64.add item.rating acc) (JSNum.fin 0))
    (JSNum.fin reviews.length)

/-- The function `getProductsHandler` of the product controller in binary64
arithmetic: the status and the body of its response.  The store is given by
`countDocuments` and `find` as before. -/
def Binary64.getProductsHandler (countDocuments : Option JSValue → Nat)
    (find : Option JSValue → JSNum → JSNum → List Product) (query : ProductsQuery) :
    Nat × ProductsPage :=
  let pageSize : JSNum := JSNum.orElse (Binary64.toNumber query.pageSize) (JSNum.fin 10)
  let page : JSNum := JSNum.orElse (Binary64.toNumber query.page) (JSNum.fin 1)
  let keyword : Option JSValue := if query.keyword.truthy then some query.keyword else none
  let count : Nat := countDocuments keyword
  let products : List Product :=
    find keyword pageSize (Binary64.mul pageSize (Binary64.sub page (JSNum.fin 1)))
  (200,
    { products := products.map productResponse
      page := page
      pages := JSNum.ceil (Binary64.div (JSNum.fin count) pageSize)
      hasMore := JSNum.lt page (JSNum.ceil (Binary64.div (JSNum.fin count) pageSize))
      total := count })

/-! ## Spec-side definitions -/

/-- Rounding to two decimal places, ties away from zero. -/
def round2 (x : ℚ) : ℚ :=
  if x < 0 then -((⌊-x * 100 + 1 / 2⌋ : ℤ) : ℚ) / 100 else ((⌊x * 100 + 1 / 2⌋ : ℤ) : ℚ) / 100

/-- A decimal string with exactly two digits after the point: an optional
minus sign, at least one digit, a point, two digits, and nothing else. -/
def isTwoPlaceDecimal (s : String) : Bool :=
  let cs : List Char := match s.data with
    | '-' :: r => r
    | r => r
  match cs.dropWhile Char.isDigit with
  | ['.', a, b] => !(cs.takeWhile Char.isDigit).isEmpty && a.isDigit && b.isDigit
  | _ => false

/-- The decimal digits of a number by position, most significant first. -/
def decimalDigits (n : Nat) : List Char :=
  if _h : n < 10 then [Nat.digitChar n] else decimalDigits (n / 10) ++ [Nat.digitChar (n % 10)]
termination_by n
decreasing_by omega

/-- The sum of a list of numbers. -/
def JSNum.sum (xs : List JSNum) : JSNum := xs.foldr JSNum.add (JSNum.fin 0)

/-- The product after an accepted review: the new review at the end of the
list, the count and the mean recomputed from the whole list. -/
def withReview (product : Product) (req : ReviewRequest) : Product :=
  { product with
    reviews := product.reviews ++
      [{ name := req.username, rating := req.rating.toNumber, comment := req.comment,
         user := req.userId }]
    numReviews := JSNum.fin (product.reviews ++
      [({ name := req.username, rating := req.rating.toNumber, comment := req.comment,
          user := req.userId } : Review)]).length
    rating := averageRating (product.reviews ++
      [{ name := req.username, rating := req.rating.toNumber, comment := req.comment,
         user := req.userId }]) }

/-- A client item with the price the client sent blanked out. -/
def ClientItem.withoutPrice (item : ClientItem) : ClientItem :=
  { item with price := JSValue.undefined }

/-- A request with every client-supplied price blanked out. -/
def OrderRequest.withoutPrices (req : OrderRequest) : OrderRequest :=
  { req with orderItems := req.orderItems.map fun items => items.map ClientItem.withoutPrice }

/-- A line item with numeric price and qty as an item of arbitrary values. -/
def OrderItem.toPriced (item : OrderItem) : PricedItem :=
  { price := JSValue.number (JSNum.fin item.price), qty := JSValue.number (JSNum.fin item.qty) }

/-- The four totals stored in an order. -/
def Order.prices (order : Order) : Prices :=
  { itemsPrice := order.itemsPrice
    shippingPrice := order.shippingPrice
    taxPrice := order.taxPrice
    totalPrice := order.totalPrice }

/-- The order that the handler builds from a non-empty list of client
items. -/
def orderOf (find : List String → List Product) (req : OrderRequest)
    (items : List ClientItem) : Order :=
  { orderItems := (items.map (validOrderItem (find (items.map fun item => item._id)))).map
      Prod.fst
    user := req.userId
    shippingAddress := req.shippingAddress
    paymentMethod := req.paymentMethod
    itemsPrice := (calcPricesValues (((items.map (validOrderItem
      (find (items.map fun item => item._id)))).map Prod.fst).map ValidItem.priced)).itemsPrice
    taxPrice := (calcPricesValues (((items.map (validOrderItem
      (find (items.map fun item => item._id)))).map Prod.fst).map ValidItem.priced)).taxPrice
    shippingPrice := (calcPricesValues (((items.map (validOrderItem
      (find (items.map fun item => item._id)))).map Prod.fst).map ValidItem.priced)).shippingPrice
    totalPrice := (calcPricesValues (((items.map (validOrderItem
      (find (items.map fun item => item._id)))).map Prod.fst).map ValidItem.priced)).totalPrice }

/-- The calls on `res` made inside `orderItems.map`. -/
def notFoundReplies (find : List String → List Product) (items : List ClientItem) :
    List OrderReply :=
  ((items.map (validOrderItem (find (items.map fun item => item._id)))).map Prod.snd).flatten

/-- The length of a string in UTF-16 code units, its `length` in JavaScript. -/
def utf16Length (s : String) : Nat := (utf16Units s).length

/-- The string has a lowercase letter `a` to `z`. -/
def hasLower (s : String) : Bool := s.data.any Char.isLower

/-- The string has an uppercase letter `A` to `Z`. -/
def hasUpper (s : String) : Bool := s.data.any Char.isUpper

/-- The string has a digit `0` to `9`. -/
def hasDigit (s : String) : Bool := s.data.any Char.isDigit

/-- The string has a special character: a non-word character or the
underscore, that is any character other than an ASCII letter or digit. -/
def hasSpecial (s : String) : Bool := s.data.any fun c => !c.isAlphanum

/-- The string has a line terminator (LF, CR, U+2028 or U+2029). -/
def hasLineTerminator (s : String) : Bool := s.data.any fun c => isLineTerminator c.toNat

/-- The message of `validateUserFields` about the password rules. -/
def passwordRuleMessage : String :=
  "Das Passwort muss mindestens 8 Zeichen lang sein und " ++
    "Großbuchstaben, Kleinbuchstaben, eine Zahl sowie ein Sonderzeichen enthalten."

/-- A rating between 1 and 5 inclusive. -/
def ratingInRange : JSNum → Bool
  | .fin q => decide (1 ≤ q ∧ q ≤ 5)
  | _ => false

/-- A line item whose price and qty are the number literals `price` and
`qty`: the binary64 numbers nearest to the two decimals. -/
def literalItem (price qty : ℚ) : PricedItem :=
  { price := JSValue.number (Binary64.ofRat price), qty := JSValue.number (Binary64.ofRat qty) }

/-- A review whose rating is the number literal `rating`. -/
def literalReview (rating : ℚ) : Review :=
  { name := "", rating := Binary64.ofRat rating, comment := JSValue.undefined,
    user := UserRef.str "" }

/-- A line item whose price and qty are the whole numbers `x.1` and `x.2`. -/
def wholeItem (x : ℤ × ℤ) : PricedItem :=
  { price := JSValue.number (JSNum.fin x.1), qty := JSValue.number (JSNum.fin x.2) }

/-- The tax before it is formatted, for the finite unrounded sum `S`: the
binary64 product of `S` and the literal `0.19`. -/
def Binary64.taxOf (S : ℚ) : ℚ := Binary64.fl (S * Binary64.fl (19 / 100))

/-- The total before it is formatted, for the finite unrounded sum `S`: the
binary64 sum of `S` and the shipping, plus the binary64 number nearest to the
tax rounded to two places. -/
def Binary64.totalOf (S : ℚ) : ℚ :=
  Binary64.fl (Binary64.fl (S + shippingOf S) + Binary64.fl (round2 (Binary64.taxOf S)))

/-- A number that is not negative: a non-negative finite number, `Infinity`
or NaN. -/
def JSNum.notNegative : JSNum → Prop
  | .fin q => 0 ≤ q
  | .negInf => False
  | _ => True

/-- The finite value of a rating, `0` for a rating that is not finite. -/
def Review.ratingValue (review : Review) : ℚ :=
  match review.rating with
  | .fin q => q
  | _ => 0

/-! ## Decimal digits -/

theorem digitChar_isDigit {m : Nat} (hm : m < 10) : (Nat.digitChar m).isDigit = true := by
  interval_cases m <;> decide

theorem digitChar_toNat {m : Nat} (hm : m < 10) : (Nat.digitChar m).toNat - 48 = m := by
  interval_cases m <;> decide

theorem digitsValue_append_singleton (ds : List Char) (c : Char) :
    digitsValue (ds ++ [c]) = 10 * digitsValue ds + (c.toNat - 48) := by
  simp [digitsValue, List.foldl_append]

theorem decimalDigits_small (n : Nat) (h : n < 10) : decimalDigits n = [Nat.digitChar n] := by
  rw [decimalDigits, dif_pos h]

theorem decimalDigits_large (n : Nat) (h : ¬n < 10) :
    decimalDigits n = decimalDigits (n / 10) ++ [Nat.digitChar (n % 10)] := by
  rw [decimalDigits, dif_neg h]

/-- With fuel above `n`, the digit loop of the standard library puts the
positional digits of `n` in front of its accumulator. -/
theorem toDigitsCore_decimalDigits (fuel : Nat) :
    ∀ n acc, n < fuel → Nat.toDigitsCore 10 fuel n acc = decimalDigits n ++ acc := by
  induction fuel with
  | zero =>
    intro n acc hlt
    exact absurd hlt (Nat.not_lt_zero n)
  | succ fuel ih =>
    intro n acc hlt
    rw [Nat.toDigitsCore]
    by_cases hsmall : n < 10
    · have hq : n / 10 = 0 := Nat.div_eq_of_lt hsmall
      simp only [hq, if_true, decimalDigits_small n hsmall, Nat.mod_eq_of_lt hsmall,
        List.singleton_append]
    · have hq : n / 10 ≠ 0 := by omega
      simp only [hq, if_false]
      rw [ih (n / 10) _ (by omega), decimalDigits_large n hsmall, List.append_assoc,
        List.singleton_append]

theorem toDigits_eq_decimalDigits (n : Nat) : Nat.toDigits 10 n = decimalDigits n := by
  rw [Nat.toDigits, toDigitsCore_decimalDigits (n + 1) n [] (Nat.lt_succ_self n),
    List.append_nil]

theorem decimalDigits_ne_nil (n : Nat) : decimalDigits n ≠ [] := by
  by_cases hsmall : n < 10
  · rw [decimalDigits_small n hsmall]
    exact List.cons_ne_nil _ _
  · rw [decimalDigits_large n hsmall]
    exact List.append_ne_nil_of_right_ne_nil _ (List.cons_ne_nil _ _)

theorem decimalDigits_isDigit (n : Nat) : ∀ c ∈ decimalDigits n, c.isDigit = true := by
  induction n using Nat.strong_induction_on with
  | _ n ih =>
    intro c hc
    by_cases hsmall : n < 10
    · rw [decimalDigits_small n hsmall, List.mem_singleton] at hc
      rw [hc]
      exact digitChar_isDigit hsmall
    · rw [decimalDigits_large n hsmall, List.mem_append, List.mem_singleton] at hc
      rcases hc with hc | hc
      · exact ih (n / 10) (by omega) c hc
      · rw [hc]
        exact digitChar_isDigit (Nat.mod_lt n (by decide))

theorem digitsValue_decimalDigits (n : Nat) : digitsValue (decimalDigits n) = n := by
  induction n using Nat.strong_induction_on with
  | _ n ih =>
    by_cases hsmall : n < 10
    · rw [decimalDigits_small n hsmall]
      have := digitsValue_append_singleton [] (Nat.digitChar n)
      rw [List.nil_append] at this
      rw [this, digitChar_toNat hsmall]
      show 10 * 0 + n = n
      omega
    · rw [decimalDigits_large n hsmall, digitsValue_append_singleton, ih (n / 10) (by omega),
        digitChar_toNat (Nat.mod_lt n (by decide))]
      omega

theorem toDigits_spec (n : Nat) :
    Nat.toDigits 10 n ≠ [] ∧ (∀ c ∈ Nat.toDigits 10 n, c.isDigit = true) ∧
      digitsValue (Nat.toDigits 10 n) = n := by
  rw [toDigits_eq_decimalDigits]
  exact ⟨decimalDigits_ne_nil n, decimalDigits_isDigit n, digitsValue_decimalDigits n⟩

theorem digitsValue_replicate_zero_append (k : Nat) (ds : List Char) :
    digitsValue (List.replicate k '0' ++ ds) = digitsValue ds := by
  induction k with
  | zero => simp
  | succ k ih =>
    have h0 : ∀ l : List Char, digitsValue ('0' :: l) = digitsValue l := by
      intro l
      simp [digitsValue]
    rw [List.replicate_succ, List.cons_append, h0, ih]

theorem takeWhile_digits_point (ip r : List Char) (h : ∀ c ∈ ip, c.isDigit = true) :
    (ip ++ '.' :: r).takeWhile Char.isDigit = ip ∧
      (ip ++ '.' :: r).dropWhile Char.isDigit = '.' :: r := by
  induction ip with
  | nil =>
    have hp : Char.isDigit '.' = false := by decide
    simp [List.takeWhile, List.dropWhile, hp]
  | cons c ip ih =>
    have hc : c.isDigit = true := h c (List.mem_cons_self _ _)
    have ih2 := ih (fun d hd => h d (List.mem_cons_of_mem _ hd))
    simp [List.takeWhile, List.dropWhile, hc, ih2.1, ih2.2]

theorem takeWhile_digits_all (ds : List Char) (h : ∀ c ∈ ds, c.isDigit = true) :
    ds.takeWhile Char.isDigit = ds ∧ ds.dropWhile Char.isDigit = [] := by
  induction ds with
  | nil => simp
  | cons c ds ih =>
    have hc : c.isDigit = true := h c (List.mem_cons_self _ _)
    have ih2 := ih (fun d hd => h d (List.mem_cons_of_mem _ hd))
    simp [List.takeWhile, List.dropWhile, hc, ih2.1, ih2.2]

/-- Shape of the fixed-point text: a non-empty run of digits, a point and two
digits, the digits together writing `n`. -/
theorem fixedChars_spec (n : Nat) :
    ∃ (ip : List Char) (a b : Char), fixedChars n = ip ++ ['.', a, b] ∧ ip ≠ [] ∧
      (∀ c ∈ ip, c.isDigit = true) ∧ a.isDigit = true ∧ b.isDigit = true ∧
      digitsValue (ip ++ [a, b]) = n := by
  -- the digits before padding
  obtain ⟨m0, hm0, hne0, hdig0, hval0⟩ : ∃ m0 : List Char,
      (if n = 0 then ['0'] else Nat.toDigits 10 n) = m0 ∧ m0 ≠ [] ∧
        (∀ c ∈ m0, c.isDigit = true) ∧ digitsValue m0 = n := by
    by_cases hn : n = 0
    · refine ⟨['0'], by simp [hn], by simp, ?_, ?_⟩
      · intro c hc
        rw [List.mem_singleton] at hc
        rw [hc]
        decide
      · rw [hn]
        decide
    · obtain ⟨h1, h2, h3⟩ := toDigits_spec n
      exact ⟨Nat.toDigits 10 n, by simp [hn], h1, h2, h3⟩
  -- the digits after padding
  obtain ⟨m, hm, hlen, hdig, hval⟩ : ∃ m : List Char,
      (if m0.length ≤ 2 then List.replicate (2 + 1 - m0.length) '0' ++ m0 else m0) = m ∧
        3 ≤ m.length ∧ (∀ c ∈ m, c.isDigit = true) ∧ digitsValue m = n := by
    by_cases hk : m0.length ≤ 2
    · refine ⟨List.replicate (2 + 1 - m0.length) '0' ++ m0, by simp [hk], ?_, ?_, ?_⟩
      · simp only [List.length_append, List.length_replicate]
        omega
      · intro c hc
        rcases List.mem_append.mp hc with hc | hc
        · rw [(List.mem_replicate.mp hc).2]
          decide
        · exact hdig0 c hc
      · rw [digitsValue_replicate_zero_append, hval0]
    · exact ⟨m0, by simp [hk], by omega, hdig0, hval0⟩
  have hfix : fixedChars n = m.take (m.length - 2) ++ '.' :: m.drop (m.length - 2) := by
    simp only [fixedChars, hm0, hm]
  have hdrop : (m.drop (m.length - 2)).length = 2 := by
    rw [List.length_drop]
    omega
  obtain ⟨a, b, hab⟩ : ∃ a b : Char, m.drop (m.length - 2) = [a, b] := by
    match hd : m.drop (m.length - 2), hdrop with
    | [a, b], _ => exact ⟨a, b, rfl⟩
  have hsplit : m.take (m.length - 2) ++ [a, b] = m := by
    rw [← hab]
    exact List.take_append_drop _ _
  refine ⟨m.take (m.length - 2), a, b, by rw [hfix, hab], ?_, ?_, ?_, ?_, ?_⟩
  · intro h
    have : (m.take (m.length - 2)).length = 0 := by rw [h]; rfl
    rw [List.length_take] at this
    omega
  · intro c hc
    exact hdig c (List.mem_of_mem_take hc)
  · apply hdig a
    rw [← hsplit]
    simp
  · apply hdig b
    rw [← hsplit]
    simp
  · rw [hsplit, hval]

/-! ## Reading back what `toFixed(2)` wrote -/

theorem isDigit_bounds (c : Char) (h : c.isDigit = true) : 48 ≤ c.toNat ∧ c.toNat ≤ 57 := by
  simp only [Char.isDigit, Bool.and_eq_true, decide_eq_true_eq] at h
  have h1 : (48 : UInt32).toNat ≤ c.val.toNat := h.1
  have h2 : c.val.toNat ≤ (57 : UInt32).toNat := h.2
  exact ⟨h1, h2⟩

theorem isDigit_not_white (c : Char) (h : c.isDigit = true) : isJSWhiteSpace c = false := by
  obtain ⟨h1, h2⟩ := isDigit_bounds c h
  simp only [isJSWhiteSpace, decide_eq_false_iff_not, List.mem_cons, List.mem_singleton,
    List.not_mem_nil, or_false, not_or]
  omega

theorem isDigit_ne (c d : Char) (h : c.isDigit = true) (hd : d.isDigit = false) : c ≠ d := by
  intro hcd
  rw [hcd, hd] at h
  cases h

/-- The scanner reads a fixed-point text back as its digits over one hundred
and consumes all of it. -/
theorem scanUnsigned_fixed (ip : List Char) (a b : Char) (hne : ip ≠ [])
    (hip : ∀ c ∈ ip, c.isDigit = true) (ha : a.isDigit = true) (hb : b.isDigit = true) :
    scanUnsigned (ip ++ ['.', a, b]) =
      some (JSNum.fin ((digitsValue (ip ++ [a, b]) : ℚ) / 100), []) := by
  obtain ⟨c, ip', rfl⟩ := List.exists_cons_of_ne_nil hne
  have hc : c.isDigit = true := hip c (List.mem_cons_self _ _)
  have hI : ('I' == c) = false := by
    rw [beq_eq_false_iff_ne]
    exact (isDigit_ne c 'I' hc (by decide)).symm
  have hpre : "Infinity".data.isPrefixOf ((c :: ip') ++ ['.', a, b]) = false := by
    show List.isPrefixOf ('I' :: "nfinity".data) (c :: (ip' ++ ['.', a, b])) = false
    simp [List.isPrefixOf, hI]
  obtain ⟨ht, hd⟩ := takeWhile_digits_point (c :: ip') [a, b] hip
  have hab : ∀ x ∈ [a, b], x.isDigit = true := by
    intro x hx
    simp only [List.mem_cons, List.mem_singleton, List.not_mem_nil, or_false] at hx
    rcases hx with rfl | rfl
    · exact ha
    · exact hb
  obtain ⟨ht2, hd2⟩ := takeWhile_digits_all [a, b] hab
  unfold scanUnsigned
  rw [hpre]
  simp only [Bool.false_eq_true, if_false, hd, ht, ht2, hd2]
  simp [scanExponent]
  norm_num

/-- The fixed-point text starts with a digit and scans back to `n / 100`. -/
theorem scan_fixedChars (n : Nat) :
    ∃ (c : Char) (rest : List Char), fixedChars n = c :: rest ∧ c.isDigit = true ∧
      scanUnsigned (c :: rest) = some (JSNum.fin ((n : ℚ) / 100), []) := by
  obtain ⟨ip, a, b, hfix, hne, hip, ha, hb, hval⟩ := fixedChars_spec n
  have hscan := scanUnsigned_fixed ip a b hne hip ha hb
  rw [hval] at hscan
  obtain ⟨c, ip', rfl⟩ := List.exists_cons_of_ne_nil hne
  exact ⟨c, ip' ++ ['.', a, b], hfix, hip c (List.mem_cons_self _ _), hscan⟩

theorem nearestHundredths_cast (a : ℚ) (ha : 0 ≤ a) :
    ((nearestHundredths a : ℕ) : ℚ) = ((⌊a * 100 + 1 / 2⌋ : ℤ) : ℚ) := by
  have hfloor : (0 : ℤ) ≤ ⌊a * 100 + 1 / 2⌋ := by
    apply Int.floor_nonneg.mpr
    linarith
  unfold nearestHundredths
  exact_mod_cast congrArg (Int.cast : ℤ → ℚ) (Int.toNat_of_nonneg hfloor)

/-- Reading `x.toFixed(2)` back with `parseFloat` gives `x` rounded to two
decimal places. -/
theorem parseFloat_toFixed2 (x : ℚ) : parseFloat (toFixed2 x) = JSNum.fin (round2 x) := by
  by_cases hx : x < 0
  · obtain ⟨c, rest, hfix, hc, hscan⟩ := scan_fixedChars (nearestHundredths (-x))
    have hdata : (toFixed2 x).data = '-' :: c :: rest := by
      simp only [toFixed2, toFixed2Chars, hx, if_true, hfix]
      rfl
    have hw : isJSWhiteSpace '-' = false := by decide
    have hcast := nearestHundredths_cast (-x) (by linarith)
    have hparse : parseFloat (toFixed2 x) = JSNum.fin (-((nearestHundredths (-x) : ℕ) / 100)) := by
      simp only [parseFloat, hdata, List.dropWhile, hw, scanSigned, hscan]
      rfl
    rw [hparse, hcast, round2, if_pos hx]
    congr 1
    ring
  · obtain ⟨c, rest, hfix, hc, hscan⟩ := scan_fixedChars (nearestHundredths x)
    have hdata : (toFixed2 x).data = c :: rest := by
      simp only [toFixed2, toFixed2Chars, hx, if_false, hfix]
      rfl
    have hw : isJSWhiteSpace c = false := isDigit_not_white c hc
    have hm : c ≠ '-' := isDigit_ne c '-' hc (by decide)
    have hp : c ≠ '+' := isDigit_ne c '+' hc (by decide)
    have hsigned : scanSigned (c :: rest) = scanUnsigned (c :: rest) := by
      unfold scanSigned
      split
      · rename_i heq
        exact absurd (List.cons.inj heq).1 hm
      · rename_i heq
        exact absurd (List.cons.inj heq).1 hp
      · rfl
    have hcast := nearestHundredths_cast x (not_lt.mp hx)
    simp only [parseFloat, hdata, List.dropWhile, hw, hsigned, hscan, round2, if_neg hx, hcast]



/-! ## Rounding -/

theorem round2_of_nonneg (x : ℚ) (hx : 0 ≤ x) :
    round2 x = ((⌊x * 100 + 1 / 2⌋ : ℤ) : ℚ) / 100 := by
  rw [round2, if_neg (not_lt.mpr hx)]

theorem round2_nonneg (x : ℚ) (hx : 0 ≤ x) : 0 ≤ round2 x := by
  rw [round2_of_nonneg x hx]
  have hfloor : (0 : ℤ) ≤ ⌊x * 100 + 1 / 2⌋ := by
    apply Int.floor_nonneg.mpr
    linarith
  have : (0 : ℚ) ≤ ((⌊x * 100 + 1 / 2⌋ : ℤ) : ℚ) := by exact_mod_cast hfloor
  positivity

/-- The rounded value is a whole number of hundredths at most half a
hundredth away from the argument. -/
theorem round2_near (x : ℚ) : (∃ k : ℤ, round2 x = (k : ℚ) / 100) ∧ |round2 x - x| ≤ 1 / 200 := by
  by_cases hx : x < 0
  · rw [round2, if_pos hx]
    refine ⟨⟨-⌊-x * 100 + 1 / 2⌋, by push_cast; ring⟩, ?_⟩
    have h1 := Int.floor_le (-x * 100 + 1 / 2)
    have h2 := Int.lt_floor_add_one (-x * 100 + 1 / 2)
    rw [abs_le]
    constructor <;> linarith
  · rw [round2, if_neg hx]
    refine ⟨⟨⌊x * 100 + 1 / 2⌋, rfl⟩, ?_⟩
    have h1 := Int.floor_le (x * 100 + 1 / 2)
    have h2 := Int.lt_floor_add_one (x * 100 + 1 / 2)
    rw [abs_le]
    constructor <;> linarith

/-- Rounding commutes with adding a whole number of hundredths, on the
non-negative numbers. -/
theorem round2_add_hundredths (x : ℚ) (k : ℤ) (hx : 0 ≤ x) (hk : 0 ≤ k) :
    round2 (x + (k : ℚ) / 100) = round2 x + (k : ℚ) / 100 := by
  have hk' : (0 : ℚ) ≤ (k : ℚ) := by exact_mod_cast hk
  have hsum : 0 ≤ x + (k : ℚ) / 100 := by positivity
  rw [round2_of_nonneg _ hsum, round2_of_nonneg _ hx]
  have : (x + (k : ℚ) / 100) * 100 + 1 / 2 = (x * 100 + 1 / 2) + (k : ℚ) := by ring
  rw [this, Int.floor_add_int]
  push_cast
  ring

/-- Evaluation of `round2` at a non-negative number from the two bounds on
its number of hundredths. -/
theorem round2_eval (x : ℚ) (n : ℕ) (hx : 0 ≤ x) (h1 : (n : ℚ) ≤ x * 100 + 1 / 2)
    (h2 : x * 100 + 1 / 2 < (n : ℚ) + 1) : round2 x = (n : ℚ) / 100 := by
  rw [round2_of_nonneg x hx]
  have : ⌊x * 100 + 1 / 2⌋ = (n : ℤ) := by
    rw [Int.floor_eq_iff]
    exact ⟨by exact_mod_cast h1, by exact_mod_cast h2⟩
  rw [this, Int.cast_natCast]

/-- Evaluation of `toFixed2` at a non-negative number from the two bounds on
its number of hundredths. -/
theorem toFixed2_eval (x : ℚ) (n : ℕ) (hx : 0 ≤ x) (h1 : (n : ℚ) ≤ x * 100 + 1 / 2)
    (h2 : x * 100 + 1 / 2 < (n : ℚ) + 1) : toFixed2 x = String.mk (fixedChars n) := by
  have : nearestHundredths x = n := by
    unfold nearestHundredths
    have : ⌊x * 100 + 1 / 2⌋ = (n : ℤ) := by
      rw [Int.floor_eq_iff]
      exact ⟨by exact_mod_cast h1, by exact_mod_cast h2⟩
    rw [this]
    exact Int.toNat_ofNat n
  simp only [toFixed2, toFixed2Chars, if_neg (not_lt.mpr hx), this, List.nil_append]

theorem toFixed2_zero : toFixed2 0 = "0.00" := by
  rw [toFixed2_eval 0 0 (le_refl _) (by norm_num) (by norm_num)]
  decide

theorem toFixed2_ten : toFixed2 10 = "10.00" := by
  rw [toFixed2_eval 10 1000 (by norm_num) (by norm_num) (by norm_num)]
  decide

/-- Every string written by `toFixed2` has exactly two digits after the
point. -/
theorem toFixed2_twoPlace (x : ℚ) : isTwoPlaceDecimal (toFixed2 x) = true := by
  obtain ⟨ip, a, b, hfix, hne, hip, ha, hb, _⟩ :=
    fixedChars_spec (nearestHundredths (if x < 0 then -x else x))
  obtain ⟨ht, hd⟩ := takeWhile_digits_point ip [a, b] hip
  obtain ⟨c, ip', rfl⟩ := List.exists_cons_of_ne_nil hne
  have hc : c.isDigit = true := hip c (List.mem_cons_self _ _)
  have hm : c ≠ '-' := isDigit_ne c '-' hc (by decide)
  by_cases hx : x < 0
  · have hdata : (toFixed2 x).data = '-' :: ((c :: ip') ++ ['.', a, b]) := by
      simp only [toFixed2, toFixed2Chars, hx, if_true] at hfix ⊢
      rw [hfix]
      rfl
    simp only [isTwoPlaceDecimal, hdata, hd, ht, ha, hb]
    rfl
  · have hdata : (toFixed2 x).data = c :: (ip' ++ ['.', a, b]) := by
      simp only [toFixed2, toFixed2Chars, hx, if_false] at hfix ⊢
      rw [hfix]
      rfl
    have hcs : (match (toFixed2 x).data with
        | '-' :: r => r
        | r => r) = (c :: ip') ++ ['.', a, b] := by
      rw [hdata]
      split
      · rename_i heq
        exact absurd (List.cons.inj heq).1 hm
      · rfl
    simp only [isTwoPlaceDecimal, hcs, hd, ht, ha, hb]
    rfl

/-! ## Facts about `calcPrices` -/

theorem foldl_items (items : List OrderItem) (acc : ℚ) :
    items.foldl (fun acc item => acc + item.price * item.qty) acc =
      acc + (items.map fun item => item.price * item.qty).sum := by
  induction items generalizing acc with
  | nil => simp
  | cons it items ih =>
    rw [List.foldl_cons, ih, List.map_cons, List.sum_cons]
    ring

/-- The `reduce` of `calcPrices` is the sum of `price * qty` over the items. -/
theorem itemsSum_eq_sum (items : List OrderItem) :
    itemsSum items = (items.map fun item => item.price * item.qty).sum := by
  rw [itemsSum, foldl_items, zero_add]

theorem itemsSum_nonneg (items : List OrderItem)
    (h : ∀ item ∈ items, 0 ≤ item.price ∧ 0 ≤ item.qty) : 0 ≤ itemsSum items := by
  rw [itemsSum_eq_sum]
  apply List.sum_nonneg
  intro x hx
  obtain ⟨item, hitem, rfl⟩ := List.mem_map.mp hx
  exact mul_nonneg (h item hitem).1 (h item hitem).2

/-- The four strings of `calcPrices` in terms of the unrounded sum: the
`parseFloat` of the tax string is the rounded tax. -/
theorem calcPrices_eq (items : List OrderItem) :
    calcPrices items =
      { itemsPrice := toFixed2 (itemsSum items)
        shippingPrice := toFixed2 (shippingOf (itemsSum items))
        taxPrice := toFixed2 (itemsSum items * taxRate)
        totalPrice := toFixed2 (itemsSum items + shippingOf (itemsSum items) +
          round2 (itemsSum items * taxRate)) } := by
  simp only [calcPrices, parseFloat_toFixed2, JSNum.add, JSNum.toFixed2]

theorem round2_shippingOf (x : ℚ) : round2 (shippingOf x) = shippingOf x := by
  unfold shippingOf
  split
  · rw [round2_eval 0 0 (le_refl _) (by norm_num) (by norm_num)]
    norm_num
  · rw [round2_eval 10 1000 (by norm_num) (by norm_num) (by norm_num)]
    norm_num

/-! ## The claims about `calcPrices` -/

/-- C6: `calcPrices` of the empty list is itemsPrice "0.00", shippingPrice
"10.00", taxPrice "0.00" and totalPrice "10.00". -/
theorem calcPrices_nil :
    calcPrices [] =
      { itemsPrice := "0.00", shippingPrice := "10.00", taxPrice := "0.00",
        totalPrice := "10.00" } := by
  have hS : itemsSum [] = 0 := rfl
  have hship : shippingOf 0 = 10 := by norm_num [shippingOf]
  have htax : round2 (0 * taxRate) = 0 := by
    rw [round2_eval (0 * taxRate) 0 (by norm_num) (by norm_num) (by norm_num)]
    norm_num
  rw [calcPrices_eq, hS, hship, htax]
  have h0 : (0 : ℚ) * taxRate = 0 := by norm_num
  have h10 : (0 : ℚ) + 10 + 0 = 10 := by norm_num
  rw [h0, h10, toFixed2_zero, toFixed2_ten]

/-- C7: `calcPrices` of the items `10 × 2` and `5 × 1` is itemsPrice "25.00",
shippingPrice "10.00", taxPrice "4.75" and totalPrice "39.75". -/
theorem calcPrices_example :
    calcPrices [⟨10, 2⟩, ⟨5, 1⟩] =
      { itemsPrice := "25.00", shippingPrice := "10.00", taxPrice := "4.75",
        totalPrice := "39.75" } := by
  have hS : itemsSum [⟨10, 2⟩, ⟨5, 1⟩] = 25 := by norm_num [itemsSum]
  have hship : shippingOf 25 = 10 := by norm_num [shippingOf]
  have htax : round2 (25 * taxRate) = 475 / 100 := by
    rw [round2_eval (25 * taxRate) 475 (by norm_num [taxRate]) (by norm_num [taxRate])
      (by norm_num [taxRate])]
    norm_num
  have h25 : toFixed2 25 = "25.00" := by
    rw [toFixed2_eval 25 2500 (by norm_num) (by norm_num) (by norm_num)]
    decide
  have h475 : toFixed2 (25 * taxRate) = "4.75" := by
    rw [toFixed2_eval (25 * taxRate) 475 (by norm_num [taxRate]) (by norm_num [taxRate])
      (by norm_num [taxRate])]
    decide
  have h3975 : toFixed2 (25 + 10 + 475 / 100) = "39.75" := by
    rw [toFixed2_eval (25 + 10 + 475 / 100) 3975 (by norm_num) (by norm_num) (by norm_num)]
    decide
  rw [calcPrices_eq, hS, hship, htax, h25, h475, h3975, toFixed2_ten]

/-! ## Facts about the rating mean -/

theorem jsAdd_comm (a b : JSNum) : JSNum.add a b = JSNum.add b a := by
  cases a <;> cases b <;> simp [JSNum.add, add_comm]

theorem jsAdd_assoc (a b c : JSNum) :
    JSNum.add (JSNum.add a b) c = JSNum.add a (JSNum.add b c) := by
  cases a <;> cases b <;> cases c <;> simp [JSNum.add, add_assoc]

theorem foldl_ratings (reviews : List Review) (acc : JSNum) :
    reviews.foldl (fun acc item => JSNum.add item.rating acc) acc =
      JSNum.add (JSNum.sum (reviews.map Review.rating)) acc := by
  induction reviews generalizing acc with
  | nil =>
    cases acc <;> simp [JSNum.sum, JSNum.add]
  | cons r reviews ih =>
    rw [List.foldl_cons, ih, List.map_cons]
    show _ = JSNum.add (JSNum.add r.rating (JSNum.sum (reviews.map Review.rating))) acc
    rw [jsAdd_comm r.rating (JSNum.sum _), jsAdd_assoc]

theorem jsAdd_zero (a : JSNum) : JSNum.add a (JSNum.fin 0) = a := by
  cases a <;> simp [JSNum.add]

/-- The handler's mean is the sum of the ratings over their number. -/
theorem averageRating_eq (reviews : List Review) :
    averageRating reviews =
      JSNum.div (JSNum.sum (reviews.map Review.rating)) (JSNum.fin reviews.length) := by
  rw [averageRating, foldl_ratings, jsAdd_zero]

theorem jsSum_fin (qs : List ℚ) : JSNum.sum (qs.map JSNum.fin) = JSNum.fin qs.sum := by
  induction qs with
  | nil => rfl
  | cons q qs ih =>
    rw [List.map_cons, List.sum_cons]
    show JSNum.add (JSNum.fin q) (JSNum.sum (qs.map JSNum.fin)) = _
    rw [ih]
    rfl

/-! ## The claims about `addProductReviewHandler` -/

/-- C9: when some existing review of the product has the same user identity
as the requesting user (compared as strings), the handler responds 400 with
message "Produkt wurde bereits bewertet.", does not call save, and leaves the
product (its reviews, numReviews and rating included) unchanged. -/
theorem addProductReview_duplicate (product : Product) (saveResolves : Product → Bool)
    (req : ReviewRequest)
    (h : ∃ r ∈ product.reviews, r.user.toString = req.userId.toString) :
    addProductReviewHandler (some product) saveResolves req =
      { response := some ⟨400, "Produkt wurde bereits bewertet."⟩
        product := some product
        saveCalled := false } := by
  have hfind : (product.reviews.find?
      (fun r => r.user.toString == req.userId.toString)).isSome = true := by
    rw [List.find?_isSome]
    obtain ⟨r, hr, heq⟩ := h
    exact ⟨r, hr, by simp [heq]⟩
  simp only [addProductReviewHandler, hfind, if_true]

/-- A duplicate rejected: the stored review carries the user as an object id,
the request as a string with the same text. -/
theorem addProductReview_duplicate_witness :
    (∃ r ∈ [(⟨"tester", JSNum.fin 5, JSValue.string "Super!", UserRef.objectId "u1"⟩ : Review)],
      r.user.toString = (UserRef.str "u1").toString) ∧
    addProductReviewHandler
        (some ⟨"1", .null, .null, .null, .null, .null, .null, .null, .null,
          [⟨"tester", JSNum.fin 5, JSValue.string "Super!", UserRef.objectId "u1"⟩],
          JSNum.fin 5, JSNum.fin 1⟩)
        (fun _ => true) ⟨.number (JSNum.fin 3), .string "Nochmal", UserRef.str "u1", "tester"⟩ =
      { response := some ⟨400, "Produkt wurde bereits bewertet."⟩
        product := some ⟨"1", .null, .null, .null, .null, .null, .null, .null, .null,
          [⟨"tester", JSNum.fin 5, JSValue.string "Super!", UserRef.objectId "u1"⟩],
          JSNum.fin 5, JSNum.fin 1⟩
        saveCalled := false } :=
  ⟨⟨_, List.mem_singleton.mpr rfl, rfl⟩,
    addProductReview_duplicate _ _ _ ⟨_, List.mem_singleton.mpr rfl, rfl⟩⟩

/-- C10: when no existing review belongs to the requesting user, the product
after the call has the old reviews followed by the new one, and its rating is
the sum of the ratings of all these reviews divided by their number (for
finite ratings `qs`, the rational `qs.sum / qs.length`); an existing rating 4
followed by a new rating 2 gives numReviews 2 and rating 3. -/
theorem addProductReview_rating (product : Product) (saveResolves : Product → Bool)
    (req : ReviewRequest)
    (h : ∀ r ∈ product.reviews, r.user.toString ≠ req.userId.toString) :
    (∃ updated : Product,
      (addProductReviewHandler (some product) saveResolves req).product = some updated ∧
      updated.reviews = product.reviews ++
        [{ name := req.username, rating := req.rating.toNumber, comment := req.comment,
           user := req.userId }] ∧
      updated.rating = JSNum.div (JSNum.sum (updated.reviews.map Review.rating))
        (JSNum.fin updated.reviews.length) ∧
      ∀ qs : List ℚ, updated.reviews.map Review.rating = qs.map JSNum.fin →
        updated.rating = JSNum.fin (qs.sum / qs.length)) ∧
    (∃ updated : Product,
      (addProductReviewHandler
        (some ⟨"1", .null, .null, .null, .null, .null, .null, .null, .null,
          [⟨"user2", JSNum.fin 4, JSValue.string "Gut!", UserRef.str "u2"⟩],
          JSNum.fin 4, JSNum.fin 1⟩)
        (fun _ => true)
        ⟨.number (JSNum.fin 2), .string "Geht so", UserRef.str "u1", "tester"⟩).product =
        some updated ∧
      updated.numReviews = JSNum.fin 2 ∧ updated.rating = JSNum.fin 3) := by
  have hfind : (product.reviews.find?
      (fun r => r.user.toString == req.userId.toString)).isSome = false := by
    rw [Bool.eq_false_iff]
    intro hsome
    obtain ⟨r, hr, heq⟩ := List.find?_isSome.mp hsome
    exact h r hr (by simpa using heq)
  have hprod : (addProductReviewHandler (some product) saveResolves req).product =
      some { product with
        reviews := product.reviews ++ [(⟨req.username, req.rating.toNumber, req.comment,
          req.userId⟩ : Review)]
        numReviews := JSNum.fin (product.reviews ++ [(⟨req.username, req.rating.toNumber,
          req.comment, req.userId⟩ : Review)]).length
        rating := averageRating (product.reviews ++ [(⟨req.username, req.rating.toNumber,
          req.comment, req.userId⟩ : Review)]) } := by
    simp only [addProductReviewHandler, hfind]
    cases saveResolves _ <;> rfl
  constructor
  · refine ⟨_, hprod, rfl, averageRating_eq _, ?_⟩
    intro qs hqs
    show averageRating _ = _
    have hqs2 : (product.reviews ++ [(⟨req.username, req.rating.toNumber, req.comment,
        req.userId⟩ : Review)]).map Review.rating = qs.map JSNum.fin := hqs
    have hlen : (product.reviews ++ [(⟨req.username, req.rating.toNumber, req.comment,
        req.userId⟩ : Review)]).length = qs.length := by
      have := congrArg List.length hqs2
      simpa using this
    have hpos : (qs.length : ℚ) ≠ 0 := by
      rw [← hlen, List.length_append, List.length_singleton]
      exact_mod_cast Nat.succ_ne_zero product.reviews.length
    rw [averageRating_eq, hqs2, jsSum_fin, hlen]
    simp only [JSNum.div, hpos, if_false]
  · refine ⟨_, rfl, ?_, ?_⟩
    · simp
    · simp [averageRating, JSNum.add, JSNum.div, JSValue.toNumber]
      norm_num

/-- The mean after insertion at a product with two reviews by other users
that receives a third one. -/
theorem addProductReview_rating_witness :
    (∀ r ∈ [(⟨"anna", JSNum.fin 3, JSValue.string "ok", UserRef.str "u2"⟩ : Review),
        ⟨"bert", JSNum.fin 4, JSValue.string "gut", UserRef.objectId "u3"⟩],
      r.user.toString ≠ (UserRef.str "u1").toString) ∧
    ∃ updated : Product,
      (addProductReviewHandler
        (some ⟨"1", .null, .null, .null, .null, .null, .null, .null, .null,
          [⟨"anna", JSNum.fin 3, JSValue.string "ok", UserRef.str "u2"⟩,
           ⟨"bert", JSNum.fin 4, JSValue.string "gut", UserRef.objectId "u3"⟩],
          JSNum.fin 0, JSNum.fin 0⟩)
        (fun _ => true)
        ⟨.string "5", .string "Super!", UserRef.str "u1", "tester"⟩).product = some updated ∧
      updated.rating = JSNum.div (JSNum.sum (updated.reviews.map Review.rating))
        (JSNum.fin updated.reviews.length) :=
  ⟨by decide,
    match (addProductReview_rating
        ⟨"1", .null, .null, .null, .null, .null, .null, .null, .null,
          [⟨"anna", JSNum.fin 3, JSValue.string "ok", UserRef.str "u2"⟩,
           ⟨"bert", JSNum.fin 4, JSValue.string "gut", UserRef.objectId "u3"⟩],
          JSNum.fin 0, JSNum.fin 0⟩
        (fun _ => true)
        ⟨.string "5", .string "Super!", UserRef.str "u1", "tester"⟩ (by decide)).1 with
    | ⟨updated, h1, _, h3, _⟩ => ⟨updated, h1, h3⟩⟩


/-! ## More facts about `addProductReviewHandler` -/

theorem find_review_none (product : Product) (req : ReviewRequest)
    (h : ∀ r ∈ product.reviews, r.user.toString ≠ req.userId.toString) :
    (product.reviews.find?
      (fun r => r.user.toString == req.userId.toString)).isSome = false := by
  rw [Bool.eq_false_iff]
  intro hsome
  obtain ⟨r, hr, heq⟩ := List.find?_isSome.mp hsome
  exact h r hr (by simpa using heq)

theorem find_review_some (product : Product) (req : ReviewRequest)
    (h : ∃ r ∈ product.reviews, r.user.toString = req.userId.toString) :
    (product.reviews.find?
      (fun r => r.user.toString == req.userId.toString)).isSome = true := by
  rw [List.find?_isSome]
  obtain ⟨r, hr, heq⟩ := h
  exact ⟨r, hr, by simp [heq]⟩

/-- The outcome of the handler for a user without a review of the product. -/
theorem handler_of_fresh (product : Product) (saveResolves : Product → Bool)
    (req : ReviewRequest)
    (h : ∀ r ∈ product.reviews, r.user.toString ≠ req.userId.toString) :
    addProductReviewHandler (some product) saveResolves req =
      if saveResolves (withReview product req) then
        { response := some ⟨201, "Bewertung hinzugefügt."⟩
          product := some (withReview product req)
          saveCalled := true }
      else
        { response := none
          product := some (withReview product req)
          saveCalled := true } := by
  simp only [addProductReviewHandler, find_review_none product req h, withReview]
  rfl

/-- The outcome of the handler for a user with a review of the product. -/
theorem handler_of_reviewed (product : Product) (saveResolves : Product → Bool)
    (req : ReviewRequest)
    (h : ∃ r ∈ product.reviews, r.user.toString = req.userId.toString) :
    addProductReviewHandler (some product) saveResolves req =
      { response := some ⟨400, "Produkt wurde bereits bewertet."⟩
        product := some product
        saveCalled := false } := by
  simp only [addProductReviewHandler, find_review_some product req h, if_true]

theorem handler_product_of_fresh (product : Product) (saveResolves : Product → Bool)
    (req : ReviewRequest)
    (h : ∀ r ∈ product.reviews, r.user.toString ≠ req.userId.toString) :
    (addProductReviewHandler (some product) saveResolves req).product =
      some (withReview product req) := by
  rw [handler_of_fresh product saveResolves req h]
  split <;> rfl

theorem jsSum_perm (xs ys : List JSNum) (h : xs.Perm ys) : JSNum.sum xs = JSNum.sum ys := by
  induction h with
  | nil => rfl
  | cons a _ ih =>
    show JSNum.add a (JSNum.sum _) = JSNum.add a (JSNum.sum _)
    rw [ih]
  | swap a b l =>
    show JSNum.add b (JSNum.add a (JSNum.sum l)) = JSNum.add a (JSNum.add b (JSNum.sum l))
    rw [← jsAdd_assoc, ← jsAdd_assoc, jsAdd_comm b a]
  | trans _ _ ih1 ih2 => rw [ih1, ih2]

/-- The mean of finite ratings is their exact rational mean. -/
theorem averageRating_finite (reviews : List Review) (qs : List ℚ) (hne : reviews ≠ [])
    (hqs : reviews.map Review.rating = qs.map JSNum.fin) :
    averageRating reviews = JSNum.fin (qs.sum / qs.length) := by
  have hlen : reviews.length = qs.length := by
    have := congrArg List.length hqs
    simpa using this
  have hpos : (qs.length : ℚ) ≠ 0 := by
    rw [← hlen]
    exact_mod_cast (List.length_pos.mpr hne).ne'
  rw [averageRating_eq, hqs, jsSum_fin, hlen]
  simp only [JSNum.div, hpos, if_false]

/-! ## The claims about accepted reviews -/

/-- C11: when no review of the product belongs to the requesting user, the
review list becomes the old list followed by the one new review (name the
username, rating `Number(body.rating)`, the comment, the user id), numReviews
is the new length, the old length plus one, `save` is called, and the
response is 201 "Bewertung hinzugefügt." once `save` resolves. -/
theorem addProductReview_appends (product : Product) (saveResolves : Product → Bool)
    (req : ReviewRequest)
    (h : ∀ r ∈ product.reviews, r.user.toString ≠ req.userId.toString) :
    ∃ updated : Product,
      (addProductReviewHandler (some product) saveResolves req).product = some updated ∧
      updated.reviews = product.reviews ++
        [{ name := req.username, rating := req.rating.toNumber, comment := req.comment,
           user := req.userId }] ∧
      updated.numReviews = JSNum.fin updated.reviews.length ∧
      updated.reviews.length = product.reviews.length + 1 ∧
      (addProductReviewHandler (some product) saveResolves req).saveCalled = true ∧
      (saveResolves updated = true →
        (addProductReviewHandler (some product) saveResolves req).response =
          some ⟨201, "Bewertung hinzugefügt."⟩) := by
  refine ⟨withReview product req, handler_product_of_fresh product saveResolves req h, rfl, rfl,
    ?_, ?_, ?_⟩
  · simp [withReview]
  · rw [handler_of_fresh product saveResolves req h]
    split <;> rfl
  · intro hsave
    rw [handler_of_fresh product saveResolves req h, if_pos hsave]

/-- An accepted review at the product of the controller test: no reviews
yet, rating 5 by user `u1`. -/
theorem addProductReview_appends_witness :
    (∀ r ∈ ([] : List Review), r.user.toString ≠ (UserRef.str "u1").toString) ∧
    ∃ updated : Product,
      (addProductReviewHandler
        (some ⟨"1", .null, .null, .null, .null, .null, .null, .null, .null, [],
          JSNum.fin 0, JSNum.fin 0⟩)
        (fun _ => true)
        ⟨.number (JSNum.fin 5), .string "Super!", UserRef.str "u1", "tester"⟩).product =
        some updated ∧
      updated.reviews =
        [⟨"tester", JSNum.fin 5, JSValue.string "Super!", UserRef.str "u1"⟩] ∧
      (addProductReviewHandler
        (some ⟨"1", .null, .null, .null, .null, .null, .null, .null, .null, [],
          JSNum.fin 0, JSNum.fin 0⟩)
        (fun _ => true)
        ⟨.number (JSNum.fin 5), .string "Super!", UserRef.str "u1", "tester"⟩).response =
        some ⟨201, "Bewertung hinzugefügt."⟩ :=
  ⟨by simp,
    match addProductReview_appends
        ⟨"1", .null, .null, .null, .null, .null, .null, .null, .null, [],
          JSNum.fin 0, JSNum.fin 0⟩
        (fun _ => true)
        ⟨.number (JSNum.fin 5), .string "Super!", UserRef.str "u1", "tester"⟩ (by simp) with
    | ⟨updated, h1, h2, _, _, _, h6⟩ => ⟨updated, h1, h2, h6 rfl⟩⟩

/-- C12: if no two reviews of the product share a user identity (the text of
`toString()`) before the call, none do after it, whether the review is
accepted, rejected as a duplicate, or the product is not found. -/
theorem addProductReview_unique (found : Option Product) (saveResolves : Product → Bool)
    (req : ReviewRequest)
    (h : ∀ product, found = some product →
      (product.reviews.map fun r => r.user.toString).Nodup) :
    ∀ updated, (addProductReviewHandler found saveResolves req).product = some updated →
      (updated.reviews.map fun r => r.user.toString).Nodup := by
  intro updated hupd
  cases found with
  | none => simp [addProductReviewHandler] at hupd
  | some product =>
    have hnodup := h product rfl
    by_cases hdup : ∃ r ∈ product.reviews, r.user.toString = req.userId.toString
    · rw [handler_of_reviewed product saveResolves req hdup] at hupd
      cases hupd
      exact hnodup
    · have hfresh : ∀ r ∈ product.reviews, r.user.toString ≠ req.userId.toString := by
        intro r hr heq
        exact hdup ⟨r, hr, heq⟩
      rw [handler_product_of_fresh product saveResolves req hfresh] at hupd
      cases hupd
      show ((product.reviews ++ [(⟨req.username, req.rating.toNumber, req.comment,
        req.userId⟩ : Review)]).map fun r : Review => r.user.toString).Nodup
      rw [List.map_append, List.map_singleton, List.nodup_append]
      refine ⟨hnodup, List.nodup_singleton _, ?_⟩
      intro a ha hb
      rw [List.mem_singleton] at hb
      obtain ⟨r, hr, hra⟩ := List.mem_map.mp ha
      exact hfresh r hr (hra.trans hb)

/-- The invariant kept at a product with reviews by `u2` and `u3` when `u1`
adds a review. -/
theorem addProductReview_unique_witness :
    (∀ product : Product,
      some (⟨"1", .null, .null, .null, .null, .null, .null, .null, .null,
        [⟨"anna", JSNum.fin 3, JSValue.string "ok", UserRef.str "u2"⟩,
         ⟨"bert", JSNum.fin 4, JSValue.string "gut", UserRef.objectId "u3"⟩],
        JSNum.fin 0, JSNum.fin 0⟩ : Product) = some product →
      (product.reviews.map fun r => r.user.toString).Nodup) ∧
    ∀ updated, (addProductReviewHandler
        (some ⟨"1", .null, .null, .null, .null, .null, .null, .null, .null,
          [⟨"anna", JSNum.fin 3, JSValue.string "ok", UserRef.str "u2"⟩,
           ⟨"bert", JSNum.fin 4, JSValue.string "gut", UserRef.objectId "u3"⟩],
          JSNum.fin 0, JSNum.fin 0⟩)
        (fun _ => true)
        ⟨.string "5", .string "Super!", UserRef.str "u1", "tester"⟩).product = some updated →
      (updated.reviews.map fun r => r.user.toString).Nodup :=
  ⟨fun product hp => by cases hp; decide,
    addProductReview_unique _ _ _ (fun product hp => by cases hp; decide)⟩

/-- C13: two snapshots of a product with the same review list, whatever their
stored numReviews and rating, give the same numReviews, rating and reviews
after an accepted call with the same user and body. -/
theorem addProductReview_ignores_stored (first second : Product)
    (saveFirst saveSecond : Product → Bool) (req : ReviewRequest)
    (hsame : first.reviews = second.reviews)
    (h : ∀ r ∈ first.reviews, r.user.toString ≠ req.userId.toString) :
    ∃ a b : Product,
      (addProductReviewHandler (some first) saveFirst req).product = some a ∧
      (addProductReviewHandler (some second) saveSecond req).product = some b ∧
      a.numReviews = b.numReviews ∧ a.rating = b.rating ∧ a.reviews = b.reviews := by
  have h2 : ∀ r ∈ second.reviews, r.user.toString ≠ req.userId.toString := by
    rw [← hsame]
    exact h
  refine ⟨withReview first req, withReview second req,
    handler_product_of_fresh first saveFirst req h,
    handler_product_of_fresh second saveSecond req h2, ?_, ?_, ?_⟩
  · simp only [withReview, hsame]
  · simp only [withReview, hsame]
  · simp only [withReview, hsame]

/-- Two snapshots with one review each by `u2`, stored as 4 / 1 and as
0 / 17, receive the same review by `u1`. -/
theorem addProductReview_ignores_stored_witness :
    ([(⟨"user2", JSNum.fin 4, JSValue.string "Gut!", UserRef.str "u2"⟩ : Review)] =
      [⟨"user2", JSNum.fin 4, JSValue.string "Gut!", UserRef.str "u2"⟩]) ∧
    (∀ r ∈ [(⟨"user2", JSNum.fin 4, JSValue.string "Gut!", UserRef.str "u2"⟩ : Review)],
      r.user.toString ≠ (UserRef.str "u1").toString) ∧
    ∃ a b : Product,
      (addProductReviewHandler
        (some ⟨"1", .null, .null, .null, .null, .null, .null, .null, .null,
          [⟨"user2", JSNum.fin 4, JSValue.string "Gut!", UserRef.str "u2"⟩],
          JSNum.fin 4, JSNum.fin 1⟩)
        (fun _ => true)
        ⟨.number (JSNum.fin 2), .string "Geht so", UserRef.str "u1", "tester"⟩).product =
        some a ∧
      (addProductReviewHandler
        (some ⟨"1", .null, .null, .null, .null, .null, .null, .null, .null,
          [⟨"user2", JSNum.fin 4, JSValue.string "Gut!", UserRef.str "u2"⟩],
          JSNum.fin 0, JSNum.fin 17⟩)
        (fun _ => false)
        ⟨.number (JSNum.fin 2), .string "Geht so", UserRef.str "u1", "tester"⟩).product =
        some b ∧
      a.numReviews = b.numReviews ∧ a.rating = b.rating ∧ a.reviews = b.reviews :=
  ⟨rfl, by decide,
    addProductReview_ignores_stored
      ⟨"1", .null, .null, .null, .null, .null, .null, .null, .null,
        [⟨"user2", JSNum.fin 4, JSValue.string "Gut!", UserRef.str "u2"⟩],
        JSNum.fin 4, JSNum.fin 1⟩
      ⟨"1", .null, .null, .null, .null, .null, .null, .null, .null,
        [⟨"user2", JSNum.fin 4, JSValue.string "Gut!", UserRef.str "u2"⟩],
        JSNum.fin 0, JSNum.fin 17⟩
      (fun _ => true) (fun _ => false)
      ⟨.number (JSNum.fin 2), .string "Geht so", UserRef.str "u1", "tester"⟩ rfl (by decide)⟩

/-- C15 as stated fails: a request body with rating 7 is accepted (201) and
the review appended has rating 7, which is not between 1 and 5. -/
theorem reviewRating_unchecked :
    (addProductReviewHandler
        (some ⟨"1", .null, .null, .null, .null, .null, .null, .null, .null, [],
          JSNum.fin 0, JSNum.fin 0⟩)
        (fun _ => true)
        ⟨.number (JSNum.fin 7), .string "Super!", UserRef.str "u1", "tester"⟩).response =
        some ⟨201, "Bewertung hinzugefügt."⟩ ∧
    ((addProductReviewHandler
        (some ⟨"1", .null, .null, .null, .null, .null, .null, .null, .null, [],
          JSNum.fin 0, JSNum.fin 0⟩)
        (fun _ => true)
        ⟨.number (JSNum.fin 7), .string "Super!", UserRef.str "u1", "tester"⟩).product.map
          fun p => p.reviews) =
        some [⟨"tester", JSNum.fin 7, JSValue.string "Super!", UserRef.str "u1"⟩] ∧
    ratingInRange (JSNum.fin 7) = false := by
  refine ⟨rfl, rfl, ?_⟩
  simp [ratingInRange]
  norm_num

/-- C15 amended: the review that the handler appends has the rating
`Number(body.rating)` as it is, without a range check: it is between 1 and 5
exactly when `Number(body.rating)` is a finite number between 1 and 5. -/
theorem reviewRating_as_sent (product : Product) (saveResolves : Product → Bool)
    (req : ReviewRequest)
    (h : ∀ r ∈ product.reviews, r.user.toString ≠ req.userId.toString) :
    ∃ (updated : Product) (review : Review),
      (addProductReviewHandler (some product) saveResolves req).product = some updated ∧
      updated.reviews = product.reviews ++ [review] ∧
      review.rating = req.rating.toNumber ∧
      (ratingInRange review.rating = true ↔
        ∃ q : ℚ, req.rating.toNumber = JSNum.fin q ∧ 1 ≤ q ∧ q ≤ 5) := by
  refine ⟨withReview product req, _, handler_product_of_fresh product saveResolves req h, rfl,
    rfl, ?_⟩
  show ratingInRange req.rating.toNumber = true ↔ _
  cases hnum : req.rating.toNumber with
  | fin q => simp [ratingInRange]
  | posInf => simp [ratingInRange]
  | negInf => simp [ratingInRange]
  | nan => simp [ratingInRange]

/-- The rating of the review appended for a body with rating "3". -/
theorem reviewRating_as_sent_witness :
    (∀ r ∈ ([] : List Review), r.user.toString ≠ (UserRef.str "u1").toString) ∧
    ∃ (updated : Product) (review : Review),
      (addProductReviewHandler
        (some ⟨"1", .null, .null, .null, .null, .null, .null, .null, .null, [],
          JSNum.fin 0, JSNum.fin 0⟩)
        (fun _ => true)
        ⟨.string "3", .string "ok", UserRef.str "u1", "tester"⟩).product = some updated ∧
      updated.reviews = [] ++ [review] ∧
      review.rating = (JSValue.string "3").toNumber :=
  ⟨by simp,
    match reviewRating_as_sent
        ⟨"1", .null, .null, .null, .null, .null, .null, .null, .null, [],
          JSNum.fin 0, JSNum.fin 0⟩
        (fun _ => true)
        ⟨.string "3", .string "ok", UserRef.str "u1", "tester"⟩ (by simp) with
    | ⟨updated, review, h1, h2, h3, _⟩ => ⟨updated, review, h1, h2, h3⟩⟩

/-! ## Facts about `createOrderHandler` -/

theorem foldl_itemsValues (items : List OrderItem) (acc : ℚ) :
    (items.map OrderItem.toPriced).foldl
      (fun acc item => JSNum.add acc (JSNum.mul item.price.toNumber item.qty.toNumber))
      (JSNum.fin acc) =
    JSNum.fin (items.foldl (fun acc item => acc + item.price * item.qty) acc) := by
  induction items generalizing acc with
  | nil => rfl
  | cons it items ih =>
    rw [List.map_cons, List.foldl_cons, List.foldl_cons]
    exact ih (acc + it.price * it.qty)

/-- On items with finite numeric price and qty the general `calcPrices` is
the one on rationals. -/
theorem calcPricesValues_finite (items : List OrderItem) :
    calcPricesValues (items.map OrderItem.toPriced) = calcPrices items := by
  have hsum : itemsSumValues (items.map OrderItem.toPriced) = JSNum.fin (itemsSum items) :=
    foldl_itemsValues items 0
  unfold calcPricesValues calcPrices
  simp only [hsum, JSNum.gt, shippingOf, gt_iff_lt]
  by_cases h : 100 < itemsSum items
  · simp only [h, decide_True, if_true, JSNum.mul, JSNum.add, JSNum.toFixed2]
  · simp only [h, decide_False, if_false, JSNum.mul, JSNum.add, JSNum.toFixed2,
      Bool.false_eq_true]

theorem validOrderItem_withoutPrice (itemsFromDB : List Product) (item : ClientItem) :
    validOrderItem itemsFromDB item.withoutPrice = validOrderItem itemsFromDB item := rfl

/-- The handler on a non-empty list of order items: it asks for the
products, builds the order, calls `save`, and answers 201 after the calls made
inside the `map`. -/
theorem createOrderHandler_nonempty (find : List String → List Product)
    (saveResult : Order → Option Order) (req : OrderRequest) (items : List ClientItem)
    (hitems : req.orderItems = some items) (hne : items ≠ []) :
    createOrderHandler find saveResult req =
      match saveResult (orderOf find req items) with
      | some createdOrder =>
        { replies := notFoundReplies find items ++ [OrderReply.order 201 createdOrder]
          queries := [items.map fun item => item._id]
          saved := some (orderOf find req items) }
      | none =>
        { replies := notFoundReplies find items
          queries := [items.map fun item => item._id]
          saved := some (orderOf find req items) } := by
  obtain ⟨orderItems, shippingAddress, paymentMethod, userId⟩ := req
  cases hitems
  cases items with
  | nil => exact absurd rfl hne
  | cons c cs => rfl

theorem orderOf_withoutPrices (find : List String → List Product) (req : OrderRequest)
    (items : List ClientItem) :
    orderOf find req.withoutPrices (items.map ClientItem.withoutPrice) = orderOf find req items := by
  have hids : (items.map ClientItem.withoutPrice).map (fun item => item._id) =
      items.map (fun item => item._id) := by
    rw [List.map_map]
    rfl
  have hmapped : ∀ db : List Product,
      (items.map ClientItem.withoutPrice).map (validOrderItem db) =
        items.map (validOrderItem db) := by
    intro db
    rw [List.map_map]
    rfl
  simp only [orderOf, hids, hmapped, OrderRequest.withoutPrices]

theorem notFoundReplies_withoutPrices (find : List String → List Product)
    (items : List ClientItem) :
    notFoundReplies find (items.map ClientItem.withoutPrice) = notFoundReplies find items := by
  have hids : (items.map ClientItem.withoutPrice).map (fun item => item._id) =
      items.map (fun item => item._id) := by
    rw [List.map_map]
    rfl
  have hmapped : ∀ db : List Product,
      (items.map ClientItem.withoutPrice).map (validOrderItem db) =
        items.map (validOrderItem db) := by
    intro db
    rw [List.map_map]
    rfl
  simp only [notFoundReplies, hids, hmapped]

/-- The handler does not read the prices sent by the client. -/
theorem createOrderHandler_withoutPrices (find : List String → List Product)
    (saveResult : Order → Option Order) (req : OrderRequest) :
    createOrderHandler find saveResult req.withoutPrices =
      createOrderHandler find saveResult req := by
  cases hitems : req.orderItems with
  | none =>
    obtain ⟨orderItems, shippingAddress, paymentMethod, userId⟩ := req
    cases hitems
    rfl
  | some items =>
    by_cases hne : items = []
    · obtain ⟨orderItems, shippingAddress, paymentMethod, userId⟩ := req
      cases hitems
      rw [hne]
      rfl
    · have hitems2 : req.withoutPrices.orderItems = some (items.map ClientItem.withoutPrice) := by
        simp only [OrderRequest.withoutPrices, hitems]
        rfl
      have hne2 : items.map ClientItem.withoutPrice ≠ [] := by
        intro h
        exact hne (List.map_eq_nil_iff.mp h)
      rw [createOrderHandler_nonempty find saveResult req items hitems hne,
        createOrderHandler_nonempty find saveResult req.withoutPrices _ hitems2 hne2,
        orderOf_withoutPrices, notFoundReplies_withoutPrices]
      have hids : (items.map ClientItem.withoutPrice).map (fun item => item._id) =
          items.map (fun item => item._id) := by
        rw [List.map_map]
        rfl
      rw [hids]

/-- The element that the callback returns for a client item with a match. -/
theorem validOrderItem_matched (itemsFromDB : List Product) (item : ClientItem)
    (h : ∃ p ∈ itemsFromDB, p._id = item._id) :
    ∃ p : Product, itemsFromDB.find? (fun p => p._id == item._id) = some p ∧
      validOrderItem itemsFromDB item =
        (ValidItem.line ⟨item._id, item.qty, item.rest, item._id, p.price⟩, []) := by
  have hsome : (itemsFromDB.find? (fun p => p._id == item._id)).isSome = true := by
    rw [List.find?_isSome]
    obtain ⟨p, hp, heq⟩ := h
    exact ⟨p, hp, by simp [heq]⟩
  obtain ⟨p, hp⟩ := Option.isSome_iff_exists.mp hsome
  exact ⟨p, hp, by simp only [validOrderItem, hp]⟩

theorem flatten_replies_nil (db : List Product) (items : List ClientItem)
    (h : ∀ c ∈ items, ∃ p ∈ db, p._id = c._id) :
    ((items.map (validOrderItem db)).map Prod.snd).flatten = [] := by
  induction items with
  | nil => rfl
  | cons c cs ih =>
    obtain ⟨p, _, hp⟩ := validOrderItem_matched db c (h c (List.mem_cons_self _ _))
    rw [List.map_cons, List.map_cons, List.flatten_cons, hp,
      ih (fun d hd => h d (List.mem_cons_of_mem _ hd))]
    rfl

/-! ## The claims about `createOrderHandler` and `loginUserHandler` -/

/-- C16: when every order item's `_id` matches a product returned by the
store, each line item of the order built carries the price of the (first)
stored product with that id, the client's `_id` as `product` and the client's
qty; the four totals of the order are `calcPrices` of these line items; the
only reply is the 201 after `save`; and a request that differs only in the
prices sent by the client has the same outcome. -/
theorem createOrder_stored_prices (find : List String → List Product)
    (saveResult : Order → Option Order) (req : OrderRequest) (items : List ClientItem)
    (hitems : req.orderItems = some items) (hne : items ≠ [])
    (hall : ∀ c ∈ items, ∃ p ∈ find (items.map fun item => item._id), p._id = c._id) :
    ∃ order : Order,
      (createOrderHandler find saveResult req).saved = some order ∧
      List.Forall₂
        (fun (c : ClientItem) (v : ValidItem) =>
          ∃ p : Product,
            (find (items.map fun item => item._id)).find? (fun p => p._id == c._id) = some p ∧
            v = ValidItem.line
              { _id := c._id, qty := c.qty, rest := c.rest, product := c._id, price := p.price })
        items order.orderItems ∧
      order.prices = calcPricesValues (order.orderItems.map ValidItem.priced) ∧
      (∀ its : List OrderItem,
        order.orderItems.map ValidItem.priced = its.map OrderItem.toPriced →
          order.prices = calcPrices its) ∧
      (createOrderHandler find saveResult req).replies =
        (match saveResult order with
          | some createdOrder => [OrderReply.order 201 createdOrder]
          | none => []) ∧
      ∀ other : OrderRequest, other.withoutPrices = req.withoutPrices →
        createOrderHandler find saveResult other = createOrderHandler find saveResult req := by
  have hreplies : notFoundReplies find items = [] := flatten_replies_nil _ items hall
  refine ⟨orderOf find req items, ?_, ?_, rfl, ?_, ?_, ?_⟩
  · rw [createOrderHandler_nonempty find saveResult req items hitems hne]
    split <;> rfl
  · show List.Forall₂ _ items
      ((items.map (validOrderItem (find (items.map fun item => item._id)))).map Prod.fst)
    rw [List.map_map, List.forall₂_map_right_iff, List.forall₂_same]
    intro c hc
    obtain ⟨p, hfind, hp⟩ := validOrderItem_matched _ c (hall c hc)
    exact ⟨p, hfind, by rw [Function.comp_apply, hp]⟩
  · intro its hits
    show calcPricesValues ((orderOf find req items).orderItems.map ValidItem.priced) = _
    rw [hits, calcPricesValues_finite]
  · rw [createOrderHandler_nonempty find saveResult req items hitems hne]
    split <;> simp [hreplies]
  · intro other hother
    rw [← createOrderHandler_withoutPrices find saveResult other, hother,
      createOrderHandler_withoutPrices]

/-- The order of the controller test: two units of `p1`, stored at price 10,
for which the client sends the price 1. -/
theorem createOrder_stored_prices_witness :
    ((⟨some [⟨"p1", .number (JSNum.fin 2), .number (JSNum.fin 1), []⟩], .string "Teststr. 1",
        .string "PayPal", UserRef.str "user1"⟩ : OrderRequest).orderItems =
      some [⟨"p1", .number (JSNum.fin 2), .number (JSNum.fin 1), []⟩]) ∧
    ([(⟨"p1", .number (JSNum.fin 2), .number (JSNum.fin 1), []⟩ : ClientItem)] ≠ []) ∧
    ∃ order : Order,
      (createOrderHandler
        (fun _ => [⟨"p1", .null, .null, .null, .null, .null, .null,
          .number (JSNum.fin 10), .null, [], JSNum.fin 0, JSNum.fin 0⟩])
        (fun order => some order)
        ⟨some [⟨"p1", .number (JSNum.fin 2), .number (JSNum.fin 1), []⟩], .string "Teststr. 1",
          .string "PayPal", UserRef.str "user1"⟩).saved = some order ∧
      order.prices = calcPrices [⟨10, 2⟩] :=
  ⟨rfl, List.cons_ne_nil _ _,
    match createOrder_stored_prices
        (fun _ => [⟨"p1", .null, .null, .null, .null, .null, .null,
          .number (JSNum.fin 10), .null, [], JSNum.fin 0, JSNum.fin 0⟩])
        (fun order => some order)
        ⟨some [⟨"p1", .number (JSNum.fin 2), .number (JSNum.fin 1), []⟩], .string "Teststr. 1",
          .string "PayPal", UserRef.str "user1"⟩
        [⟨"p1", .number (JSNum.fin 2), .number (JSNum.fin 1), []⟩] rfl (List.cons_ne_nil _ _)
        (by simp) with
    | ⟨order, h1, h2, _, h4, _, _⟩ =>
      ⟨order, h1, h4 [⟨10, 2⟩] (by
        obtain ⟨v, vs, ⟨p, hp, hv⟩, htail, hlist⟩ := List.forall₂_cons_left_iff.mp h2
        rw [List.forall₂_nil_left_iff.mp htail] at hlist
        simp at hp
        subst hp
        rw [hlist, hv]
        rfl)⟩⟩

/-- C17 fails on the code: for the request of the controller test, one item
`p1` that the store does not return, the handler calls
`res.status(404).json(..)` inside the `map` and goes on: it builds an order
whose only item is the response object and whose totals are "NaN", calls
`save` on it and answers 201. -/
theorem createOrder_missing_product_goes_on :
    createOrderHandler (fun _ => []) (fun order => some order)
        ⟨some [⟨"p1", .number (JSNum.fin 2), .undefined, []⟩], .string "Teststr. 1",
          .string "PayPal", UserRef.str "user1"⟩ =
      { replies :=
          [OrderReply.message 404 "Produkt nicht gefunden: p1",
           OrderReply.order 201
            { orderItems := [ValidItem.res], user := UserRef.str "user1",
              shippingAddress := .string "Teststr. 1", paymentMethod := .string "PayPal",
              itemsPrice := "NaN", taxPrice := "NaN", shippingPrice := "10.00",
              totalPrice := "NaN" }]
        queries := [["p1"]]
        saved := some
          { orderItems := [ValidItem.res], user := UserRef.str "user1",
            shippingAddress := .string "Teststr. 1", paymentMethod := .string "PayPal",
            itemsPrice := "NaN", taxPrice := "NaN", shippingPrice := "10.00",
            totalPrice := "NaN" } } := by
  have hprices : calcPricesValues [ValidItem.res.priced] =
      { itemsPrice := "NaN", shippingPrice := "10.00", taxPrice := "NaN",
        totalPrice := "NaN" } := by
    have hsum : itemsSumValues [ValidItem.res.priced] = JSNum.nan := rfl
    simp only [calcPricesValues, hsum, JSNum.gt, JSNum.mul, JSNum.add, JSNum.toFixed2,
      Bool.false_eq_true, if_false, toFixed2_ten]
  have horder : orderOf (fun _ => [])
      ⟨some [⟨"p1", .number (JSNum.fin 2), .undefined, []⟩], .string "Teststr. 1",
        .string "PayPal", UserRef.str "user1"⟩
      [⟨"p1", .number (JSNum.fin 2), .undefined, []⟩] =
      { orderItems := [ValidItem.res], user := UserRef.str "user1",
        shippingAddress := .string "Teststr. 1", paymentMethod := .string "PayPal",
        itemsPrice := "NaN", taxPrice := "NaN", shippingPrice := "10.00",
        totalPrice := "NaN" } := by
    simp only [orderOf, List.map_cons, List.map_nil, validOrderItem, List.find?_nil, hprices]
  rw [createOrderHandler_nonempty _ _ _ [⟨"p1", .number (JSNum.fin 2), .undefined, []⟩] rfl
    (List.cons_ne_nil _ _), horder]
  rfl

/-- C18: when `orderItems` is missing or an empty list, the handler answers
400 "Keine Bestellpositionen vorhanden.", asks for no products and saves no
order. -/
theorem createOrder_no_items (find : List String → List Product)
    (saveResult : Order → Option Order) (req : OrderRequest)
    (h : req.orderItems = none ∨ req.orderItems = some []) :
    createOrderHandler find saveResult req =
      { replies := [OrderReply.message 400 "Keine Bestellpositionen vorhanden."]
        queries := []
        saved := none } := by
  obtain ⟨orderItems, shippingAddress, paymentMethod, userId⟩ := req
  rcases h with h | h <;> cases h <;> rfl

/-- The request of the controller test with an empty list of order items. -/
theorem createOrder_no_items_witness :
    ((⟨some [], .undefined, .undefined, UserRef.str "user1"⟩ : OrderRequest).orderItems = none ∨
      (⟨some [], .undefined, .undefined, UserRef.str "user1"⟩ : OrderRequest).orderItems =
        some []) ∧
    createOrderHandler (fun _ => []) (fun order => some order)
        ⟨some [], .undefined, .undefined, UserRef.str "user1"⟩ =
      { replies := [OrderReply.message 400 "Keine Bestellpositionen vorhanden."]
        queries := []
        saved := none } :=
  ⟨Or.inr rfl, createOrder_no_items _ _ _ (Or.inr rfl)⟩

/-- C19 fails on the code: for the request of the controller test, a
non-empty email and password with no user of that email, the handler looks
the email up and returns without sending any response. -/
theorem loginUser_unknown_email_no_response (compare : JSValue → JSValue → Bool) :
    loginUserHandler (fun _ => none) compare ⟨.string "notfound@mail.de", .string "pw"⟩ =
      { response := none
        lookups := [.string "notfound@mail.de"]
        token := none } := by
  have h1 : (JSValue.string "notfound@mail.de").truthy = true := by decide
  have h2 : (JSValue.string "pw").truthy = true := by decide
  simp only [loginUserHandler, h1, h2, Bool.not_true, Bool.or_self, Bool.false_eq_true,
    if_false]

/-! ## Facts about the password pattern -/

theorem uint32_le_iff (a b : UInt32) : a ≤ b ↔ a.toNat ≤ b.toNat := Iff.rfl

theorem isLower_unit (c : Char) : c.isLower = isLowerUnit c.toNat := by
  have h1 : (97 : UInt32).toNat = 97 := rfl
  have h2 : (122 : UInt32).toNat = 122 := rfl
  simp only [Char.isLower, isLowerUnit, Char.toNat, ge_iff_le, uint32_le_iff, h1, h2,
    Bool.decide_and]

theorem isUpper_unit (c : Char) : c.isUpper = isUpperUnit c.toNat := by
  have h1 : (65 : UInt32).toNat = 65 := rfl
  have h2 : (90 : UInt32).toNat = 90 := rfl
  simp only [Char.isUpper, isUpperUnit, Char.toNat, ge_iff_le, uint32_le_iff, h1, h2,
    Bool.decide_and]

theorem isDigit_unit (c : Char) : c.isDigit = isDigitUnit c.toNat := by
  have h1 : (48 : UInt32).toNat = 48 := rfl
  have h2 : (57 : UInt32).toNat = 57 := rfl
  simp only [Char.isDigit, isDigitUnit, Char.toNat, ge_iff_le, uint32_le_iff, h1, h2,
    Bool.decide_and]

theorem isSpecial_unit (c : Char) : (!c.isAlphanum) = isSpecialUnit c.toNat := by
  simp only [Char.isAlphanum, Char.isAlpha, isSpecialUnit, isWordUnit, isLower_unit,
    isUpper_unit, isDigit_unit]
  by_cases h : c.toNat = 0x5F
  · simp [h, isLowerUnit, isUpperUnit, isDigitUnit]
  · simp only [h, decide_False, Bool.or_false]
    cases isUpperUnit c.toNat <;> cases isLowerUnit c.toNat <;> cases isDigitUnit c.toNat <;> rfl

/-- A class of code units holds somewhere in the code units of a string
exactly when its reading on characters holds for some character. -/
theorem any_utf16Units (cls : Nat → Bool) (pred : Char → Bool)
    (h : ∀ c : Char,
      (if c.toNat < 0x10000 then [c.toNat]
        else [0xD800 + (c.toNat - 0x10000) / 0x400,
          0xDC00 + (c.toNat - 0x10000) % 0x400]).any cls = pred c)
    (s : String) : (utf16Units s).any cls = s.data.any pred := by
  unfold utf16Units
  induction s.data with
  | nil => rfl
  | cons c cs ih =>
    rw [List.map_cons, List.flatten_cons, List.any_append, ih, h c, List.any_cons]

theorem any_lower_units (s : String) : (utf16Units s).any isLowerUnit = hasLower s := by
  apply any_utf16Units
  intro c
  rw [isLower_unit]
  by_cases hc : c.toNat < 0x10000
  · simp [hc]
  · simp only [hc, if_false, List.any_cons, List.any_nil, Bool.or_false, isLowerUnit]
    simp only [Bool.or_eq_decide, decide_eq_decide]
    omega

theorem any_upper_units (s : String) : (utf16Units s).any isUpperUnit = hasUpper s := by
  apply any_utf16Units
  intro c
  rw [isUpper_unit]
  by_cases hc : c.toNat < 0x10000
  · simp [hc]
  · simp only [hc, if_false, List.any_cons, List.any_nil, Bool.or_false, isUpperUnit]
    simp only [Bool.or_eq_decide, decide_eq_decide]
    omega

theorem any_digit_units (s : String) : (utf16Units s).any isDigitUnit = hasDigit s := by
  apply any_utf16Units
  intro c
  rw [isDigit_unit]
  by_cases hc : c.toNat < 0x10000
  · simp [hc]
  · simp only [hc, if_false, List.any_cons, List.any_nil, Bool.or_false, isDigitUnit]
    simp only [Bool.or_eq_decide, decide_eq_decide]
    omega

theorem any_terminator_units (s : String) :
    (utf16Units s).any isLineTerminator = hasLineTerminator s := by
  apply any_utf16Units
  intro c
  by_cases hc : c.toNat < 0x10000
  · simp [hc]
  · simp only [hc, if_false, List.any_cons, List.any_nil, Bool.or_false, isLineTerminator]
    simp only [Bool.or_eq_decide, decide_eq_decide]
    omega

theorem isSpecialUnit_of_large (u : Nat) (h : 0x80 ≤ u) : isSpecialUnit u = true := by
  have hl : isLowerUnit u = false := by
    simp only [isLowerUnit, decide_eq_false_iff_not]
    omega
  have hu : isUpperUnit u = false := by
    simp only [isUpperUnit, decide_eq_false_iff_not]
    omega
  have hd : isDigitUnit u = false := by
    simp only [isDigitUnit, decide_eq_false_iff_not]
    omega
  have h5 : decide (u = 0x5F) = false := by
    rw [decide_eq_false_iff_not]
    omega
  simp only [isSpecialUnit, isWordUnit, hl, hu, hd, h5]
  rfl

theorem any_special_units (s : String) : (utf16Units s).any isSpecialUnit = hasSpecial s := by
  apply any_utf16Units
  intro c
  rw [isSpecial_unit]
  by_cases hc : c.toNat < 0x10000
  · simp [hc]
  · simp only [hc, if_false, List.any_cons, List.any_nil, Bool.or_false]
    rw [isSpecialUnit_of_large c.toNat (by omega), isSpecialUnit_of_large _ (by omega)]
    rfl

/-- Without line terminators before it, a lookahead `(?=.*X)` is the
presence of a code unit of the class. -/
theorem lookahead_eq_any (cls : Nat → Bool) (us : List Nat)
    (h : us.any isLineTerminator = false) : lookahead cls us = us.any cls := by
  induction us with
  | nil => rfl
  | cons u us ih =>
    rw [List.any_cons, Bool.or_eq_false_iff] at h
    rw [lookahead, List.any_cons, ih h.2, h.1]
    rfl

theorem dotsToEnd_eq (us : List Nat) :
    dotsToEnd us = (decide (8 ≤ us.length) && !us.any isLineTerminator) := by
  rw [dotsToEnd, List.not_any_eq_all_not]

/-- The password pattern in words: at least eight code units, no line
terminator, and one character of each of the four classes. -/
theorem passwordRegexTest_eq (s : String) :
    passwordRegexTest s =
      (decide (8 ≤ utf16Length s) && !hasLineTerminator s && hasLower s && hasUpper s &&
        hasDigit s && hasSpecial s) := by
  rw [passwordRegexTest, dotsToEnd_eq, any_terminator_units]
  cases hlt : hasLineTerminator s with
  | true => simp
  | false =>
    have hany : (utf16Units s).any isLineTerminator = false := by
      rw [any_terminator_units, hlt]
    rw [lookahead_eq_any _ _ hany, lookahead_eq_any _ _ hany, lookahead_eq_any _ _ hany,
      lookahead_eq_any _ _ hany, any_lower_units, any_upper_units, any_digit_units,
      any_special_units, utf16Length]
    cases hasLower s <;> cases hasUpper s <;> cases hasDigit s <;> cases hasSpecial s <;>
      cases decide (8 ≤ (utf16Units s).length) <;> rfl

theorem passwordRegexTestValue_iff (password : JSValue) :
    passwordRegexTestValue password = true ↔
      ∃ s : String, password = JSValue.string s ∧ 8 ≤ utf16Length s ∧
        hasLineTerminator s = false ∧ hasLower s = true ∧ hasUpper s = true ∧
        hasDigit s = true ∧ hasSpecial s = true := by
  cases password with
  | string s =>
    rw [passwordRegexTestValue, passwordRegexTest_eq]
    simp only [Bool.and_eq_true, decide_eq_true_eq, Bool.not_eq_true', JSValue.string.injEq,
      exists_eq_left', and_assoc]
  | undefined => simp [passwordRegexTestValue]
  | null => simp [passwordRegexTestValue]
  | bool b => simp [passwordRegexTestValue]
  | number n => simp [passwordRegexTestValue]

/-- The three results of `validateUserFields` when the password is checked. -/
theorem validateUserFields_checked (username email password : JSValue)
    (checkPassword : Option Bool) (hcheck : checkPassword = none ∨ checkPassword = some true) :
    validateUserFields username email password checkPassword =
      if username.truthy = false ∨ email.truthy = false ∨ password.truthy = false then
        { valid := false, message := some "Bitte füllen Sie alle Felder aus." }
      else if passwordRegexTestValue password = false then
        { valid := false, message := some passwordRuleMessage }
      else { valid := true, message := none } := by
  have hget : checkPassword.getD true = true := by
    rcases hcheck with h | h <;> rw [h] <;> rfl
  simp only [validateUserFields, hget, passwordRuleMessage]
  cases username.truthy <;> cases email.truthy <;> cases password.truthy <;>
    cases passwordRegexTestValue password <;> rfl

/-! ## The claim about `validateUserFields` -/

/-- C20: with the default `checkPassword`, the password `Abcdef1!` followed
by a line feed has nine characters, a lowercase letter, an uppercase letter,
a digit and a special character, and all three fields are non-empty: it meets
every rule that the message of `validateUserFields` states.  Yet the result
is not valid and carries that password-rule message: the `.` of the pattern
does not match a line terminator. -/
theorem validateUserFields_line_feed_rejected :
    validateUserFields (.string "tester") (.string "test@mail.de") (.string "Abcdef1!\n") none =
        { valid := false, message := some passwordRuleMessage } ∧
      (JSValue.string "tester").truthy = true ∧ (JSValue.string "test@mail.de").truthy = true ∧
      (JSValue.string "Abcdef1!\n").truthy = true ∧
      8 ≤ utf16Length "Abcdef1!\n" ∧ 8 ≤ "Abcdef1!\n".length ∧
      hasLower "Abcdef1!\n" = true ∧ hasUpper "Abcdef1!\n" = true ∧
      hasDigit "Abcdef1!\n" = true ∧ hasSpecial "Abcdef1!\n" = true := by
  decide

/-! ## The claims about the user helpers -/

/-- C21: with `checkPassword` false the password is never examined: the
result is valid exactly when username and email are both non-empty, with the
message "Bitte füllen Sie alle Felder aus." otherwise, and it is the same for
any two passwords. -/
theorem validateUserFields_unchecked (username email password : JSValue) :
    validateUserFields username email password (some false) =
        (if username.truthy = true ∧ email.truthy = true then
          { valid := true, message := none }
        else { valid := false, message := some "Bitte füllen Sie alle Felder aus." }) ∧
      ((validateUserFields username email password (some false)).valid = true ↔
        username.truthy = true ∧ email.truthy = true) ∧
      ∀ other : JSValue,
        validateUserFields username email other (some false) =
          validateUserFields username email password (some false) := by
  have hform : ∀ pw : JSValue, validateUserFields username email pw (some false) =
      (if username.truthy = true ∧ email.truthy = true then
        { valid := true, message := none }
      else { valid := false, message := some "Bitte füllen Sie alle Felder aus." }) := by
    intro pw
    simp only [validateUserFields, Option.getD]
    cases username.truthy <;> cases email.truthy <;> rfl
  refine ⟨hform password, ?_, ?_⟩
  · rw [hform password]
    by_cases h : username.truthy = true ∧ email.truthy = true
    · simp [h]
    · simp [h]
  · intro other
    rw [hform other, hform password]

theorem field_filter_ne (user : JSObject) (key : String) (hkey : key ≠ "password") :
    JSObject.field (user.filter fun kv => kv.1 != "password") key = JSObject.field user key := by
  induction user with
  | nil => rfl
  | cons kv rest ih =>
    unfold JSObject.field at ih ⊢
    by_cases hpw : kv.1 = "password"
    · have hne : (kv.1 == key) = false := by
        rw [beq_eq_false_iff_ne, hpw]
        exact fun h => hkey h.symm
      have hfilter : (kv :: rest).filter (fun kv => kv.1 != "password") =
          rest.filter (fun kv => kv.1 != "password") := by
        rw [List.filter_cons]
        simp [hpw]
      rw [hfilter, List.find?_cons, hne]
      exact ih
    · have hfilter : (kv :: rest).filter (fun kv => kv.1 != "password") =
          kv :: rest.filter (fun kv => kv.1 != "password") := by
        rw [List.filter_cons]
        simp [hpw]
      rw [hfilter, List.find?_cons, List.find?_cons]
      cases hk : (kv.1 == key) with
      | true => rfl
      | false => exact ih

/-- C22: the object returned by `userResponse` has no `password` field, has
every other own field of the user with the same value and in the same order,
and has no field that the user does not have. -/
theorem userResponse_without_password (user : JSObject) :
    (∀ kv ∈ userResponse user, kv.1 ≠ "password") ∧
      JSObject.field (userResponse user) "password" = JSValue.undefined ∧
      (∀ kv ∈ user, kv.1 ≠ "password" → kv ∈ userResponse user) ∧
      (∀ kv ∈ userResponse user, kv ∈ user) ∧
      (∀ key : String, key ≠ "password" →
        JSObject.field (userResponse user) key = JSObject.field user key) ∧
      (userResponse user).Sublist user := by
  have hmem : ∀ kv : String × JSValue,
      kv ∈ userResponse user ↔ kv ∈ user ∧ kv.1 ≠ "password" := by
    intro kv
    simp [userResponse, List.mem_filter]
  refine ⟨fun kv h => ((hmem kv).mp h).2, ?_, fun kv h hne => (hmem kv).mpr ⟨h, hne⟩,
    fun kv h => ((hmem kv).mp h).1, fun key hkey => field_filter_ne user key hkey,
    List.filter_sublist _⟩
  unfold JSObject.field
  have hnone : (userResponse user).find? (fun kv => kv.1 == "password") = none := by
    rw [List.find?_eq_none]
    intro kv hkv
    simpa using ((hmem kv).mp hkv).2
  rw [hnone]

/-- The response for the user of the controller test, with a password
hash. -/
theorem userResponse_without_password_witness :
    userResponse [("_id", .string "1"), ("username", .string "user"),
        ("password", .string "hashedpw"), ("isAdmin", .bool false)] =
      [("_id", .string "1"), ("username", .string "user"), ("isAdmin", .bool false)] ∧
    ∀ kv ∈ userResponse [("_id", .string "1"), ("username", .string "user"),
        ("password", .string "hashedpw"), ("isAdmin", .bool false)], kv.1 ≠ "password" :=
  ⟨by decide, (userResponse_without_password _).1⟩

/-- C23: an admin is never deleted.  For a stored user with `isAdmin` true
the response is 400 "Admin-Benutzer kann nicht gelöscht werden." and no
delete is issued; a delete is issued only for a found user that is no admin,
and then for exactly that user's `_id`; the response is 200 only for such a
user (and is 200 once the delete resolves); it is 404 when no user is
found. -/
theorem deleteUserById_spares_admin (found : Option JSObject)
    (deleteResolves : JSValue → Bool) :
    (∀ user : JSObject, found = some user → user.field "isAdmin" = JSValue.bool true →
      deleteUserByIdHandler found deleteResolves =
        { response := some (400, UserBody.message "Admin-Benutzer kann nicht gelöscht werden.")
          deletes := [] }) ∧
    (∀ id ∈ (deleteUserByIdHandler found deleteResolves).deletes,
      ∃ user : JSObject, found = some user ∧ (user.field "isAdmin").truthy = false ∧
        id = user.field "_id" ∧
        (deleteUserByIdHandler found deleteResolves).deletes = [user.field "_id"]) ∧
    (∀ body : UserBody, (deleteUserByIdHandler found deleteResolves).response = some (200, body) →
      ∃ user : JSObject, found = some user ∧ (user.field "isAdmin").truthy = false ∧
        body = UserBody.message "Benutzer entfernt." ∧
        (deleteUserByIdHandler found deleteResolves).deletes = [user.field "_id"]) ∧
    (∀ user : JSObject, found = some user → (user.field "isAdmin").truthy = false →
      deleteResolves (user.field "_id") = true →
      deleteUserByIdHandler found deleteResolves =
        { response := some (200, UserBody.message "Benutzer entfernt.")
          deletes := [user.field "_id"] }) ∧
    (found = none →
      deleteUserByIdHandler found deleteResolves =
        { response := some (404, UserBody.message "Benutzer nicht gefunden.")
          deletes := [] }) := by
  cases found with
  | none =>
    refine ⟨fun user h => (by cases h), ?_, ?_, fun user h => (by cases h), fun _ => rfl⟩
    · intro id hid
      simp [deleteUserByIdHandler] at hid
    · intro body hbody
      simp [deleteUserByIdHandler] at hbody
  | some user =>
    refine ⟨?_, ?_, ?_, ?_, fun h => (by cases h)⟩
    · intro u hu hadmin
      cases hu
      simp [deleteUserByIdHandler, hadmin, JSValue.truthy]
    · intro id hid
      cases hadmin : (user.field "isAdmin").truthy with
      | true => simp [deleteUserByIdHandler, hadmin] at hid
      | false =>
        cases hdel : deleteResolves (user.field "_id") <;>
          simp [deleteUserByIdHandler, hadmin, hdel] at hid ⊢ <;> exact hid
    · intro body hbody
      cases hadmin : (user.field "isAdmin").truthy with
      | true => simp [deleteUserByIdHandler, hadmin] at hbody
      | false =>
        cases hdel : deleteResolves (user.field "_id") with
        | false => simp [deleteUserByIdHandler, hadmin, hdel] at hbody
        | true =>
          simp [deleteUserByIdHandler, hadmin, hdel] at hbody ⊢
          exact hbody.symm
    · intro u hu hadmin hdel
      cases hu
      simp [deleteUserByIdHandler, hadmin, hdel]

/-- The admin of the controller test is not deleted. -/
theorem deleteUserById_spares_admin_witness :
    (some [("_id", JSValue.string "123"), ("isAdmin", JSValue.bool true)] =
      some ([("_id", JSValue.string "123"), ("isAdmin", JSValue.bool true)] : JSObject)) ∧
    JSObject.field [("_id", JSValue.string "123"), ("isAdmin", JSValue.bool true)] "isAdmin" =
      JSValue.bool true ∧
    deleteUserByIdHandler (some [("_id", .string "123"), ("isAdmin", .bool true)])
        (fun _ => true) =
      { response := some (400, UserBody.message "Admin-Benutzer kann nicht gelöscht werden.")
        deletes := [] } :=
  ⟨rfl, by decide,
    (deleteUserById_spares_admin (some [("_id", .string "123"), ("isAdmin", .bool true)])
      (fun _ => true)).1 _ rfl (by decide)⟩

/-! ## The claims about the product list handlers -/

theorem orElse_default (n d : JSNum) (h : n = JSNum.nan ∨ n = JSNum.fin 0) :
    JSNum.orElse n d = d := by
  rcases h with h | h <;> rw [h] <;> simp [JSNum.orElse]

theorem orElse_self (n d : JSNum) (hnan : n ≠ JSNum.nan) (hzero : n ≠ JSNum.fin 0) :
    JSNum.orElse n d = n := by
  cases n with
  | fin q =>
    have hq : q ≠ 0 := fun h => hzero (by rw [h])
    simp [JSNum.orElse, hq]
  | posInf => rfl
  | negInf => rfl
  | nan => exact absurd rfl hnan

theorem toNumber_two : (JSValue.string "2").toNumber = JSNum.fin 2 := by
  simp [JSValue.toNumber, stringToNumber, isJSWhiteSpace, nonDecimalLiteral, scanSigned,
    scanUnsigned, scanExponent, digitsValue, List.isPrefixOf]

theorem toNumber_five : (JSValue.string "5").toNumber = JSNum.fin 5 := by
  simp [JSValue.toNumber, stringToNumber, isJSWhiteSpace, nonDecimalLiteral, scanSigned,
    scanUnsigned, scanExponent, digitsValue, List.isPrefixOf]

/-- C30: for positive integers page `p` and page size `s` and any product
count, hasMore is true exactly when `p * s` is less than the count. -/
theorem getProducts_hasMore (countDocuments : Option JSValue → Nat)
    (find : Option JSValue → JSNum → JSNum → List Product) (query : ProductsQuery)
    (p s : ℕ) (hp : 0 < p) (hs : 0 < s)
    (hpage : query.page.toNumber = JSNum.fin p)
    (hsize : query.pageSize.toNumber = JSNum.fin s) :
    (getProductsHandler countDocuments find query).2.total =
        countDocuments (if query.keyword.truthy then some query.keyword else none) ∧
      ((getProductsHandler countDocuments find query).2.hasMore = true ↔
        p * s < (getProductsHandler countDocuments find query).2.total) := by
  refine ⟨rfl, ?_⟩
  have hp0 : (p : ℚ) ≠ 0 := by exact_mod_cast hp.ne'
  have hs0 : (s : ℚ) ≠ 0 := by exact_mod_cast hs.ne'
  have hspos : (0 : ℚ) < (s : ℚ) := by exact_mod_cast hs
  simp only [getProductsHandler, hpage, hsize, JSNum.orElse, hp0, hs0, if_false, JSNum.div,
    JSNum.ceil, JSNum.lt, JSNum.gt, decide_eq_true_eq]
  generalize countDocuments (if query.keyword.truthy then some query.keyword else none) = count
  have hcast : ((p : ℚ) < ((⌈(count : ℚ) / (s : ℚ)⌉ : ℤ) : ℚ)) ↔
      ((p : ℤ) < ⌈(count : ℚ) / (s : ℚ)⌉) := by
    constructor
    · intro h
      exact_mod_cast h
    · intro h
      exact_mod_cast h
  rw [hcast, Int.lt_ceil]
  constructor
  · intro h
    have h2 : ((p : ℤ) : ℚ) * (s : ℚ) < (count : ℚ) := (lt_div_iff₀ hspos).mp h
    exact_mod_cast h2
  · intro h
    apply (lt_div_iff₀ hspos).mpr
    exact_mod_cast h

/-- Page "2" of size "5" for 12 products: there are more. -/
theorem getProducts_hasMore_witness :
    (0 < 2) ∧ (0 < 5) ∧
    ((getProductsHandler (fun _ => 12) (fun _ _ _ => [])
        ⟨.string "5", .string "2", .undefined⟩).2.hasMore = true ↔
      2 * 5 < (getProductsHandler (fun _ => 12) (fun _ _ _ => [])
        ⟨.string "5", .string "2", .undefined⟩).2.total) :=
  ⟨by decide, by decide,
    (getProducts_hasMore (fun _ => 12) (fun _ _ _ => []) ⟨.string "5", .string "2", .undefined⟩
      2 5 (by decide) (by decide) toNumber_two toNumber_five).2⟩

/-- C25: the filter that `filterProductsHandler` passes to the store has the
key `category`, equal to `body.category`, exactly when `body.category` is
truthy; it has the key `price` exactly when minPrice or maxPrice is not
undefined, with `$gte` equal to minPrice exactly when minPrice is not
undefined and `$lte` equal to maxPrice exactly when maxPrice is not
undefined; it has no other keys; the empty body gives the empty filter; the
response is 200 with the products found for that filter. -/
theorem filterProducts_filter (find : ProductFilter → List Product) (body : FilterBody) :
    (filterProductsHandler find body).filter.category =
        (if body.category.truthy then some body.category else none) ∧
      (filterProductsHandler find body).filter.price =
        (if body.minPrice = JSValue.undefined ∧ body.maxPrice = JSValue.undefined then none
          else some
            { gte := if body.minPrice = JSValue.undefined then none else some body.minPrice
              lte := if body.maxPrice = JSValue.undefined then none else some body.maxPrice }) ∧
      (filterProductsHandler find ⟨.undefined, .undefined, .undefined⟩).filter =
        { category := none, price := none } ∧
      (filterProductsHandler find body).status = 200 ∧
      (filterProductsHandler find body).body =
        (find (filterProductsHandler find body).filter).map productResponse := by
  refine ⟨?_, ?_, rfl, rfl, rfl⟩
  · simp only [filterProductsHandler]
    by_cases hc : body.category.truthy = true <;>
      by_cases hmin : body.minPrice = JSValue.undefined <;>
      by_cases hmax : body.maxPrice = JSValue.undefined <;>
      simp [hc, hmin, hmax]
  · simp only [filterProductsHandler]
    by_cases hc : body.category.truthy = true <;>
      by_cases hmin : body.minPrice = JSValue.undefined <;>
      by_cases hmax : body.maxPrice = JSValue.undefined <;>
      simp [hc, hmin, hmax]

theorem strictEq_false_of_ne (a b : JSValue) (h : a ≠ b) : a.strictEq b = false := by
  unfold JSValue.strictEq
  split
  · rfl
  · rfl
  · exact decide_eq_false h

/-- C26: when the body's name is non-empty, differs from the product's
current name and is the name of another product in the store, the handler
answers 400 "Produktname wird bereits verwendet.", does not call `save`, and
leaves the product as it was, whatever other fields the body carries. -/
theorem updateProductDetails_name_taken (product : Product)
    (findOne : JSValue → Option String → Option Product)
    (saveResult : Product → Option Product) (body : ProductUpdate)
    (hname : body.name.truthy = true) (hdiff : body.name ≠ product.name)
    (htaken : ∃ other : Product,
      findOne body.name (if product._id ≠ "" then some product._id else none) = some other) :
    updateProductDetailsHandler (some product) findOne saveResult body =
      { response := some (400, ProductBody.message "Produktname wird bereits verwendet.")
        product := some product
        saveCalled := false } := by
  obtain ⟨other, hother⟩ := htaken
  have hneq : body.name.strictEq product.name = false := strictEq_false_of_ne _ _ hdiff
  have hunique : checkUniqueProductName findOne body.name (some product._id) =
      { valid := false, message := some "Produktname wird bereits verwendet." } := by
    simp only [checkUniqueProductName, hother]
  simp only [updateProductDetailsHandler, hname, hneq, hunique, Bool.not_false, Bool.and_self,
    if_true, Option.getD]

/-- The request of the controller test: the new name "Neu" is taken by
product 2, and the body carries a new price as well. -/
theorem updateProductDetails_name_taken_witness :
    ((JSValue.string "Neu").truthy = true) ∧ (JSValue.string "Neu" ≠ JSValue.string "Alt") ∧
    updateProductDetailsHandler
        (some ⟨"1", .string "Alt", .null, .null, .null, .null, .null, .number (JSNum.fin 10),
          .null, [], JSNum.fin 0, JSNum.fin 0⟩)
        (fun _ _ => some ⟨"2", .string "Neu", .null, .null, .null, .null, .null,
          .number (JSNum.fin 20), .null, [], JSNum.fin 0, JSNum.fin 0⟩)
        (fun p => some p)
        ⟨.string "Neu", .undefined, .undefined, .undefined, .undefined, .undefined,
          .number (JSNum.fin 99), .undefined⟩ =
      { response := some (400, ProductBody.message "Produktname wird bereits verwendet.")
        product := some ⟨"1", .string "Alt", .null, .null, .null, .null, .null,
          .number (JSNum.fin 10), .null, [], JSNum.fin 0, JSNum.fin 0⟩
        saveCalled := false } :=
  ⟨by decide, by decide,
    updateProductDetails_name_taken
      ⟨"1", .string "Alt", .null, .null, .null, .null, .null, .number (JSNum.fin 10),
        .null, [], JSNum.fin 0, JSNum.fin 0⟩
      (fun _ _ => some ⟨"2", .string "Neu", .null, .null, .null, .null, .null,
        .number (JSNum.fin 20), .null, [], JSNum.fin 0, JSNum.fin 0⟩)
      (fun p => some p)
      ⟨.string "Neu", .undefined, .undefined, .undefined, .undefined, .undefined,
        .number (JSNum.fin 99), .undefined⟩
      (by decide) (by decide) ⟨_, rfl⟩⟩

/-! ## More claims about `calcPrices` -/

theorem round2_nonpos_of_neg (x : ℚ) (hx : x < 0) : round2 x ≤ 0 := by
  rw [round2, if_pos hx]
  have hfloor : (0 : ℤ) ≤ ⌊-x * 100 + 1 / 2⌋ := by
    apply Int.floor_nonneg.mpr
    linarith
  have hcast : (0 : ℚ) ≤ ((⌊-x * 100 + 1 / 2⌋ : ℤ) : ℚ) := by exact_mod_cast hfloor
  linarith

/-- Rounding to two places is monotone. -/
theorem round2_mono (x y : ℚ) (h : x ≤ y) : round2 x ≤ round2 y := by
  by_cases hx : x < 0
  · by_cases hy : y < 0
    · rw [round2, if_pos hx, round2, if_pos hy]
      have hfl : ⌊-y * 100 + 1 / 2⌋ ≤ ⌊-x * 100 + 1 / 2⌋ := Int.floor_mono (by linarith)
      have hcast : ((⌊-y * 100 + 1 / 2⌋ : ℤ) : ℚ) ≤ ((⌊-x * 100 + 1 / 2⌋ : ℤ) : ℚ) := by
        exact_mod_cast hfl
      linarith
    · exact le_trans (round2_nonpos_of_neg x hx) (round2_nonneg y (not_lt.mp hy))
  · have hx0 : 0 ≤ x := not_lt.mp hx
    have hy0 : 0 ≤ y := le_trans hx0 h
    rw [round2_of_nonneg x hx0, round2_of_nonneg y hy0]
    have hfl : ⌊x * 100 + 1 / 2⌋ ≤ ⌊y * 100 + 1 / 2⌋ := Int.floor_mono (by linarith)
    have hcast : ((⌊x * 100 + 1 / 2⌋ : ℤ) : ℚ) ≤ ((⌊y * 100 + 1 / 2⌋ : ℤ) : ℚ) := by
      exact_mod_cast hfl
    linarith

/-- The value of the totalPrice string of `calcPrices`. -/
theorem parseFloat_totalPrice (items : List OrderItem) :
    parseFloat (calcPrices items).totalPrice =
      JSNum.fin (round2 (itemsSum items + shippingOf (itemsSum items) +
        round2 (itemsSum items * taxRate))) := by
  rw [calcPrices_eq, parseFloat_toFixed2]

/-- C27: the free-shipping test is on the unrounded sum: for the single item
of price 100.004 and qty 1 the sum is above 100, itemsPrice is "100.00" and
shippingPrice is "0.00". -/
theorem calcPrices_threshold_unrounded :
    (100 : ℚ) < ([(⟨100.004, 1⟩ : OrderItem)].map fun item => item.price * item.qty).sum ∧
      (calcPrices [⟨100.004, 1⟩]).itemsPrice = "100.00" ∧
      (calcPrices [⟨100.004, 1⟩]).shippingPrice = "0.00" ∧
      ∃ items : List OrderItem,
        (calcPrices items).itemsPrice = "100.00" ∧ (calcPrices items).shippingPrice = "0.00" := by
  have hS : itemsSum [⟨100.004, 1⟩] = 100.004 := by norm_num [itemsSum]
  have hship : shippingOf 100.004 = 0 := by norm_num [shippingOf]
  have hitems : toFixed2 100.004 = "100.00" := by
    rw [toFixed2_eval 100.004 10000 (by norm_num) (by norm_num) (by norm_num)]
    decide
  have h1 : (calcPrices [⟨100.004, 1⟩]).itemsPrice = "100.00" := by
    rw [calcPrices_eq, hS]
    exact hitems
  have h2 : (calcPrices [⟨100.004, 1⟩]).shippingPrice = "0.00" := by
    rw [calcPrices_eq, hS]
    show toFixed2 (shippingOf 100.004) = "0.00"
    rw [hship, toFixed2_zero]
  exact ⟨by norm_num, h1, h2, [⟨100.004, 1⟩], h1, h2⟩

theorem foldl_itemsSumValues (items : List PricedItem) (acc : JSNum) :
    items.foldl
        (fun acc item => JSNum.add acc (JSNum.mul item.price.toNumber item.qty.toNumber)) acc =
      JSNum.add acc
        (JSNum.sum (items.map fun item => JSNum.mul item.price.toNumber item.qty.toNumber)) := by
  induction items generalizing acc with
  | nil => exact (jsAdd_zero acc).symm
  | cons it items ih =>
    rw [List.foldl_cons, ih, List.map_cons, jsAdd_assoc]
    rfl

/-! ## Facts about binary64 rounding -/

theorem bitLength_spec (fuel : Nat) : ∀ n : Nat, 0 < n → n ≤ fuel →
    2 ^ (Binary64.bitLength fuel n - 1) ≤ n ∧ n < 2 ^ Binary64.bitLength fuel n ∧
      0 < Binary64.bitLength fuel n := by
  induction fuel with
  | zero =>
    intro n hn hle
    omega
  | succ fuel ih =>
    intro n hn hle
    have hn0 : n ≠ 0 := Nat.pos_iff_ne_zero.mp hn
    rw [Binary64.bitLength, if_neg hn0]
    by_cases h1 : n / 2 = 0
    · have hone : n = 1 := by omega
      subst hone
      cases fuel <;> simp [Binary64.bitLength]
    · obtain ⟨hlo, hhi, hpos⟩ := ih (n / 2) (Nat.pos_of_ne_zero h1) (by omega)
      refine ⟨?_, ?_, Nat.succ_pos _⟩
      · rw [Nat.add_sub_cancel]
        have h2 : 2 ^ Binary64.bitLength fuel (n / 2) =
            2 ^ (Binary64.bitLength fuel (n / 2) - 1) * 2 := by
          rw [← pow_succ, Nat.sub_add_cancel hpos]
        rw [h2]
        calc 2 ^ (Binary64.bitLength fuel (n / 2) - 1) * 2 ≤ n / 2 * 2 :=
              Nat.mul_le_mul_right 2 hlo
          _ ≤ n := Nat.div_mul_le_self n 2
      · rw [pow_succ]
        omega

theorem two_zpow_pos (k : ℤ) : (0 : ℚ) < (2 : ℚ) ^ k := zpow_pos (by norm_num) k

/-- The binary exponent brackets a positive rational between two powers of
two. -/
theorem binExp_spec (a : ℚ) (ha : 0 < a) :
    (2 : ℚ) ^ Binary64.binExp a ≤ a ∧ a < (2 : ℚ) ^ (Binary64.binExp a + 1) := by
  have hnum : 0 < a.num := Rat.num_pos.mpr ha
  have hn : 0 < a.num.natAbs := Int.natAbs_pos.mpr hnum.ne'
  have hd : 0 < a.den := a.den_pos
  obtain ⟨hnlo, hnhi, hnpos⟩ := bitLength_spec a.num.natAbs a.num.natAbs hn le_rfl
  obtain ⟨hdlo, hdhi, hdpos⟩ := bitLength_spec a.den a.den hd le_rfl
  have ha_eq : a = (a.num.natAbs : ℚ) / (a.den : ℚ) := by
    have h2 : (a.num.natAbs : ℚ) = (a.num : ℚ) := by
      rw [Nat.cast_natAbs, abs_of_pos hnum]
    rw [h2]
    exact (Rat.num_div_den a).symm
  have hdq : (0 : ℚ) < (a.den : ℚ) := by exact_mod_cast hd
  set bn := Binary64.bitLength a.num.natAbs a.num.natAbs with hbn
  set bd := Binary64.bitLength a.den a.den with hbd
  have hnloq : (2 : ℚ) ^ ((bn : ℤ) - 1) ≤ (a.num.natAbs : ℚ) := by
    have h3 : ((bn : ℤ) - 1) = ((bn - 1 : ℕ) : ℤ) := by omega
    rw [h3, zpow_natCast]
    exact_mod_cast hnlo
  have hnhiq : (a.num.natAbs : ℚ) < (2 : ℚ) ^ (bn : ℤ) := by
    rw [zpow_natCast]
    exact_mod_cast hnhi
  have hdloq : (2 : ℚ) ^ ((bd : ℤ) - 1) ≤ (a.den : ℚ) := by
    have h3 : ((bd : ℤ) - 1) = ((bd - 1 : ℕ) : ℤ) := by omega
    rw [h3, zpow_natCast]
    exact_mod_cast hdlo
  have hdhiq : (a.den : ℚ) < (2 : ℚ) ^ (bd : ℤ) := by
    rw [zpow_natCast]
    exact_mod_cast hdhi
  have hlow : (2 : ℚ) ^ ((bn : ℤ) - (bd : ℤ) - 1) ≤ a := by
    rw [ha_eq, le_div_iff₀ hdq]
    calc (2 : ℚ) ^ ((bn : ℤ) - (bd : ℤ) - 1) * (a.den : ℚ)
        ≤ (2 : ℚ) ^ ((bn : ℤ) - (bd : ℤ) - 1) * (2 : ℚ) ^ (bd : ℤ) :=
          mul_le_mul_of_nonneg_left hdhiq.le (two_zpow_pos _).le
      _ = (2 : ℚ) ^ ((bn : ℤ) - 1) := by
          rw [← zpow_add₀ (by norm_num : (2 : ℚ) ≠ 0)]
          congr 1
          ring
      _ ≤ (a.num.natAbs : ℚ) := hnloq
  have hhigh : a < (2 : ℚ) ^ ((bn : ℤ) - (bd : ℤ) + 1) := by
    rw [ha_eq, div_lt_iff₀ hdq]
    calc (a.num.natAbs : ℚ) < (2 : ℚ) ^ (bn : ℤ) := hnhiq
      _ = (2 : ℚ) ^ ((bn : ℤ) - (bd : ℤ) + 1) * (2 : ℚ) ^ ((bd : ℤ) - 1) := by
          rw [← zpow_add₀ (by norm_num : (2 : ℚ) ≠ 0)]
          congr 1
          ring
      _ ≤ (2 : ℚ) ^ ((bn : ℤ) - (bd : ℤ) + 1) * (a.den : ℚ) :=
          mul_le_mul_of_nonneg_left hdloq (two_zpow_pos _).le
  unfold Binary64.binExp
  simp only [← hbn, ← hbd]
  by_cases h : (2 : ℚ) ^ ((bn : ℤ) - (bd : ℤ)) ≤ a
  · rw [if_pos h]
    exact ⟨h, hhigh⟩
  · rw [if_neg h]
    refine ⟨hlow, ?_⟩
    rw [sub_add_cancel]
    exact not_le.mp h

theorem roundHalfEven_floor_le (x : ℚ) : ⌊x⌋ ≤ Binary64.roundHalfEven x := by
  unfold Binary64.roundHalfEven
  split_ifs <;> omega

theorem roundHalfEven_le_floor_succ (x : ℚ) : Binary64.roundHalfEven x ≤ ⌊x⌋ + 1 := by
  unfold Binary64.roundHalfEven
  split_ifs <;> omega

/-- Rounding to the nearest integer moves by at most one half. -/
theorem roundHalfEven_near (x : ℚ) : |(Binary64.roundHalfEven x : ℚ) - x| ≤ 1 / 2 := by
  have h0 : ((⌊x⌋ : ℤ) : ℚ) ≤ x := Int.floor_le x
  have h1 : x < ((⌊x⌋ : ℤ) : ℚ) + 1 := Int.lt_floor_add_one x
  rw [abs_le]
  unfold Binary64.roundHalfEven
  split_ifs <;> push_cast <;> constructor <;> linarith

theorem roundHalfEven_intCast (n : ℤ) : Binary64.roundHalfEven (n : ℚ) = n := by
  simp [Binary64.roundHalfEven]

/-- Rounding to the nearest integer is monotone. -/
theorem roundHalfEven_mono (x y : ℚ) (h : x ≤ y) :
    Binary64.roundHalfEven x ≤ Binary64.roundHalfEven y := by
  have hfloor : ⌊x⌋ ≤ ⌊y⌋ := Int.floor_mono h
  by_cases hlt : ⌊x⌋ < ⌊y⌋
  · calc Binary64.roundHalfEven x ≤ ⌊x⌋ + 1 := roundHalfEven_le_floor_succ x
      _ ≤ ⌊y⌋ := hlt
      _ ≤ Binary64.roundHalfEven y := roundHalfEven_floor_le y
  · have heq : ⌊x⌋ = ⌊y⌋ := le_antisymm hfloor (not_lt.mp hlt)
    unfold Binary64.roundHalfEven
    rw [heq]
    split_ifs <;> first | omega | (exfalso; linarith)

theorem roundAbs_zero : Binary64.roundAbs 0 = 0 := by
  simp [Binary64.roundAbs, Binary64.roundHalfEven]

theorem roundAbs_nonneg (a : ℚ) (ha : 0 ≤ a) : 0 ≤ Binary64.roundAbs a := by
  unfold Binary64.roundAbs
  have h0 : (0 : ℤ) ≤ Binary64.roundHalfEven (a / 2 ^ Binary64.ulpExp a) := by
    have := roundHalfEven_mono 0 (a / 2 ^ Binary64.ulpExp a)
      (div_nonneg ha (two_zpow_pos _).le)
    have h00 : Binary64.roundHalfEven 0 = 0 := by
      have := roundHalfEven_intCast 0
      simpa using this
    rw [h00] at this
    exact this
  have h1 : (0 : ℚ) ≤ (Binary64.roundHalfEven (a / 2 ^ Binary64.ulpExp a) : ℚ) := by
    exact_mod_cast h0
  exact mul_nonneg h1 (two_zpow_pos _).le

/-- The rounding error of a magnitude is at most half a unit in the last
place. -/
theorem roundAbs_err (a : ℚ) :
    |Binary64.roundAbs a - a| ≤ 2 ^ Binary64.ulpExp a / 2 := by
  have hpos := two_zpow_pos (Binary64.ulpExp a)
  have hnear := roundHalfEven_near (a / 2 ^ Binary64.ulpExp a)
  have heq : Binary64.roundAbs a - a =
      ((Binary64.roundHalfEven (a / 2 ^ Binary64.ulpExp a) : ℚ) - a / 2 ^ Binary64.ulpExp a) *
        2 ^ Binary64.ulpExp a := by
    unfold Binary64.roundAbs
    field_simp
  rw [heq, abs_mul, abs_of_pos hpos]
  calc |(Binary64.roundHalfEven (a / 2 ^ Binary64.ulpExp a) : ℚ) - a / 2 ^ Binary64.ulpExp a| *
        2 ^ Binary64.ulpExp a ≤ 1 / 2 * 2 ^ Binary64.ulpExp a :=
        mul_le_mul_of_nonneg_right hnear hpos.le
    _ = 2 ^ Binary64.ulpExp a / 2 := by ring

theorem binExp_lt (a : ℚ) (m : ℤ) (ha : 0 < a) (h : a < 2 ^ m) : Binary64.binExp a < m := by
  have h1 := (binExp_spec a ha).1
  exact (zpow_lt_zpow_iff_right₀ (by norm_num : (1 : ℚ) < 2)).mp (lt_of_le_of_lt h1 h)

theorem le_binExp (a : ℚ) (m : ℤ) (ha : 0 < a) (h : 2 ^ m ≤ a) : m ≤ Binary64.binExp a := by
  have h1 := (binExp_spec a ha).2
  have := (zpow_lt_zpow_iff_right₀ (by norm_num : (1 : ℚ) < 2)).mp (lt_of_le_of_lt h h1)
  omega

theorem ulpExp_le (a : ℚ) (m : ℤ) (ha : 0 < a) (h : a < 2 ^ m) (hm : -1021 ≤ m) :
    Binary64.ulpExp a ≤ m - 53 := by
  have := binExp_lt a m ha h
  unfold Binary64.ulpExp
  omega

theorem roundAbs_le_pow (a : ℚ) (ha : 0 < a) :
    Binary64.roundAbs a ≤ 2 ^ (Binary64.ulpExp a + 53) := by
  have hpos := two_zpow_pos (Binary64.ulpExp a)
  have hlt : a < 2 ^ (Binary64.ulpExp a + 53) := by
    refine lt_of_lt_of_le (binExp_spec a ha).2 ?_
    apply zpow_le_zpow_right₀ (by norm_num)
    unfold Binary64.ulpExp
    omega
  have hdiv : a / 2 ^ Binary64.ulpExp a ≤ (((2 : ℤ) ^ (53 : ℕ) : ℤ) : ℚ) := by
    rw [div_le_iff₀ hpos]
    have : (((2 : ℤ) ^ (53 : ℕ) : ℤ) : ℚ) * 2 ^ Binary64.ulpExp a =
        2 ^ (Binary64.ulpExp a + 53) := by
      rw [zpow_add₀ (by norm_num : (2 : ℚ) ≠ 0)]
      push_cast
      rw [mul_comm]
      norm_cast
    rw [this]
    exact hlt.le
  have hr := roundHalfEven_mono _ _ hdiv
  rw [roundHalfEven_intCast] at hr
  have hrq : (Binary64.roundHalfEven (a / 2 ^ Binary64.ulpExp a) : ℚ) ≤
      (((2 : ℤ) ^ (53 : ℕ) : ℤ) : ℚ) := by exact_mod_cast hr
  unfold Binary64.roundAbs
  calc (Binary64.roundHalfEven (a / 2 ^ Binary64.ulpExp a) : ℚ) * 2 ^ Binary64.ulpExp a
      ≤ (((2 : ℤ) ^ (53 : ℕ) : ℤ) : ℚ) * 2 ^ Binary64.ulpExp a :=
        mul_le_mul_of_nonneg_right hrq hpos.le
    _ = 2 ^ (Binary64.ulpExp a + 53) := by
      rw [zpow_add₀ (by norm_num : (2 : ℚ) ≠ 0)]
      push_cast
      rw [mul_comm]
      norm_cast

theorem pow_le_roundAbs (a : ℚ) (ha : 0 < a) (hnormal : -1022 ≤ Binary64.binExp a) :
    2 ^ Binary64.binExp a ≤ Binary64.roundAbs a := by
  have hpos := two_zpow_pos (Binary64.ulpExp a)
  have hu : Binary64.ulpExp a = Binary64.binExp a - 52 := by
    unfold Binary64.ulpExp
    omega
  have hsplit : (2 : ℚ) ^ Binary64.binExp a =
      (((2 : ℤ) ^ (52 : ℕ) : ℤ) : ℚ) * 2 ^ Binary64.ulpExp a := by
    have : (2 : ℚ) ^ Binary64.binExp a = 2 ^ (Binary64.ulpExp a + 52) := by
      rw [hu]
      congr 1
      ring
    rw [this, zpow_add₀ (by norm_num : (2 : ℚ) ≠ 0)]
    push_cast
    rw [mul_comm]
    norm_cast
  have hdiv : (((2 : ℤ) ^ (52 : ℕ) : ℤ) : ℚ) ≤ a / 2 ^ Binary64.ulpExp a := by
    rw [le_div_iff₀ hpos, ← hsplit]
    exact (binExp_spec a ha).1
  have hr := roundHalfEven_mono _ _ hdiv
  rw [roundHalfEven_intCast] at hr
  have hrq : (((2 : ℤ) ^ (52 : ℕ) : ℤ) : ℚ) ≤
      (Binary64.roundHalfEven (a / 2 ^ Binary64.ulpExp a) : ℚ) := by exact_mod_cast hr
  rw [hsplit]
  unfold Binary64.roundAbs
  exact mul_le_mul_of_nonneg_right hrq hpos.le

/-- Rounding of magnitudes is monotone. -/
theorem roundAbs_mono (a b : ℚ) (ha : 0 ≤ a) (hab : a ≤ b) :
    Binary64.roundAbs a ≤ Binary64.roundAbs b := by
  rcases eq_or_lt_of_le ha with h0 | hpos
  · rw [← h0, roundAbs_zero]
    exact roundAbs_nonneg b (le_trans ha hab)
  · have hbpos : 0 < b := lt_of_lt_of_le hpos hab
    have hexp : Binary64.binExp a ≤ Binary64.binExp b :=
      le_binExp b _ hbpos (le_trans (binExp_spec a hpos).1 hab)
    by_cases hu : Binary64.ulpExp a = Binary64.ulpExp b
    · unfold Binary64.roundAbs
      rw [hu]
      have hdiv : a / 2 ^ Binary64.ulpExp b ≤ b / 2 ^ Binary64.ulpExp b :=
        div_le_div_of_nonneg_right hab (two_zpow_pos _).le
      have hr := roundHalfEven_mono _ _ hdiv
      have hrq : (Binary64.roundHalfEven (a / 2 ^ Binary64.ulpExp b) : ℚ) ≤
          (Binary64.roundHalfEven (b / 2 ^ Binary64.ulpExp b) : ℚ) := by exact_mod_cast hr
      exact mul_le_mul_of_nonneg_right hrq (two_zpow_pos _).le
    · have hnormal : -1022 ≤ Binary64.binExp b := by
        unfold Binary64.ulpExp at hu
        omega
      have hstep : Binary64.ulpExp a + 53 ≤ Binary64.binExp b := by
        unfold Binary64.ulpExp at hu ⊢
        omega
      calc Binary64.roundAbs a ≤ 2 ^ (Binary64.ulpExp a + 53) := roundAbs_le_pow a hpos
        _ ≤ 2 ^ Binary64.binExp b := zpow_le_zpow_right₀ (by norm_num) hstep
        _ ≤ Binary64.roundAbs b := pow_le_roundAbs b hbpos hnormal

theorem fl_zero : Binary64.fl 0 = 0 := by
  simp [Binary64.fl, roundAbs_zero]

theorem fl_of_nonneg (x : ℚ) (hx : 0 ≤ x) : Binary64.fl x = Binary64.roundAbs x := by
  rw [Binary64.fl, if_neg (not_lt.mpr hx)]

theorem fl_of_neg (x : ℚ) (hx : x < 0) : Binary64.fl x = -Binary64.roundAbs (-x) := by
  rw [Binary64.fl, if_pos hx]

theorem fl_nonneg (x : ℚ) (hx : 0 ≤ x) : 0 ≤ Binary64.fl x := by
  rw [fl_of_nonneg x hx]
  exact roundAbs_nonneg x hx

theorem fl_nonpos (x : ℚ) (hx : x ≤ 0) : Binary64.fl x ≤ 0 := by
  rcases eq_or_lt_of_le hx with h0 | hneg
  · rw [h0, fl_zero]
  · rw [fl_of_neg x hneg]
    have := roundAbs_nonneg (-x) (by linarith)
    linarith

/-- Rounding to binary64 is monotone. -/
theorem fl_mono (x y : ℚ) (h : x ≤ y) : Binary64.fl x ≤ Binary64.fl y := by
  by_cases hx : x < 0
  · by_cases hy : y < 0
    · rw [fl_of_neg x hx, fl_of_neg y hy]
      have := roundAbs_mono (-y) (-x) (by linarith) (by linarith)
      linarith
    · exact le_trans (fl_nonpos x hx.le) (fl_nonneg y (not_lt.mp hy))
  · have hx0 : 0 ≤ x := not_lt.mp hx
    rw [fl_of_nonneg x hx0, fl_of_nonneg y (le_trans hx0 h)]
    exact roundAbs_mono x y hx0 h

/-- The rounding error below `2 ^ m` is at most `2 ^ (m - 54)`, for `m` in the
normal range. -/
theorem fl_err (x : ℚ) (m : ℤ) (hm : -1021 ≤ m) (hx : |x| < 2 ^ m) :
    |Binary64.fl x - x| ≤ 2 ^ (m - 54) := by
  have key : ∀ a : ℚ, 0 ≤ a → a < 2 ^ m → |Binary64.roundAbs a - a| ≤ 2 ^ (m - 54) := by
    intro a ha ham
    rcases eq_or_lt_of_le ha with h0 | hpos
    · rw [← h0, roundAbs_zero]
      simp only [sub_zero, abs_zero]
      exact (two_zpow_pos _).le
    · have hu := ulpExp_le a m hpos ham hm
      calc |Binary64.roundAbs a - a| ≤ 2 ^ Binary64.ulpExp a / 2 := roundAbs_err a
        _ ≤ 2 ^ (m - 53) / 2 := by
          apply div_le_div_of_nonneg_right _ (by norm_num)
          exact zpow_le_zpow_right₀ (by norm_num) hu
        _ = 2 ^ (m - 54) := by
          have : m - 53 = (m - 54) + 1 := by ring
          rw [this, zpow_add₀ (by norm_num : (2 : ℚ) ≠ 0)]
          norm_num
  by_cases hneg : x < 0
  · rw [fl_of_neg x hneg]
    have := key (-x) (by linarith) (by rwa [abs_of_neg hneg] at hx)
    have heq : -Binary64.roundAbs (-x) - x = -(Binary64.roundAbs (-x) - -x) := by ring
    rw [heq, abs_neg]
    exact this
  · have hx0 : 0 ≤ x := not_lt.mp hneg
    rw [fl_of_nonneg x hx0]
    exact key x hx0 (by rwa [abs_of_nonneg hx0] at hx)

theorem roundAbs_natCast (n : ℕ) (h : n < 2 ^ 53) : Binary64.roundAbs (n : ℚ) = (n : ℚ) := by
  rcases Nat.eq_zero_or_pos n with h0 | hpos
  · rw [h0]
    simpa using roundAbs_zero
  · have hq : (0 : ℚ) < (n : ℚ) := by exact_mod_cast hpos
    have hlt : (n : ℚ) < 2 ^ (53 : ℤ) := by
      have : ((n : ℕ) : ℚ) < ((2 ^ 53 : ℕ) : ℚ) := by exact_mod_cast h
      rw [show (53 : ℤ) = ((53 : ℕ) : ℤ) by rfl, zpow_natCast]
      exact_mod_cast this
    have hu : Binary64.ulpExp (n : ℚ) ≤ 0 := by
      have := ulpExp_le (n : ℚ) 53 hq hlt (by norm_num)
      omega
    obtain ⟨k, hk⟩ : ∃ k : ℕ, Binary64.ulpExp (n : ℚ) = -(k : ℤ) :=
      ⟨(-Binary64.ulpExp (n : ℚ)).toNat, by omega⟩
    unfold Binary64.roundAbs
    rw [hk, zpow_neg, zpow_natCast]
    have hint : (n : ℚ) / ((2 : ℚ) ^ k)⁻¹ = (((n : ℤ) * 2 ^ k : ℤ) : ℚ) := by
      rw [div_inv_eq_mul]
      push_cast
      ring
    rw [hint, roundHalfEven_intCast]
    push_cast
    have h2 : ((2 : ℚ) ^ k) ≠ 0 := by positivity
    field_simp

/-- Integers below `2 ^ 53` in magnitude are binary64 numbers. -/
theorem fl_intCast (n : ℤ) (h : |n| < 2 ^ 53) : Binary64.fl (n : ℚ) = (n : ℚ) := by
  have habs : n.natAbs < 2 ^ 53 := by
    have : ((n.natAbs : ℕ) : ℤ) < 2 ^ 53 := by
      rw [Int.natCast_natAbs]
      exact h
    exact_mod_cast this
  by_cases hneg : n < 0
  · have hq : (n : ℚ) < 0 := by exact_mod_cast hneg
    rw [fl_of_neg _ hq]
    have hcast : -(n : ℚ) = ((n.natAbs : ℕ) : ℚ) := by
      rw [Nat.cast_natAbs, abs_of_neg hneg]
      push_cast
      rfl
    rw [hcast, roundAbs_natCast _ habs, ← hcast]
    ring
  · have hq : (0 : ℚ) ≤ (n : ℚ) := by exact_mod_cast not_lt.mp hneg
    rw [fl_of_nonneg _ hq]
    have hcast : (n : ℚ) = ((n.natAbs : ℕ) : ℚ) := by
      rw [Nat.cast_natAbs, abs_of_nonneg (not_lt.mp hneg)]
    rw [hcast, roundAbs_natCast _ habs]

theorem binExp_eq (a : ℚ) (e : ℤ) (ha : 0 < a) (hlo : 2 ^ e ≤ a) (hhi : a < 2 ^ (e + 1)) :
    Binary64.binExp a = e := by
  have h1 := le_binExp a e ha hlo
  have h2 := binExp_lt a (e + 1) ha hhi
  omega

/-- A multiple of its own unit in the last place is a fixed point of the
rounding. -/
theorem roundAbs_of_multiple (b : ℚ) (u k : ℤ) (hb : b = (k : ℚ) * 2 ^ u)
    (hu : Binary64.ulpExp b = u) : Binary64.roundAbs b = b := by
  have hdiv : b / 2 ^ u = (k : ℚ) := by
    have := two_zpow_pos u
    rw [hb]
    field_simp
  unfold Binary64.roundAbs
  rw [hu, hdiv, roundHalfEven_intCast, ← hb]

/-- A rounded magnitude is a fixed point of the rounding: it is a binary64
number. -/
theorem roundAbs_idempotent (a : ℚ) (ha : 0 ≤ a) :
    Binary64.roundAbs (Binary64.roundAbs a) = Binary64.roundAbs a := by
  rcases eq_or_lt_of_le ha with h0 | hpos
  · rw [← h0, roundAbs_zero, roundAbs_zero]
  · have hupos := two_zpow_pos (Binary64.ulpExp a)
    have hb0 : 0 ≤ Binary64.roundAbs a := roundAbs_nonneg a ha
    rcases eq_or_lt_of_le hb0 with hbz | hbpos
    · rw [← hbz, roundAbs_zero]
    · have hle := roundAbs_le_pow a hpos
      have hfix : ∀ u : ℤ, (∃ k : ℤ, Binary64.roundAbs a = (k : ℚ) * 2 ^ u) →
          Binary64.ulpExp (Binary64.roundAbs a) = u →
          Binary64.roundAbs (Binary64.roundAbs a) = Binary64.roundAbs a := by
        intro u hk hu
        obtain ⟨k, hk⟩ := hk
        exact roundAbs_of_multiple _ u k hk hu
      rcases eq_or_lt_of_le hle with htop | hbelow
      · -- the rounding reached the next power of two
        apply hfix (Binary64.ulpExp a + 1)
        · refine ⟨2 ^ (52 : ℕ), ?_⟩
          rw [htop, show Binary64.ulpExp a + 53 = Binary64.ulpExp a + 1 + 52 by ring,
            zpow_add₀ (by norm_num : (2 : ℚ) ≠ 0)]
          push_cast
          rw [mul_comm]
          norm_cast
        · have hexp : Binary64.binExp (Binary64.roundAbs a) = Binary64.ulpExp a + 53 := by
            apply binExp_eq _ _ hbpos (le_of_eq htop.symm)
            rw [htop]
            exact (zpow_lt_zpow_iff_right₀ (by norm_num : (1 : ℚ) < 2)).mpr (by omega)
          have hge : -1074 ≤ Binary64.ulpExp a := by
            unfold Binary64.ulpExp
            omega
          unfold Binary64.ulpExp at hexp ⊢
          rw [hexp]
          omega
      · apply hfix (Binary64.ulpExp a)
        · exact ⟨Binary64.roundHalfEven (a / 2 ^ Binary64.ulpExp a), rfl⟩
        · have hlt := binExp_lt _ _ hbpos hbelow
          by_cases hnormal : -1022 ≤ Binary64.binExp a
          · have hge := le_binExp _ _ hbpos (pow_le_roundAbs a hpos hnormal)
            unfold Binary64.ulpExp at hlt ⊢
            omega
          · unfold Binary64.ulpExp at hlt ⊢
            omega

/-- Rounding to binary64 is idempotent: its values are the binary64
numbers. -/
theorem fl_idempotent (x : ℚ) : Binary64.fl (Binary64.fl x) = Binary64.fl x := by
  by_cases hneg : x < 0
  · rw [fl_of_neg x hneg]
    have hb0 := roundAbs_nonneg (-x) (by linarith)
    rcases eq_or_lt_of_le hb0 with hbz | hbpos
    · rw [← hbz]
      simp [fl_zero]
    · rw [fl_of_neg _ (by linarith), neg_neg, roundAbs_idempotent (-x) (by linarith)]
  · have hx0 : 0 ≤ x := not_lt.mp hneg
    rw [fl_of_nonneg x hx0, fl_of_nonneg _ (roundAbs_nonneg x hx0), roundAbs_idempotent x hx0]

/-- The rounded value lies between the binary64 numbers around the
argument. -/
theorem fl_between (x y : ℚ) (hy : Binary64.fl y = y) :
    (y ≤ x → y ≤ Binary64.fl x) ∧ (x ≤ y → Binary64.fl x ≤ y) := by
  constructor
  · intro h
    have := fl_mono y x h
    rwa [hy] at this
  · intro h
    have := fl_mono x y h
    rwa [hy] at this

/-- Some roundings: the binary64 numbers nearest to 0.1 and to 0.19; the
exact `10 ^ 21`; a tie to even above `2 ^ 53`; the smallest positive number
`2 ^ (-1074)` and the underflow to zero; the largest finite number, and the
overflow to the infinities. -/
theorem fl_examples :
    Binary64.fl (1 / 10) = 3602879701896397 / 36028797018963968 ∧
      Binary64.fl (19 / 100) = 3422735716801577 / 18014398509481984 ∧
      Binary64.fl (10 ^ 21) = 10 ^ 21 ∧
      Binary64.fl (2 ^ 53 + 1) = 2 ^ 53 ∧
      Binary64.fl (2 ^ 53 + 3) = 2 ^ 53 + 4 ∧
      Binary64.fl (3 / 10 ^ 324) = 1 / 2 ^ 1074 ∧
      Binary64.fl (2 / 10 ^ 324) = 0 ∧
      Binary64.ofRat (17976931348623157 * 10 ^ 292) =
        JSNum.fin (2 ^ 1024 - 2 ^ 971) ∧
      Binary64.ofRat (2 ^ 1024 - 2 ^ 970) = JSNum.posInf ∧
      Binary64.ofRat (-(10 ^ 400)) = JSNum.negInf := by
  decide!

/-! ## Facts about the binary64 operations -/

/-- Below `2 ^ m`, for `m` in the normal range, the rounded result is finite. -/
theorem ofRat_eq_fin (x : ℚ) (m : ℤ) (hm : -1021 ≤ m) (hm2 : m ≤ 1023) (hx : |x| < 2 ^ m) :
    Binary64.ofRat x = JSNum.fin (Binary64.fl x) := by
  have herr := fl_err x m hm hx
  have hb : |Binary64.fl x| < 2 ^ (1024 : ℕ) := by
    have h1 : |Binary64.fl x| ≤ |Binary64.fl x - x| + |x| := by
      have := abs_add (Binary64.fl x - x) x
      simpa using this
    have h2 : (2 : ℚ) ^ (m - 54) ≤ 2 ^ m := zpow_le_zpow_right₀ (by norm_num) (by omega)
    have h3 : (2 : ℚ) ^ m + 2 ^ m ≤ 2 ^ (1024 : ℕ) := by
      have h4 : (2 : ℚ) ^ m + 2 ^ m = 2 ^ (m + 1) := by
        rw [zpow_add₀ (by norm_num : (2 : ℚ) ≠ 0)]
        ring
      rw [h4, ← zpow_natCast]
      exact zpow_le_zpow_right₀ (by norm_num) (by push_cast; omega)
    linarith
  obtain ⟨hlo, hhi⟩ := abs_lt.mp hb
  unfold Binary64.ofRat
  rw [if_neg (not_le.mpr hhi), if_neg (not_le.mpr hlo)]

/-- Up to `2 * 10 ^ 20` the rounded result is finite and within `2 ^ 14` of
the exact one. -/
theorem ofRat_large (x : ℚ) (hx : |x| ≤ 2 * 10 ^ 20) :
    Binary64.ofRat x = JSNum.fin (Binary64.fl x) ∧ |Binary64.fl x - x| ≤ 2 ^ 14 := by
  have hlt : |x| < 2 ^ (68 : ℤ) := lt_of_le_of_lt hx (by norm_num)
  refine ⟨ofRat_eq_fin x 68 (by norm_num) (by norm_num) hlt, ?_⟩
  have := fl_err x 68 (by norm_num) hlt
  norm_num at this ⊢
  exact this

/-- Up to `2 * 10 ^ 12` the rounded result is finite and within `2 ^ (-13)`
of the exact one. -/
theorem ofRat_medium (x : ℚ) (hx : |x| ≤ 2 * 10 ^ 12) :
    Binary64.ofRat x = JSNum.fin (Binary64.fl x) ∧ |Binary64.fl x - x| ≤ 1 / 2 ^ 13 := by
  have hlt : |x| < 2 ^ (41 : ℤ) := lt_of_le_of_lt hx (by norm_num)
  refine ⟨ofRat_eq_fin x 41 (by norm_num) (by norm_num) hlt, ?_⟩
  have := fl_err x 41 (by norm_num) hlt
  norm_num at this ⊢
  exact this

theorem ofRat_intCast (n : ℤ) (h : |n| < 2 ^ 53) : Binary64.ofRat (n : ℚ) = JSNum.fin (n : ℚ) := by
  have hq : |(n : ℚ)| < 2 ^ (53 : ℤ) := by
    have : ((|n| : ℤ) : ℚ) < ((2 ^ 53 : ℤ) : ℚ) := by exact_mod_cast h
    rw [Int.cast_abs] at this
    norm_num at this ⊢
    exact this
  rw [ofRat_eq_fin _ 53 (by norm_num) (by norm_num) hq, fl_intCast n h]

/-- The binary64 number of the literal `0.19`. -/
theorem fl_taxRate : Binary64.fl (19 / 100) = 3422735716801577 / 18014398509481984 := by
  decide!

theorem taxRate_eq : Binary64.taxRate = JSNum.fin (Binary64.fl (19 / 100)) := by
  decide!

theorem toFixed2_fin (q : ℚ) (h : |q| < 10 ^ 21) :
    Binary64.toFixed2 (JSNum.fin q) = toFixed2 q := by
  have h2 : ¬ (10 : ℚ) ^ (21 : ℕ) ≤ |q| := not_le.mpr h
  simp only [Binary64.toFixed2, if_neg h2]

theorem shipping_fin (S : ℚ) :
    (if JSNum.gt (JSNum.fin S) (JSNum.fin 100) = true then JSNum.fin 0 else JSNum.fin 10) =
      JSNum.fin (shippingOf S) := by
  unfold shippingOf
  by_cases h : (100 : ℚ) < S
  · simp [JSNum.gt, h]
  · simp [JSNum.gt, h]

theorem shippingOf_cases (S : ℚ) : shippingOf S = 0 ∨ shippingOf S = 10 := by
  unfold shippingOf
  split
  · exact Or.inl rfl
  · exact Or.inr rfl

theorem round2_abs_le (x : ℚ) : |round2 x| ≤ |x| + 1 / 200 := by
  have h := (round2_near x).2
  have h1 : |round2 x| ≤ |round2 x - x| + |x| := by
    have := abs_add (round2 x - x) x
    simpa using this
  linarith

theorem abs_le_of_fl_err (x e : ℚ) (h : |Binary64.fl x - x| ≤ e) : |Binary64.fl x| ≤ |x| + e := by
  have h1 : |Binary64.fl x| ≤ |Binary64.fl x - x| + |x| := by
    have := abs_add (Binary64.fl x - x) x
    simpa using this
  linarith

/-- The sizes of the intermediate values of `calcPrices` for an unrounded sum
up to `10 ^ 20` in magnitude. -/
theorem calcPrices_bounds (S : ℚ) (hS : |S| ≤ 10 ^ 20) :
    |S * Binary64.fl (19 / 100)| ≤ 2 * 10 ^ 19 ∧
      |Binary64.taxOf S| ≤ 2 * 10 ^ 19 + 2 ^ 14 ∧
      |round2 (Binary64.taxOf S)| ≤ 2 * 10 ^ 19 + 2 ^ 14 + 1 ∧
      |S + shippingOf S| ≤ 10 ^ 20 + 10 ∧
      |Binary64.fl (S + shippingOf S) + Binary64.fl (round2 (Binary64.taxOf S))| ≤
        10 ^ 20 + 10 + 2 ^ 14 + (2 * 10 ^ 19 + 2 ^ 14 + 1 + 2 ^ 14) ∧
      |Binary64.totalOf S| ≤
        10 ^ 20 + 10 + 2 ^ 14 + (2 * 10 ^ 19 + 2 ^ 14 + 1 + 2 ^ 14) + 2 ^ 14 := by
  have h1 : |S * Binary64.fl (19 / 100)| ≤ 2 * 10 ^ 19 := by
    rw [fl_taxRate, abs_mul]
    have : |(3422735716801577 / 18014398509481984 : ℚ)| ≤ 1 / 5 := by
      rw [abs_of_pos (by norm_num)]
      norm_num
    calc |S| * |(3422735716801577 / 18014398509481984 : ℚ)| ≤ 10 ^ 20 * (1 / 5) :=
          mul_le_mul hS this (abs_nonneg _) (by norm_num)
      _ = 2 * 10 ^ 19 := by norm_num
  have h2 : |Binary64.taxOf S| ≤ 2 * 10 ^ 19 + 2 ^ 14 := by
    have := abs_le_of_fl_err _ _ (ofRat_large _ (le_trans h1 (by norm_num))).2
    unfold Binary64.taxOf
    linarith
  have h3 : |round2 (Binary64.taxOf S)| ≤ 2 * 10 ^ 19 + 2 ^ 14 + 1 := by
    have := round2_abs_le (Binary64.taxOf S)
    linarith
  have h4 : |S + shippingOf S| ≤ 10 ^ 20 + 10 := by
    have h40 := abs_add S (shippingOf S)
    have h41 : |shippingOf S| ≤ 10 := by
      rcases shippingOf_cases S with h | h <;> rw [h] <;> norm_num
    linarith
  have h5a := abs_le_of_fl_err _ _ (ofRat_large _ (le_trans h4 (by norm_num))).2
  have h5b := abs_le_of_fl_err _ _ (ofRat_large _ (le_trans h3 (by norm_num))).2
  have h5 : |Binary64.fl (S + shippingOf S) + Binary64.fl (round2 (Binary64.taxOf S))| ≤
      10 ^ 20 + 10 + 2 ^ 14 + (2 * 10 ^ 19 + 2 ^ 14 + 1 + 2 ^ 14) := by
    have := abs_add (Binary64.fl (S + shippingOf S)) (Binary64.fl (round2 (Binary64.taxOf S)))
    linarith
  have h6 := abs_le_of_fl_err _ _ (ofRat_large _ (le_trans h5 (by norm_num))).2
  refine ⟨h1, h2, h3, h4, h5, ?_⟩
  unfold Binary64.totalOf
  linarith

/-- The four strings of `calcPrices` in terms of a finite unrounded sum `S` up
to `10 ^ 20` in magnitude: every one is in fixed notation. -/
theorem calcPrices_of_sum (items : List PricedItem) (S : ℚ)
    (hsum : Binary64.itemsSum items = JSNum.fin S) (hS : |S| ≤ 10 ^ 20) :
    Binary64.calcPrices items =
      { itemsPrice := toFixed2 S
        shippingPrice := toFixed2 (shippingOf S)
        taxPrice := toFixed2 (Binary64.taxOf S)
        totalPrice := toFixed2 (Binary64.totalOf S) } := by
  obtain ⟨h1, h2, h3, h4, h5, h6⟩ := calcPrices_bounds S hS
  have hitems : Binary64.toFixed2 (JSNum.fin S) = toFixed2 S :=
    toFixed2_fin S (lt_of_le_of_lt hS (by norm_num))
  have hship : Binary64.toFixed2 (JSNum.fin (shippingOf S)) = toFixed2 (shippingOf S) := by
    apply toFixed2_fin
    rcases shippingOf_cases S with h | h <;> rw [h] <;> norm_num
  have hmul : Binary64.mul (JSNum.fin S) Binary64.taxRate = JSNum.fin (Binary64.taxOf S) := by
    rw [taxRate_eq]
    show Binary64.ofRat (S * Binary64.fl (19 / 100)) = _
    rw [(ofRat_large _ (le_trans h1 (by norm_num))).1]
    rfl
  have htax : Binary64.toFixed2 (JSNum.fin (Binary64.taxOf S)) = toFixed2 (Binary64.taxOf S) :=
    toFixed2_fin _ (lt_of_le_of_lt h2 (by norm_num))
  have hparse : Binary64.parseFloat (toFixed2 (Binary64.taxOf S)) =
      JSNum.fin (Binary64.fl (round2 (Binary64.taxOf S))) := by
    unfold Binary64.parseFloat
    rw [parseFloat_toFixed2]
    show Binary64.ofRat _ = _
    rw [(ofRat_large _ (le_trans h3 (by norm_num))).1]
  have hadd1 : Binary64.add (JSNum.fin S) (JSNum.fin (shippingOf S)) =
      JSNum.fin (Binary64.fl (S + shippingOf S)) := by
    show Binary64.ofRat (S + shippingOf S) = _
    rw [(ofRat_large _ (le_trans h4 (by norm_num))).1]
  have hadd2 : Binary64.add (JSNum.fin (Binary64.fl (S + shippingOf S)))
      (JSNum.fin (Binary64.fl (round2 (Binary64.taxOf S)))) =
      JSNum.fin (Binary64.totalOf S) := by
    show Binary64.ofRat _ = _
    rw [(ofRat_large _ (le_trans h5 (by norm_num))).1]
    rfl
  have htotal : Binary64.toFixed2 (JSNum.fin (Binary64.totalOf S)) =
      toFixed2 (Binary64.totalOf S) :=
    toFixed2_fin _ (lt_of_le_of_lt h6 (by norm_num))
  simp only [Binary64.calcPrices, hsum, shipping_fin, hmul, htax, hparse, hadd1, hadd2, htotal,
    hitems, hship]

/-! ## Facts about `calcPrices` in binary64 -/

/-- Two non-negative numbers at most a hundredth apart round to two places at
most a hundredth apart. -/
theorem round2_close (x y : ℚ) (hx : 0 ≤ x) (hy : 0 ≤ y) (h : |x - y| ≤ 1 / 100) :
    |round2 x - round2 y| ≤ 1 / 100 := by
  have hshift : ∀ z : ℚ, 0 ≤ z → round2 (z + 1 / 100) = round2 z + 1 / 100 := by
    intro z hz
    have := round2_add_hundredths z 1 hz (by norm_num)
    simpa using this
  obtain ⟨h1, h2⟩ := abs_le.mp h
  rw [abs_le]
  constructor
  · have := round2_mono y (x + 1 / 100) (by linarith)
    rw [hshift x hx] at this
    linarith
  · have := round2_mono x (y + 1 / 100) (by linarith)
    rw [hshift y hy] at this
    linarith

theorem taxOf_nonneg (S : ℚ) (hS : 0 ≤ S) : 0 ≤ Binary64.taxOf S :=
  fl_nonneg _ (mul_nonneg hS (fl_nonneg _ (by norm_num)))

theorem taxOf_mono (a b : ℚ) (h : a ≤ b) : Binary64.taxOf a ≤ Binary64.taxOf b :=
  fl_mono _ _ (mul_le_mul_of_nonneg_right h (fl_nonneg _ (by norm_num)))

theorem shippingOf_nonneg (S : ℚ) : 0 ≤ shippingOf S := by
  rcases shippingOf_cases S with h | h <;> simp [h]

theorem totalOf_nonneg (S : ℚ) (hS : 0 ≤ S) : 0 ≤ Binary64.totalOf S := by
  unfold Binary64.totalOf
  apply fl_nonneg
  have h1 := fl_nonneg (S + shippingOf S) (add_nonneg hS (shippingOf_nonneg S))
  have h2 := fl_nonneg _ (round2_nonneg _ (taxOf_nonneg S hS))
  linarith

/-- The total before formatting is monotone in the unrounded sum, on either
side of the shipping threshold. -/
theorem totalOf_mono (a b : ℚ) (h : a ≤ b) (hside : shippingOf a = shippingOf b) :
    Binary64.totalOf a ≤ Binary64.totalOf b := by
  unfold Binary64.totalOf
  apply fl_mono
  have h1 := fl_mono (a + shippingOf a) (b + shippingOf b) (by rw [hside]; linarith)
  have h2 := fl_mono _ _ (round2_mono _ _ (taxOf_mono a b h))
  linarith

/-- For an unrounded sum between `0` and `10 ^ 12` the binary64 product with
the literal `0.19` is within `2 ^ (-12)` of the exact product with 19/100. -/
theorem taxOf_near (S : ℚ) (h0 : 0 ≤ S) (hS : S ≤ 10 ^ 12) :
    |Binary64.taxOf S - S * (19 / 100)| ≤ 1 / 2 ^ 12 := by
  have hprod : |S * Binary64.fl (19 / 100)| ≤ 2 * 10 ^ 12 := by
    rw [fl_taxRate, abs_of_nonneg (mul_nonneg h0 (by norm_num))]
    nlinarith
  have h1 := (ofRat_medium _ hprod).2
  have h2 : |S * Binary64.fl (19 / 100) - S * (19 / 100)| ≤ 1 / 2 ^ 13 := by
    rw [fl_taxRate, ← mul_sub, abs_mul, abs_of_nonneg h0]
    have hdiff : |(3422735716801577 / 18014398509481984 : ℚ) - 19 / 100| ≤ 1 / 10 ^ 17 := by
      rw [abs_le]
      constructor <;> norm_num
    calc S * |(3422735716801577 / 18014398509481984 : ℚ) - 19 / 100|
        ≤ 10 ^ 12 * (1 / 10 ^ 17) := mul_le_mul hS hdiff (abs_nonneg _) (by norm_num)
      _ ≤ 1 / 2 ^ 13 := by norm_num
  unfold Binary64.taxOf
  obtain ⟨a1, a2⟩ := abs_le.mp h1
  obtain ⟨b1, b2⟩ := abs_le.mp h2
  rw [abs_le]
  constructor
  · have : (1 : ℚ) / 2 ^ 12 = 1 / 2 ^ 13 + 1 / 2 ^ 13 := by norm_num
    linarith
  · have : (1 : ℚ) / 2 ^ 12 = 1 / 2 ^ 13 + 1 / 2 ^ 13 := by norm_num
    linarith

/-- For an unrounded sum between `0` and `10 ^ 12` the total before
formatting is within three roundings of the exact sum of its three parts. -/
theorem totalOf_near (S : ℚ) (h0 : 0 ≤ S) (hS : S ≤ 10 ^ 12) :
    |Binary64.totalOf S - (S + shippingOf S + round2 (Binary64.taxOf S))| ≤ 3 / 2 ^ 13 := by
  have htax0 := taxOf_nonneg S h0
  have htaxnear := taxOf_near S h0 hS
  have htax : Binary64.taxOf S ≤ 2 * 10 ^ 11 + 1 := by
    obtain ⟨a1, a2⟩ := abs_le.mp htaxnear
    have : (1 : ℚ) / 2 ^ 12 ≤ 1 := by norm_num
    linarith
  have ht0 := round2_nonneg _ htax0
  have ht : round2 (Binary64.taxOf S) ≤ 2 * 10 ^ 11 + 2 := by
    obtain ⟨a1, a2⟩ := abs_le.mp (round2_near (Binary64.taxOf S)).2
    linarith
  have hs0 := shippingOf_nonneg S
  have hs10 : shippingOf S ≤ 10 := by
    rcases shippingOf_cases S with h | h <;> simp [h]
  have e1 := (ofRat_medium (S + shippingOf S)
    (by rw [abs_of_nonneg (by linarith)]; linarith)).2
  have e2 := (ofRat_medium (round2 (Binary64.taxOf S))
    (by rw [abs_of_nonneg ht0]; linarith)).2
  obtain ⟨a1, a2⟩ := abs_le.mp e1
  obtain ⟨b1, b2⟩ := abs_le.mp e2
  have hA0 := fl_nonneg (S + shippingOf S) (by linarith)
  have hB0 := fl_nonneg _ ht0
  have hsmall : (1 : ℚ) / 2 ^ 13 ≤ 1 := by norm_num
  have e3 := (ofRat_medium
    (Binary64.fl (S + shippingOf S) + Binary64.fl (round2 (Binary64.taxOf S)))
    (by rw [abs_of_nonneg (by linarith)]; linarith)).2
  obtain ⟨c1, c2⟩ := abs_le.mp e3
  unfold Binary64.totalOf
  rw [abs_le]
  constructor <;> linarith

/-- Rounding the exact sum of an unrounded non-negative sum, the shipping and
the rounded tax is adding the three rounded parts. -/
theorem round2_parts (S : ℚ) (h0 : 0 ≤ S) :
    round2 (S + shippingOf S + round2 (Binary64.taxOf S)) =
      round2 S + shippingOf S + round2 (Binary64.taxOf S) := by
  have htax0 := taxOf_nonneg S h0
  have hfloor : (0 : ℤ) ≤ ⌊Binary64.taxOf S * 100 + 1 / 2⌋ := by
    apply Int.floor_nonneg.mpr
    linarith
  have hparts : ∃ k : ℤ, 0 ≤ k ∧
      shippingOf S + round2 (Binary64.taxOf S) = (k : ℚ) / 100 := by
    rw [round2_of_nonneg _ htax0]
    unfold shippingOf
    split
    · exact ⟨⌊Binary64.taxOf S * 100 + 1 / 2⌋, hfloor, by ring⟩
    · exact ⟨1000 + ⌊Binary64.taxOf S * 100 + 1 / 2⌋, by omega, by push_cast; ring⟩
  obtain ⟨k, hk, hkeq⟩ := hparts
  rw [add_assoc, hkeq, round2_add_hundredths _ k h0 hk, ← hkeq]
  ring

/-- For an unrounded sum between `0` and `10 ^ 12` the rounded total is at
most a hundredth away from the sum of the three rounded parts. -/
theorem round2_totalOf_near (S : ℚ) (h0 : 0 ≤ S) (hS : S ≤ 10 ^ 12) :
    |round2 (Binary64.totalOf S) - round2 (S + shippingOf S + round2 (Binary64.taxOf S))| ≤
      1 / 100 := by
  apply round2_close _ _ (totalOf_nonneg S h0)
  · have := shippingOf_nonneg S
    have := round2_nonneg _ (taxOf_nonneg S h0)
    linarith
  · exact le_trans (totalOf_near S h0 hS) (by norm_num)

theorem ofRat_notNegative (x : ℚ) (hx : 0 ≤ x) : (Binary64.ofRat x).notNegative := by
  have h := fl_nonneg x hx
  have hpos : (0 : ℚ) < 2 ^ (1024 : ℕ) := by positivity
  unfold Binary64.ofRat
  generalize (2 : ℚ) ^ (1024 : ℕ) = bound at hpos ⊢
  by_cases h1 : bound ≤ Binary64.fl x
  · rw [if_pos h1]
    trivial
  · have h2 : ¬Binary64.fl x ≤ -bound := by
      intro hle
      linarith
    rw [if_neg h1, if_neg h2]
    exact h

theorem round_notNegative (n : JSNum) (h : n.notNegative) : (Binary64.round n).notNegative := by
  cases n with
  | fin q => exact ofRat_notNegative q h
  | posInf => trivial
  | negInf => exact h
  | nan => trivial

theorem add_notNegative (a b : JSNum) (ha : a.notNegative) (hb : b.notNegative) :
    (Binary64.add a b).notNegative := by
  apply round_notNegative
  cases a <;> cases b <;> simp_all [JSNum.add, JSNum.notNegative]
  exact add_nonneg ha hb

theorem mul_notNegative (a b : JSNum) (ha : a.notNegative) (hb : b.notNegative) :
    (Binary64.mul a b).notNegative := by
  apply round_notNegative
  cases a with
  | fin x =>
    cases b with
    | fin y => exact mul_nonneg ha hb
    | posInf =>
      have hx : 0 ≤ x := ha
      by_cases h0 : x = 0
      · simp [JSNum.mul, h0, JSNum.notNegative]
      · have : 0 < x := lt_of_le_of_ne hx (Ne.symm h0)
        simp [JSNum.mul, h0, this, JSNum.notNegative]
    | negInf => exact absurd hb (by simp [JSNum.notNegative])
    | nan => trivial
  | posInf =>
    cases b with
    | fin y =>
      have hy : 0 ≤ y := hb
      by_cases h0 : y = 0
      · simp [JSNum.mul, h0, JSNum.notNegative]
      · have : 0 < y := lt_of_le_of_ne hy (Ne.symm h0)
        simp [JSNum.mul, h0, this, JSNum.notNegative]
    | posInf => trivial
    | negInf => exact absurd hb (by simp [JSNum.notNegative])
    | nan => trivial
  | negInf => exact absurd ha (by simp [JSNum.notNegative])
  | nan => cases b <;> trivial

theorem foldl_notNegative (items : List PricedItem)
    (hitems : ∀ item ∈ items, ∃ p q : ℚ, 0 ≤ p ∧ 0 ≤ q ∧
      item = ⟨JSValue.number (JSNum.fin p), JSValue.number (JSNum.fin q)⟩)
    (acc : JSNum) (hacc : acc.notNegative) :
    (items.foldl
      (fun acc item =>
        Binary64.add acc (Binary64.mul (Binary64.toNumber item.price)
          (Binary64.toNumber item.qty))) acc).notNegative := by
  induction items generalizing acc with
  | nil => exact hacc
  | cons item items ih =>
    rw [List.foldl_cons]
    apply ih (fun it hit => hitems it (List.mem_cons_of_mem _ hit))
    obtain ⟨p, q, hp, hq, rfl⟩ := hitems item (List.mem_cons_self _ _)
    apply add_notNegative _ _ hacc
    apply mul_notNegative
    · exact ofRat_notNegative p hp
    · exact ofRat_notNegative q hq

/-- The unrounded sum of items with non-negative price and qty is not
negative. -/
theorem itemsSum_notNegative (items : List PricedItem)
    (hitems : ∀ item ∈ items, ∃ p q : ℚ, 0 ≤ p ∧ 0 ≤ q ∧
      item = ⟨JSValue.number (JSNum.fin p), JSValue.number (JSNum.fin q)⟩)
    (S : ℚ) (hsum : Binary64.itemsSum items = JSNum.fin S) : 0 ≤ S := by
  have h := foldl_notNegative items hitems (JSNum.fin 0) (le_refl (0 : ℚ))
  change (Binary64.itemsSum items).notNegative at h
  rw [hsum] at h
  exact h

/-- The result of `calcPrices` is determined by the unrounded sum. -/
theorem calcPrices_of_itemsSum_eq (first second : List PricedItem)
    (h : Binary64.itemsSum first = Binary64.itemsSum second) :
    Binary64.calcPrices first = Binary64.calcPrices second := by
  simp only [Binary64.calcPrices, h]

theorem foldl_wholeItems (xs : List (ℤ × ℤ)) (acc : ℤ)
    (hsmall : ∀ x ∈ xs, |x.1| < 2 ^ 53 ∧ |x.2| < 2 ^ 53)
    (hsum : |acc| + (xs.map fun x => |x.1 * x.2|).sum < 2 ^ 53) :
    (xs.map wholeItem).foldl
      (fun acc item =>
        Binary64.add acc (Binary64.mul (Binary64.toNumber item.price)
          (Binary64.toNumber item.qty))) (JSNum.fin (acc : ℚ)) =
      JSNum.fin ((acc + (xs.map fun x => x.1 * x.2).sum : ℤ) : ℚ) := by
  induction xs generalizing acc with
  | nil => simp
  | cons x xs ih =>
    have hrest : 0 ≤ (xs.map fun x => |x.1 * x.2|).sum := by
      apply List.sum_nonneg
      intro y hy
      obtain ⟨z, _, rfl⟩ := List.mem_map.mp hy
      exact abs_nonneg _
    rw [List.map_cons, List.sum_cons] at hsum
    have hx := hsmall x (List.mem_cons_self _ _)
    have hprod : |x.1 * x.2| < 2 ^ 53 := by
      have := abs_nonneg acc
      omega
    have hacc : |acc + x.1 * x.2| < 2 ^ 53 := by
      have := abs_add acc (x.1 * x.2)
      omega
    have hstep : Binary64.add (JSNum.fin (acc : ℚ))
        (Binary64.mul (Binary64.toNumber (wholeItem x).price)
          (Binary64.toNumber (wholeItem x).qty)) =
        JSNum.fin ((acc + x.1 * x.2 : ℤ) : ℚ) := by
      have h1 : Binary64.toNumber (wholeItem x).price = JSNum.fin (x.1 : ℚ) :=
        ofRat_intCast x.1 hx.1
      have h2 : Binary64.toNumber (wholeItem x).qty = JSNum.fin (x.2 : ℚ) :=
        ofRat_intCast x.2 hx.2
      have h3 : Binary64.mul (JSNum.fin (x.1 : ℚ)) (JSNum.fin (x.2 : ℚ)) =
          JSNum.fin ((x.1 * x.2 : ℤ) : ℚ) := by
        show Binary64.ofRat ((x.1 : ℚ) * (x.2 : ℚ)) = _
        rw [← Int.cast_mul]
        exact ofRat_intCast _ hprod
      rw [h1, h2, h3]
      show Binary64.ofRat ((acc : ℚ) + ((x.1 * x.2 : ℤ) : ℚ)) = _
      rw [← Int.cast_add]
      exact ofRat_intCast _ hacc
    rw [List.map_cons, List.foldl_cons, hstep, ih (acc + x.1 * x.2)
      (fun y hy => hsmall y (List.mem_cons_of_mem _ hy))
      (by
        have := abs_add acc (x.1 * x.2)
        omega)]
    rw [List.map_cons, List.sum_cons, add_assoc]

/-- The unrounded sum of whole prices and quantities is their exact sum, as
long as the magnitudes of the products sum to less than `2 ^ 53`. -/
theorem itemsSum_wholeItems (xs : List (ℤ × ℤ))
    (hsmall : ∀ x ∈ xs, |x.1| < 2 ^ 53 ∧ |x.2| < 2 ^ 53)
    (hsum : (xs.map fun x => |x.1 * x.2|).sum < 2 ^ 53) :
    Binary64.itemsSum (xs.map wholeItem) =
      JSNum.fin (((xs.map fun x => x.1 * x.2).sum : ℤ) : ℚ) := by
  have h := foldl_wholeItems xs 0 hsmall (by simpa using hsum)
  simp only [Int.cast_zero, zero_add] at h
  exact h

theorem foldl_wholeRatings (reviews : List Review) (acc : ℤ)
    (hwhole : ∀ r ∈ reviews, ∃ n : ℤ, r.rating = JSNum.fin (n : ℚ))
    (hsum : |(acc : ℚ)| + (reviews.map fun r => |r.ratingValue|).sum < 2 ^ 53) :
    reviews.foldl (fun acc item => Binary64.add item.rating acc) (JSNum.fin (acc : ℚ)) =
      JSNum.fin ((acc : ℚ) + (reviews.map Review.ratingValue).sum) := by
  induction reviews generalizing acc with
  | nil => simp
  | cons r reviews ih =>
    have hrest : 0 ≤ (reviews.map fun r => |r.ratingValue|).sum := by
      apply List.sum_nonneg
      intro y hy
      obtain ⟨z, _, rfl⟩ := List.mem_map.mp hy
      exact abs_nonneg _
    obtain ⟨n, hn⟩ := hwhole r (List.mem_cons_self _ _)
    have hval : r.ratingValue = (n : ℚ) := by
      simp only [Review.ratingValue, hn]
    rw [List.map_cons, List.sum_cons, hval] at hsum
    have hq : |((n + acc : ℤ) : ℚ)| < 2 ^ 53 := by
      push_cast
      have := abs_add (n : ℚ) (acc : ℚ)
      linarith
    have hz : |n + acc| < 2 ^ 53 := by
      rw [← Int.cast_abs] at hq
      exact_mod_cast hq
    have hstep : Binary64.add r.rating (JSNum.fin (acc : ℚ)) =
        JSNum.fin ((n + acc : ℤ) : ℚ) := by
      rw [hn]
      show Binary64.ofRat ((n : ℚ) + (acc : ℚ)) = _
      rw [← Int.cast_add]
      exact ofRat_intCast _ hz
    rw [List.foldl_cons, hstep, ih (n + acc)
      (fun y hy => hwhole y (List.mem_cons_of_mem _ hy))
      (by
        have := abs_add (n : ℚ) (acc : ℚ)
        push_cast
        linarith)]
    rw [List.map_cons, List.sum_cons, hval]
    congr 1
    push_cast
    ring

/-- The mean of whole ratings whose magnitudes sum to less than `2 ^ 53` is
the binary64 number nearest to their exact mean. -/
theorem averageRating_whole (reviews : List Review) (hne : reviews ≠ [])
    (hwhole : ∀ r ∈ reviews, ∃ n : ℤ, r.rating = JSNum.fin (n : ℚ))
    (hsum : (reviews.map fun r => |r.ratingValue|).sum < 2 ^ 53) :
    Binary64.averageRating reviews =
      Binary64.ofRat ((reviews.map Review.ratingValue).sum / reviews.length) := by
  have h := foldl_wholeRatings reviews 0 hwhole (by simpa using hsum)
  simp only [Int.cast_zero, zero_add] at h
  have hlen : (reviews.length : ℚ) ≠ 0 := by
    exact_mod_cast (List.length_pos.mpr hne).ne'
  unfold Binary64.averageRating
  rw [h]
  simp only [Binary64.div, JSNum.div, hlen, if_false, Binary64.round]

/-! ## The claims about `calcPrices`, in binary64 arithmetic -/

/-- C1 as stated fails: for the single item of price 0.125 and qty 1 (both
binary64 numbers, both non-negative) the four strings are "0.13", "10.00",
"0.02" and "10.14"; read back as decimals, 0.13 + 10.00 + 0.02 is 10.15 and
not 10.14. -/
theorem total_not_sum_of_parts :
    literalItem (1 / 8) 1 = ⟨JSValue.number (JSNum.fin (1 / 8)), JSValue.number (JSNum.fin 1)⟩ ∧
      Binary64.calcPrices [literalItem (1 / 8) 1] =
        { itemsPrice := "0.13", shippingPrice := "10.00", taxPrice := "0.02",
          totalPrice := "10.14" } ∧
      parseFloat "0.13" = JSNum.fin (13 / 100) ∧ parseFloat "10.00" = JSNum.fin 10 ∧
      parseFloat "0.02" = JSNum.fin (2 / 100) ∧ parseFloat "10.14" = JSNum.fin (1014 / 100) ∧
      (1014 / 100 : ℚ) ≠ 13 / 100 + 10 + 2 / 100 := by
  decide!

/-- C1 amended: for line items with non-negative price and qty whose
unrounded binary64 sum `S` is at most `10 ^ 12`, the four strings of
`calcPrices` read back as decimals `i`, `s`, `t` and `total` with `total`
at most one hundredth away from `i + s + t`. -/
theorem total_within_a_cent (items : List PricedItem) (S : ℚ)
    (hitems : ∀ item ∈ items, ∃ p q : ℚ, 0 ≤ p ∧ 0 ≤ q ∧
      item = ⟨JSValue.number (JSNum.fin p), JSValue.number (JSNum.fin q)⟩)
    (hsum : Binary64.itemsSum items = JSNum.fin S) (hS : S ≤ 10 ^ 12) :
    ∃ i s t total : ℚ,
      parseFloat (Binary64.calcPrices items).itemsPrice = JSNum.fin i ∧
      parseFloat (Binary64.calcPrices items).shippingPrice = JSNum.fin s ∧
      parseFloat (Binary64.calcPrices items).taxPrice = JSNum.fin t ∧
      parseFloat (Binary64.calcPrices items).totalPrice = JSNum.fin total ∧
      |total - (i + s + t)| ≤ 1 / 100 := by
  have h0 : 0 ≤ S := itemsSum_notNegative items hitems S hsum
  have habs : |S| ≤ 10 ^ 20 := by
    rw [abs_of_nonneg h0]
    exact le_trans hS (by norm_num)
  rw [calcPrices_of_sum items S hsum habs]
  refine ⟨round2 S, shippingOf S, round2 (Binary64.taxOf S), round2 (Binary64.totalOf S),
    parseFloat_toFixed2 _, ?_, parseFloat_toFixed2 _, parseFloat_toFixed2 _, ?_⟩
  · show parseFloat (toFixed2 (shippingOf S)) = _
    rw [parseFloat_toFixed2, round2_shippingOf]
  · rw [← round2_parts S h0]
    exact round2_totalOf_near S h0 hS

/-- The total of the single item of price 0.125 and qty 1, whose unrounded
sum is 0.125, is within one hundredth of the sum of the three parts. -/
theorem total_within_a_cent_witness :
    (∀ item ∈ [(⟨JSValue.number (JSNum.fin (1 / 8)), JSValue.number (JSNum.fin 1)⟩ : PricedItem)],
      ∃ p q : ℚ, 0 ≤ p ∧ 0 ≤ q ∧
        item = ⟨JSValue.number (JSNum.fin p), JSValue.number (JSNum.fin q)⟩) ∧
    Binary64.itemsSum [⟨JSValue.number (JSNum.fin (1 / 8)), JSValue.number (JSNum.fin 1)⟩] =
      JSNum.fin (1 / 8) ∧
    (1 / 8 : ℚ) ≤ 10 ^ 12 ∧
    ∃ i s t total : ℚ,
      parseFloat (Binary64.calcPrices
        [⟨JSValue.number (JSNum.fin (1 / 8)), JSValue.number (JSNum.fin 1)⟩]).itemsPrice =
          JSNum.fin i ∧
      parseFloat (Binary64.calcPrices
        [⟨JSValue.number (JSNum.fin (1 / 8)), JSValue.number (JSNum.fin 1)⟩]).shippingPrice =
          JSNum.fin s ∧
      parseFloat (Binary64.calcPrices
        [⟨JSValue.number (JSNum.fin (1 / 8)), JSValue.number (JSNum.fin 1)⟩]).taxPrice =
          JSNum.fin t ∧
      parseFloat (Binary64.calcPrices
        [⟨JSValue.number (JSNum.fin (1 / 8)), JSValue.number (JSNum.fin 1)⟩]).totalPrice =
          JSNum.fin total ∧
      |total - (i + s + t)| ≤ 1 / 100 := by
  have hitems : ∀ item ∈
      [(⟨JSValue.number (JSNum.fin (1 / 8)), JSValue.number (JSNum.fin 1)⟩ : PricedItem)],
      ∃ p q : ℚ, 0 ≤ p ∧ 0 ≤ q ∧
        item = ⟨JSValue.number (JSNum.fin p), JSValue.number (JSNum.fin q)⟩ := by
    intro item hitem
    rw [List.mem_singleton] at hitem
    exact ⟨1 / 8, 1, by norm_num, by norm_num, hitem⟩
  have hsum : Binary64.itemsSum
      [⟨JSValue.number (JSNum.fin (1 / 8)), JSValue.number (JSNum.fin 1)⟩] =
      JSNum.fin (1 / 8) := by decide!
  have hS : (1 / 8 : ℚ) ≤ 10 ^ 12 := by norm_num
  exact ⟨hitems, hsum, hS, total_within_a_cent _ (1 / 8) hitems hsum hS⟩

/-- C2 as stated fails, in both readings of the sum.  The decimals 21.35 × 3
and 35.95 × 1 sum to exactly 100, yet the shippingPrice is "0.00": the
binary64 sum is above 100.  The binary64 numbers nearest to 0.01, 0.01 and
99.98 (qty 1 each) have an exact sum above 100, yet the shippingPrice is
"10.00": their binary64 sum, taken left to right, is exactly 100. -/
theorem shipping_not_on_exact_sum :
    ((2135 / 100 : ℚ) * 3 + 3595 / 100 * 1 = 100 ∧
      (Binary64.calcPrices
        [literalItem (2135 / 100) 3, literalItem (3595 / 100) 1]).shippingPrice = "0.00" ∧
      Binary64.itemsSum [literalItem (2135 / 100) 3, literalItem (3595 / 100) 1] =
        JSNum.fin (7036874417766401 / 70368744177664)) ∧
    ((100 : ℚ) < Binary64.fl (1 / 100) * 1 + Binary64.fl (1 / 100) * 1 +
        Binary64.fl (9998 / 100) * 1 ∧
      (Binary64.calcPrices
        [literalItem (1 / 100) 1, literalItem (1 / 100) 1,
          literalItem (9998 / 100) 1]).shippingPrice = "10.00" ∧
      Binary64.itemsSum
        [literalItem (1 / 100) 1, literalItem (1 / 100) 1, literalItem (9998 / 100) 1] =
        JSNum.fin 100) := by
  decide!

/-- C2 amended: the shippingPrice of `calcPrices` is "0.00" when the
unrounded binary64 sum of `price * qty`, taken left to right, is strictly
greater than 100 (or is `Infinity`), and "10.00" otherwise (a sum of exactly
100 and NaN included). -/
theorem shippingPrice_on_computed_sum (items : List PricedItem) :
    (Binary64.calcPrices items).shippingPrice =
      match Binary64.itemsSum items with
      | JSNum.fin S => if 100 < S then "0.00" else "10.00"
      | JSNum.posInf => "0.00"
      | JSNum.negInf => "10.00"
      | JSNum.nan => "10.00" := by
  have h0 : Binary64.toFixed2 (JSNum.fin 0) = "0.00" := by
    rw [toFixed2_fin 0 (by norm_num)]
    exact toFixed2_zero
  have h10 : Binary64.toFixed2 (JSNum.fin 10) = "10.00" := by
    rw [toFixed2_fin 10 (by norm_num)]
    exact toFixed2_ten
  show Binary64.toFixed2 (if JSNum.gt (Binary64.itemsSum items) (JSNum.fin 100) = true
    then JSNum.fin 0 else JSNum.fin 10) = _
  cases Binary64.itemsSum items with
  | fin S =>
    by_cases h : (100 : ℚ) < S
    · simp only [JSNum.gt, h, decide_True, if_true, h0]
    · simp only [JSNum.gt, h, decide_False, if_false, h10, Bool.false_eq_true]
  | posInf => simp only [JSNum.gt, if_true, h0]
  | negInf => simp only [JSNum.gt, h10, Bool.false_eq_true, if_false]
  | nan => simp only [JSNum.gt, h10, Bool.false_eq_true, if_false]

/-- C3 as stated fails.  For the decimal 1.005 × 1 the itemsPrice is "1.00",
not 1.01.  For the binary64 numbers nearest to 18.869 and 13.968 with qty 3
and 1 the exact sum is below 70.575 and rounds to 70.57, while the itemsPrice
is "70.58".  For the price `10 ^ 21` the itemsPrice is "1e+21", which has no
fraction digits. -/
theorem itemsPrice_not_the_rounded_sum :
    (round2 (1005 / 1000 * 1) = 101 / 100 ∧
      (Binary64.calcPrices [literalItem (1005 / 1000) 1]).itemsPrice = "1.00") ∧
    (round2 (Binary64.fl (18869 / 1000) * 3 + Binary64.fl (13968 / 1000) * 1) = 7057 / 100 ∧
      (Binary64.calcPrices
        [literalItem (18869 / 1000) 3, literalItem (13968 / 1000) 1]).itemsPrice = "70.58") ∧
    ((Binary64.calcPrices [literalItem (10 ^ 21) 1]).itemsPrice = "1e+21" ∧
      isTwoPlaceDecimal "1e+21" = false) := by
  decide!

/-- C3 amended: the itemsPrice of `calcPrices` is the `toFixed(2)` text of
the unrounded binary64 sum `S` of `price * qty`, taken left to right; for a
finite `S` below `10 ^ 21` in magnitude it has two digits after the point and
reads back as `S` rounded to two decimal places, a whole number of hundredths
at most half a hundredth away from `S`. -/
theorem itemsPrice_of_computed_sum (items : List PricedItem) (S : ℚ)
    (hsum : Binary64.itemsSum items = JSNum.fin S) (hS : |S| < 10 ^ 21) :
    (Binary64.calcPrices items).itemsPrice = Binary64.toFixed2 (Binary64.itemsSum items) ∧
      (Binary64.calcPrices items).itemsPrice = toFixed2 S ∧
      isTwoPlaceDecimal (Binary64.calcPrices items).itemsPrice = true ∧
      parseFloat (Binary64.calcPrices items).itemsPrice = JSNum.fin (round2 S) ∧
      (∃ k : ℤ, round2 S = (k : ℚ) / 100) ∧ |round2 S - S| ≤ 1 / 200 := by
  have h : (Binary64.calcPrices items).itemsPrice = toFixed2 S := by
    show Binary64.toFixed2 (Binary64.itemsSum items) = _
    rw [hsum, toFixed2_fin S hS]
  rw [h]
  exact ⟨by rw [hsum, toFixed2_fin S hS], rfl, toFixed2_twoPlace _, parseFloat_toFixed2 _,
    (round2_near _).1, (round2_near _).2⟩

/-- The itemsPrice of the items `10 × 2` and `5 × 1`, whose sum is 25. -/
theorem itemsPrice_of_computed_sum_witness :
    Binary64.itemsSum [literalItem 10 2, literalItem 5 1] = JSNum.fin 25 ∧
    |(25 : ℚ)| < 10 ^ 21 ∧
    (Binary64.calcPrices [literalItem 10 2, literalItem 5 1]).itemsPrice = toFixed2 25 ∧
    parseFloat (Binary64.calcPrices [literalItem 10 2, literalItem 5 1]).itemsPrice =
      JSNum.fin (round2 25) := by
  have hsum : Binary64.itemsSum [literalItem 10 2, literalItem 5 1] = JSNum.fin 25 := by
    decide!
  have hS : |(25 : ℚ)| < 10 ^ 21 := by decide!
  obtain ⟨_, h2, _, h4, _⟩ :=
    itemsPrice_of_computed_sum [literalItem 10 2, literalItem 5 1] 25 hsum hS
  exact ⟨hsum, hS, h2, h4⟩

/-- C4 as stated fails: for the single item of price 1.25 and qty 2 the
unrounded sum is exactly 2.5; the product with 19/100 is 0.475 and rounds to
0.48, and so does the exact product with the binary64 number nearest to
0.19; the taxPrice is "0.47". -/
theorem taxPrice_not_the_rounded_product :
    Binary64.itemsSum [literalItem (125 / 100) 2] = JSNum.fin (5 / 2) ∧
      round2 (5 / 2 * (19 / 100)) = 48 / 100 ∧
      round2 (5 / 2 * Binary64.fl (19 / 100)) = 48 / 100 ∧
      (Binary64.calcPrices [literalItem (125 / 100) 2]).taxPrice = "0.47" ∧
      parseFloat "0.47" = JSNum.fin (47 / 100) := by
  decide!

/-- C4 amended: for a finite unrounded sum `S` up to `10 ^ 20` in magnitude,
the taxPrice of `calcPrices` is the `toFixed(2)` text of the binary64
product of `S` and the binary64 number nearest to 0.19, and reads back as
that product rounded to two decimal places; for `S` between `0` and
`10 ^ 12` the binary64 product is within `2 ^ (-12)` of `S * 19/100`, and
the taxPrice is at most one hundredth away from `S * 19/100` rounded to two
places. -/
theorem taxPrice_of_computed_product (items : List PricedItem) (S : ℚ)
    (hsum : Binary64.itemsSum items = JSNum.fin S) (hS : |S| ≤ 10 ^ 20) :
    (Binary64.calcPrices items).taxPrice =
        toFixed2 (Binary64.fl (S * Binary64.fl (19 / 100))) ∧
      parseFloat (Binary64.calcPrices items).taxPrice =
        JSNum.fin (round2 (Binary64.fl (S * Binary64.fl (19 / 100)))) ∧
      (0 ≤ S → S ≤ 10 ^ 12 →
        |Binary64.fl (S * Binary64.fl (19 / 100)) - S * (19 / 100)| ≤ 1 / 2 ^ 12 ∧
        |round2 (Binary64.fl (S * Binary64.fl (19 / 100))) - round2 (S * (19 / 100))| ≤
          1 / 100) := by
  rw [calcPrices_of_sum items S hsum hS]
  refine ⟨rfl, parseFloat_toFixed2 _, ?_⟩
  intro h0 h12
  have hnear := taxOf_near S h0 h12
  refine ⟨hnear, ?_⟩
  apply round2_close _ _ (taxOf_nonneg S h0) (mul_nonneg h0 (by norm_num))
  exact le_trans hnear (by norm_num)

/-- The taxPrice of the single item `1.25 × 2`, whose sum is 2.5. -/
theorem taxPrice_of_computed_product_witness :
    Binary64.itemsSum [literalItem (125 / 100) 2] = JSNum.fin (5 / 2) ∧
    |(5 / 2 : ℚ)| ≤ 10 ^ 20 ∧ (0 : ℚ) ≤ 5 / 2 ∧ (5 / 2 : ℚ) ≤ 10 ^ 12 ∧
    (Binary64.calcPrices [literalItem (125 / 100) 2]).taxPrice =
      toFixed2 (Binary64.fl (5 / 2 * Binary64.fl (19 / 100))) ∧
    |round2 (Binary64.fl (5 / 2 * Binary64.fl (19 / 100))) - round2 (5 / 2 * (19 / 100))| ≤
      1 / 100 := by
  have hsum : Binary64.itemsSum [literalItem (125 / 100) 2] = JSNum.fin (5 / 2) := by decide!
  have hS : |(5 / 2 : ℚ)| ≤ 10 ^ 20 := by decide!
  have h0 : (0 : ℚ) ≤ 5 / 2 := by norm_num
  have h12 : (5 / 2 : ℚ) ≤ 10 ^ 12 := by norm_num
  obtain ⟨h1, _, h3⟩ :=
    taxPrice_of_computed_product [literalItem (125 / 100) 2] (5 / 2) hsum hS
  exact ⟨hsum, hS, h0, h12, h1, (h3 h0 h12).2⟩

/-- C5 as stated fails: for the single item of price 0.125 and qty 1 the
unrounded sum is exactly 0.125, the shipping is 10 and the returned tax is
0.02; 0.125 + 10 + 0.02 is 10.145 and rounds to 10.15, while the totalPrice
is "10.14". -/
theorem totalPrice_not_the_rounded_total :
    Binary64.itemsSum [literalItem (1 / 8) 1] = JSNum.fin (1 / 8) ∧
      (Binary64.calcPrices [literalItem (1 / 8) 1]).shippingPrice = "10.00" ∧
      (Binary64.calcPrices [literalItem (1 / 8) 1]).taxPrice = "0.02" ∧
      round2 (1 / 8 + 10 + 2 / 100) = 1015 / 100 ∧
      (Binary64.calcPrices [literalItem (1 / 8) 1]).totalPrice = "10.14" ∧
      parseFloat "10.14" = JSNum.fin (1014 / 100) := by
  decide!

/-- C5 amended: for a finite unrounded sum `S` up to `10 ^ 20` in magnitude,
with `t` the value of the returned, already rounded taxPrice, the totalPrice
of `calcPrices` is the `toFixed(2)` text of the binary64 sum of `S`, the
shipping (0 or 10) and the binary64 number nearest to `t`, and reads back as
that binary64 sum rounded to two decimal places; for `S` between `0` and
`10 ^ 12` it is at most one hundredth away from `S + shipping + t` rounded to
two places. -/
theorem totalPrice_of_computed_total (items : List PricedItem) (S : ℚ)
    (hsum : Binary64.itemsSum items = JSNum.fin S) (hS : |S| ≤ 10 ^ 20) :
    ∃ t : ℚ, parseFloat (Binary64.calcPrices items).taxPrice = JSNum.fin t ∧
      (Binary64.calcPrices items).totalPrice =
        toFixed2 (Binary64.fl (Binary64.fl (S + (if 100 < S then 0 else 10)) +
          Binary64.fl t)) ∧
      parseFloat (Binary64.calcPrices items).totalPrice =
        JSNum.fin (round2 (Binary64.fl (Binary64.fl (S + (if 100 < S then 0 else 10)) +
          Binary64.fl t))) ∧
      (0 ≤ S → S ≤ 10 ^ 12 →
        |round2 (Binary64.fl (Binary64.fl (S + (if 100 < S then 0 else 10)) +
            Binary64.fl t)) -
          round2 (S + (if 100 < S then 0 else 10) + t)| ≤ 1 / 100) := by
  rw [calcPrices_of_sum items S hsum hS]
  refine ⟨round2 (Binary64.taxOf S), parseFloat_toFixed2 _, rfl, parseFloat_toFixed2 _, ?_⟩
  intro h0 h12
  exact round2_totalOf_near S h0 h12

/-- The totalPrice of the single item `0.125 × 1`, whose sum is 0.125. -/
theorem totalPrice_of_computed_total_witness :
    Binary64.itemsSum [literalItem (1 / 8) 1] = JSNum.fin (1 / 8) ∧
    |(1 / 8 : ℚ)| ≤ 10 ^ 20 ∧ (0 : ℚ) ≤ 1 / 8 ∧ (1 / 8 : ℚ) ≤ 10 ^ 12 ∧
    ∃ t : ℚ, parseFloat (Binary64.calcPrices [literalItem (1 / 8) 1]).taxPrice = JSNum.fin t ∧
      |round2 (Binary64.fl (Binary64.fl (1 / 8 + (if (100 : ℚ) < 1 / 8 then 0 else 10)) +
          Binary64.fl t)) -
        round2 (1 / 8 + (if (100 : ℚ) < 1 / 8 then 0 else 10) + t)| ≤ 1 / 100 := by
  have hsum : Binary64.itemsSum [literalItem (1 / 8) 1] = JSNum.fin (1 / 8) := by decide!
  have hS : |(1 / 8 : ℚ)| ≤ 10 ^ 20 := by decide!
  have h0 : (0 : ℚ) ≤ 1 / 8 := by norm_num
  have h12 : (1 / 8 : ℚ) ≤ 10 ^ 12 := by norm_num
  obtain ⟨t, h1, _, _, h4⟩ :=
    totalPrice_of_computed_total [literalItem (1 / 8) 1] (1 / 8) hsum hS
  exact ⟨hsum, hS, h0, h12, t, h1, h4 h0 h12⟩

/-- C8 as stated fails: for the numeric price `10 ^ 21` and qty 1 the
itemsPrice is "1e+21" and the totalPrice is "1.19e+21", and for the numeric
price NaN three of the four strings are "NaN"; none of these has two digits
after a decimal point. -/
theorem exponent_form_returned :
    Binary64.calcPrices [literalItem (10 ^ 21) 1] =
        { itemsPrice := "1e+21", shippingPrice := "0.00",
          taxPrice := "190000000000000000000.00", totalPrice := "1.19e+21" } ∧
      isTwoPlaceDecimal "1e+21" = false ∧ isTwoPlaceDecimal "1.19e+21" = false ∧
      Binary64.calcPrices [⟨JSValue.number JSNum.nan, JSValue.number (JSNum.fin 1)⟩] =
        { itemsPrice := "NaN", shippingPrice := "10.00", taxPrice := "NaN",
          totalPrice := "NaN" } ∧
      isTwoPlaceDecimal "NaN" = false := by
  decide!

/-- C8 amended: whenever the unrounded binary64 sum of `price * qty` is
finite and at most `10 ^ 20` in magnitude, each of the four values returned
by `calcPrices` is a decimal string with exactly two digits after the
point. -/
theorem twoPlace_up_to_bound (items : List PricedItem) (S : ℚ)
    (hsum : Binary64.itemsSum items = JSNum.fin S) (hS : |S| ≤ 10 ^ 20) :
    isTwoPlaceDecimal (Binary64.calcPrices items).itemsPrice = true ∧
      isTwoPlaceDecimal (Binary64.calcPrices items).shippingPrice = true ∧
      isTwoPlaceDecimal (Binary64.calcPrices items).taxPrice = true ∧
      isTwoPlaceDecimal (Binary64.calcPrices items).totalPrice = true := by
  rw [calcPrices_of_sum items S hsum hS]
  exact ⟨toFixed2_twoPlace _, toFixed2_twoPlace _, toFixed2_twoPlace _, toFixed2_twoPlace _⟩

/-- The four strings of the items `10 × 2` and `5 × 1`, whose sum is 25. -/
theorem twoPlace_up_to_bound_witness :
    Binary64.itemsSum [literalItem 10 2, literalItem 5 1] = JSNum.fin 25 ∧
    |(25 : ℚ)| ≤ 10 ^ 20 ∧
    isTwoPlaceDecimal (Binary64.calcPrices [literalItem 10 2, literalItem 5 1]).itemsPrice =
      true ∧
    isTwoPlaceDecimal (Binary64.calcPrices [literalItem 10 2, literalItem 5 1]).shippingPrice =
      true ∧
    isTwoPlaceDecimal (Binary64.calcPrices [literalItem 10 2, literalItem 5 1]).taxPrice =
      true ∧
    isTwoPlaceDecimal (Binary64.calcPrices [literalItem 10 2, literalItem 5 1]).totalPrice =
      true := by
  have hsum : Binary64.itemsSum [literalItem 10 2, literalItem 5 1] = JSNum.fin 25 := by
    decide!
  have hS : |(25 : ℚ)| ≤ 10 ^ 20 := by decide!
  exact ⟨hsum, hS, twoPlace_up_to_bound [literalItem 10 2, literalItem 5 1] 25 hsum hS⟩

/-! ## The claims about the rating mean and the paging, in binary64 arithmetic -/

/-- C14 as stated fails: the ratings 4.1, 4.3, 4.2 and their permutation
4.1, 4.2, 4.3 give two different means, 4.199999999999999 and 4.2; the second
is the binary64 number nearest to the exact mean 4.2, the first is not. -/
theorem averageRating_order_dependent :
    [literalReview (41 / 10), literalReview (43 / 10), literalReview (42 / 10)].Perm
        [literalReview (41 / 10), literalReview (42 / 10), literalReview (43 / 10)] ∧
      Binary64.averageRating
          [literalReview (41 / 10), literalReview (43 / 10), literalReview (42 / 10)] =
        JSNum.fin (1182194902184755 / 281474976710656) ∧
      Binary64.averageRating
          [literalReview (41 / 10), literalReview (42 / 10), literalReview (43 / 10)] =
        JSNum.fin (4728779608739021 / 1125899906842624) ∧
      Binary64.ofRat ((41 / 10 + 43 / 10 + 42 / 10) / 3) =
        JSNum.fin (4728779608739021 / 1125899906842624) ∧
      (1182194902184755 / 281474976710656 : ℚ) ≠ 4728779608739021 / 1125899906842624 :=
  ⟨List.Perm.cons _ (List.Perm.swap _ _ _), by decide!, by decide!, by decide!, by decide!⟩

/-- C14 amended: for a non-empty review list whose ratings are whole numbers
with magnitudes summing to less than `2 ^ 53`, and any permutation of it, the
rating reducer of the handler gives the same value: the binary64 number
nearest to the sum of the ratings over their count. -/
theorem averageRating_of_whole_ratings (reviews permuted : List Review) (hne : reviews ≠ [])
    (hperm : reviews.Perm permuted)
    (hwhole : ∀ r ∈ reviews, ∃ n : ℤ, r.rating = JSNum.fin (n : ℚ))
    (hsum : (reviews.map fun r => |r.ratingValue|).sum < 2 ^ 53) :
    Binary64.averageRating permuted = Binary64.averageRating reviews ∧
      Binary64.averageRating reviews =
        Binary64.ofRat ((reviews.map Review.ratingValue).sum / reviews.length) := by
  have hne2 : permuted ≠ [] := by
    intro h
    rw [h] at hperm
    exact hne hperm.eq_nil
  have hwhole2 : ∀ r ∈ permuted, ∃ n : ℤ, r.rating = JSNum.fin (n : ℚ) :=
    fun r hr => hwhole r (hperm.mem_iff.mpr hr)
  have hsum2 : (permuted.map fun r => |r.ratingValue|).sum < 2 ^ 53 := by
    rw [← (hperm.map fun r => |r.ratingValue|).sum_eq]
    exact hsum
  refine ⟨?_, averageRating_whole reviews hne hwhole hsum⟩
  rw [averageRating_whole reviews hne hwhole hsum,
    averageRating_whole permuted hne2 hwhole2 hsum2,
    (hperm.map Review.ratingValue).sum_eq, hperm.length_eq]

/-- The mean of the whole ratings 4 and 2, taken in the other order. -/
theorem averageRating_of_whole_ratings_witness :
    ([(⟨"user2", JSNum.fin 4, JSValue.string "Gut!", UserRef.str "u2"⟩ : Review),
        ⟨"tester", JSNum.fin 2, JSValue.string "Geht so", UserRef.str "u1"⟩] ≠ []) ∧
    ([(⟨"user2", JSNum.fin 4, JSValue.string "Gut!", UserRef.str "u2"⟩ : Review),
        ⟨"tester", JSNum.fin 2, JSValue.string "Geht so", UserRef.str "u1"⟩].Perm
      [⟨"tester", JSNum.fin 2, JSValue.string "Geht so", UserRef.str "u1"⟩,
        ⟨"user2", JSNum.fin 4, JSValue.string "Gut!", UserRef.str "u2"⟩]) ∧
    (∀ r ∈ [(⟨"user2", JSNum.fin 4, JSValue.string "Gut!", UserRef.str "u2"⟩ : Review),
        ⟨"tester", JSNum.fin 2, JSValue.string "Geht so", UserRef.str "u1"⟩],
      ∃ n : ℤ, r.rating = JSNum.fin (n : ℚ)) ∧
    (([(⟨"user2", JSNum.fin 4, JSValue.string "Gut!", UserRef.str "u2"⟩ : Review),
        ⟨"tester", JSNum.fin 2, JSValue.string "Geht so", UserRef.str "u1"⟩].map
      fun r => |r.ratingValue|).sum < 2 ^ 53) ∧
    Binary64.averageRating
        [⟨"tester", JSNum.fin 2, JSValue.string "Geht so", UserRef.str "u1"⟩,
         ⟨"user2", JSNum.fin 4, JSValue.string "Gut!", UserRef.str "u2"⟩] =
      Binary64.averageRating
        [⟨"user2", JSNum.fin 4, JSValue.string "Gut!", UserRef.str "u2"⟩,
         ⟨"tester", JSNum.fin 2, JSValue.string "Geht so", UserRef.str "u1"⟩] := by
  have hwhole : ∀ r ∈
      [(⟨"user2", JSNum.fin 4, JSValue.string "Gut!", UserRef.str "u2"⟩ : Review),
        ⟨"tester", JSNum.fin 2, JSValue.string "Geht so", UserRef.str "u1"⟩],
      ∃ n : ℤ, r.rating = JSNum.fin (n : ℚ) := by
    intro r hr
    simp only [List.mem_cons, List.mem_singleton, List.not_mem_nil, or_false] at hr
    rcases hr with rfl | rfl
    · exact ⟨4, by norm_num⟩
    · exact ⟨2, by norm_num⟩
  have hsum : ([(⟨"user2", JSNum.fin 4, JSValue.string "Gut!", UserRef.str "u2"⟩ : Review),
        ⟨"tester", JSNum.fin 2, JSValue.string "Geht so", UserRef.str "u1"⟩].map
      fun r => |r.ratingValue|).sum < 2 ^ 53 := by
    norm_num [Review.ratingValue]
  exact ⟨List.cons_ne_nil _ _, List.Perm.swap _ _ _, hwhole, hsum,
    (averageRating_of_whole_ratings _ _ (List.cons_ne_nil _ _) (List.Perm.swap _ _ _)
      hwhole hsum).1⟩

/-- The paging of `getProductsHandler` in binary64 arithmetic for a count of
2 with no query, and for a count of 21 with the page size "0.7": 21 / 0.7 is
the binary64 number just above 30, so there are 31 pages. -/
theorem getProducts_paging_examples (find : Option JSValue → JSNum → JSNum → List Product) :
    Binary64.getProductsHandler (fun _ => 2) find ⟨.undefined, .undefined, .undefined⟩ =
      (200,
        { products := (find none (JSNum.fin 10) (JSNum.fin 0)).map productResponse
          page := JSNum.fin 1
          pages := JSNum.fin 1
          hasMore := false
          total := 2 }) ∧
    (Binary64.getProductsHandler (fun _ => 21) find
      ⟨.string "0.7", .undefined, .undefined⟩).2.pages = JSNum.fin 31 := by
  have hskip : Binary64.mul (JSNum.fin 10) (Binary64.sub (JSNum.fin 1) (JSNum.fin 1)) =
      JSNum.fin 0 := by decide!
  have hpages : JSNum.ceil (Binary64.div (JSNum.fin ((2 : ℕ) : ℚ)) (JSNum.fin 10)) =
      JSNum.fin 1 := by decide!
  have hsize : JSNum.orElse (Binary64.toNumber JSValue.undefined) (JSNum.fin 10) =
      JSNum.fin 10 := by decide!
  have hpage : JSNum.orElse (Binary64.toNumber JSValue.undefined) (JSNum.fin 1) =
      JSNum.fin 1 := by decide!
  have hlt : JSNum.lt (JSNum.fin 1) (JSNum.fin 1) = false := by decide!
  have hseven : JSNum.ceil (Binary64.div (JSNum.fin ((21 : ℕ) : ℚ))
      (JSNum.orElse (Binary64.toNumber (JSValue.string "0.7")) (JSNum.fin 10))) =
      JSNum.fin 31 := by decide!
  constructor
  · simp only [Binary64.getProductsHandler, hsize, hpage, hskip, hpages, hlt, JSValue.truthy,
      Bool.false_eq_true, if_false]
  · simp only [Binary64.getProductsHandler, hseven]

/-- C24: in binary64 arithmetic the response of `getProductsHandler` is 200
with page `p`, pages `ceil(count / s)`, hasMore `p < ceil(count / s)` and
total `count`, where `/` is the binary64 division, `p` is
`Number(query.page)`, or 1 when that is NaN (as for an absent page) or 0, and
`s` is `Number(query.pageSize)`, or 10 when that is NaN or 0; a count of 2
with no query gives page 1, pages 1, hasMore false and total 2, and a count
of 21 with the page size "0.7" gives 31 pages. -/
theorem getProducts_paging_binary64 (countDocuments : Option JSValue → Nat)
    (find : Option JSValue → JSNum → JSNum → List Product) (query : ProductsQuery) :
    (∃ p s : JSNum,
      (Binary64.getProductsHandler countDocuments find query).1 = 200 ∧
      (Binary64.getProductsHandler countDocuments find query).2.page = p ∧
      (Binary64.getProductsHandler countDocuments find query).2.pages =
        JSNum.ceil (Binary64.div
          (JSNum.fin (Binary64.getProductsHandler countDocuments find query).2.total) s) ∧
      (Binary64.getProductsHandler countDocuments find query).2.hasMore =
        JSNum.lt p (JSNum.ceil (Binary64.div
          (JSNum.fin (Binary64.getProductsHandler countDocuments find query).2.total) s)) ∧
      (Binary64.getProductsHandler countDocuments find query).2.total =
        countDocuments (if query.keyword.truthy then some query.keyword else none) ∧
      (Binary64.toNumber query.page = JSNum.nan ∨ Binary64.toNumber query.page = JSNum.fin 0 →
        p = JSNum.fin 1) ∧
      (Binary64.toNumber query.page ≠ JSNum.nan → Binary64.toNumber query.page ≠ JSNum.fin 0 →
        p = Binary64.toNumber query.page) ∧
      (query.page = JSValue.undefined → p = JSNum.fin 1) ∧
      (Binary64.toNumber query.pageSize = JSNum.nan ∨
        Binary64.toNumber query.pageSize = JSNum.fin 0 → s = JSNum.fin 10) ∧
      (Binary64.toNumber query.pageSize ≠ JSNum.nan →
        Binary64.toNumber query.pageSize ≠ JSNum.fin 0 →
        s = Binary64.toNumber query.pageSize) ∧
      (query.pageSize = JSValue.undefined → s = JSNum.fin 10)) ∧
    (Binary64.getProductsHandler (fun _ => 2) find ⟨.undefined, .undefined, .undefined⟩ =
      (200,
        { products := (find none (JSNum.fin 10) (JSNum.fin 0)).map productResponse
          page := JSNum.fin 1
          pages := JSNum.fin 1
          hasMore := false
          total := 2 })) ∧
    ((Binary64.getProductsHandler (fun _ => 21) find
      ⟨.string "0.7", .undefined, .undefined⟩).2.pages = JSNum.fin 31) := by
  refine ⟨?_, (getProducts_paging_examples find).1, (getProducts_paging_examples find).2⟩
  · refine ⟨JSNum.orElse (Binary64.toNumber query.page) (JSNum.fin 1),
      JSNum.orElse (Binary64.toNumber query.pageSize) (JSNum.fin 10), rfl, rfl, rfl, rfl, rfl,
      orElse_default _ _, orElse_self _ _, ?_, orElse_default _ _, orElse_self _ _, ?_⟩
    · intro h
      rw [h]
      rfl
    · intro h
      rw [h]
      rfl

/-- The paging for page "2" with page size "0.7" and 21 products: page 2 of
31 pages. -/
theorem getProducts_paging_binary64_witness :
    (Binary64.toNumber (JSValue.string "2") ≠ JSNum.nan) ∧
    (Binary64.toNumber (JSValue.string "2") ≠ JSNum.fin 0) ∧
    (Binary64.getProductsHandler (fun _ => 21) (fun _ _ _ => [])
      ⟨.string "0.7", .string "2", .undefined⟩).2.page =
        Binary64.toNumber (JSValue.string "2") := by
  have hnan : Binary64.toNumber (JSValue.string "2") ≠ JSNum.nan := by decide!
  have hzero : Binary64.toNumber (JSValue.string "2") ≠ JSNum.fin 0 := by decide!
  obtain ⟨p, s, _, hp, _, _, _, _, hself, _⟩ :=
    (getProducts_paging_binary64 (fun _ => 21) (fun _ _ _ => [])
      ⟨.string "0.7", .string "2", .undefined⟩).1
  exact ⟨hnan, hzero, hp.trans (hself hnan hzero)⟩

/-! ## The claims about the order of the items, in binary64 arithmetic -/

/-- C28 as stated fails in its second half.  The decimals 3.192 × 2,
0.414 × 2, 5.103 × 1 and the decimals 0.132 × 2, 12.051 × 1 both sum to
12.315, and the exact sum of the binary64 numbers nearest to the first is
strictly below that of the second, both far below the threshold 100; yet the
first totalPrice is "24.66" and the second is "24.65". -/
theorem totals_reversed_below_threshold :
    ((3192 / 1000 : ℚ) * 2 + 414 / 1000 * 2 + 5103 / 1000 * 1 = 12315 / 1000 ∧
      (132 / 1000 : ℚ) * 2 + 12051 / 1000 * 1 = 12315 / 1000) ∧
    (Binary64.fl (3192 / 1000) * 2 + Binary64.fl (414 / 1000) * 2 +
        Binary64.fl (5103 / 1000) * 1 <
      Binary64.fl (132 / 1000) * 2 + Binary64.fl (12051 / 1000) * 1 ∧
      Binary64.fl (132 / 1000) * 2 + Binary64.fl (12051 / 1000) * 1 < 100) ∧
    (Binary64.calcPrices
        [literalItem (3192 / 1000) 2, literalItem (414 / 1000) 2,
          literalItem (5103 / 1000) 1]).totalPrice = "24.66" ∧
    (Binary64.calcPrices
        [literalItem (132 / 1000) 2, literalItem (12051 / 1000) 1]).totalPrice = "24.65" ∧
    parseFloat "24.66" = JSNum.fin (2466 / 100) ∧
    parseFloat "24.65" = JSNum.fin (2465 / 100) ∧
    (2465 / 100 : ℚ) < 2466 / 100 := by
  decide!

/-- C28 amended: `calcPrices` is not monotone in the order value: the single
item of price 100 has totalPrice "129.00" and the one of price 100.01 has
"119.01"; but for two lists whose unrounded binary64 sums, taken left to
right, are finite, at most `10 ^ 20` in magnitude and on the same side of the
threshold 100, the larger binary64 sum never has the smaller totalPrice. -/
theorem not_monotone_in_computed_sum :
    (Binary64.itemsSum [literalItem 100 1] = JSNum.fin 100 ∧
      Binary64.itemsSum [literalItem (10001 / 100) 1] =
        JSNum.fin (Binary64.fl (10001 / 100)) ∧
      (100 : ℚ) < Binary64.fl (10001 / 100) ∧
      (Binary64.calcPrices [literalItem 100 1]).totalPrice = "129.00" ∧
      (Binary64.calcPrices [literalItem (10001 / 100) 1]).totalPrice = "119.01" ∧
      parseFloat "129.00" = JSNum.fin 129 ∧
      parseFloat "119.01" = JSNum.fin (11901 / 100) ∧
      (11901 / 100 : ℚ) < 129) ∧
    ∀ (first second : List PricedItem) (sumFirst sumSecond : ℚ),
      Binary64.itemsSum first = JSNum.fin sumFirst →
      Binary64.itemsSum second = JSNum.fin sumSecond →
      |sumFirst| ≤ 10 ^ 20 → |sumSecond| ≤ 10 ^ 20 →
      sumFirst ≤ sumSecond →
      ((100 : ℚ) < sumFirst ↔ (100 : ℚ) < sumSecond) →
      ∃ a b : ℚ, parseFloat (Binary64.calcPrices first).totalPrice = JSNum.fin a ∧
        parseFloat (Binary64.calcPrices second).totalPrice = JSNum.fin b ∧ a ≤ b := by
  constructor
  · decide!
  · intro first second sumFirst sumSecond h1 h2 hb1 hb2 hle hside
    rw [calcPrices_of_sum first sumFirst h1 hb1, calcPrices_of_sum second sumSecond h2 hb2]
    refine ⟨_, _, parseFloat_toFixed2 _, parseFloat_toFixed2 _, ?_⟩
    apply round2_mono
    apply totalOf_mono _ _ hle
    unfold shippingOf
    by_cases h : 100 < sumFirst
    · rw [if_pos h, if_pos (hside.mp h)]
    · rw [if_neg h, if_neg (fun h3 => h (hside.mpr h3))]

/-- Two orders below the threshold: the sums 20 and 25 have totals in the
same order. -/
theorem not_monotone_in_computed_sum_witness :
    Binary64.itemsSum [literalItem 10 2] = JSNum.fin 20 ∧
    Binary64.itemsSum [literalItem 10 2, literalItem 5 1] = JSNum.fin 25 ∧
    |(20 : ℚ)| ≤ 10 ^ 20 ∧ |(25 : ℚ)| ≤ 10 ^ 20 ∧ (20 : ℚ) ≤ 25 ∧
    ((100 : ℚ) < 20 ↔ (100 : ℚ) < 25) ∧
    ∃ a b : ℚ, parseFloat (Binary64.calcPrices [literalItem 10 2]).totalPrice = JSNum.fin a ∧
      parseFloat (Binary64.calcPrices [literalItem 10 2, literalItem 5 1]).totalPrice =
        JSNum.fin b ∧ a ≤ b :=
  ⟨by decide!, by decide!, by decide!, by decide!, by decide!, by decide!,
    not_monotone_in_computed_sum.2 [literalItem 10 2] [literalItem 10 2, literalItem 5 1] 20 25
      (by decide!) (by decide!) (by decide!) (by decide!) (by decide!) (by decide!)⟩

/-- C29 as stated fails: the items of price 0.01, 99.98 and 0.01 (qty 1
each) and their permutation 0.01, 0.01, 99.98 give different results: the
first binary64 sum is just above 100 (shipping "0.00", total "119.00"), the
second is exactly 100 (shipping "10.00", total "129.00"). -/
theorem calcPrices_order_dependent :
    [literalItem (1 / 100) 1, literalItem (9998 / 100) 1, literalItem (1 / 100) 1].Perm
        [literalItem (1 / 100) 1, literalItem (1 / 100) 1, literalItem (9998 / 100) 1] ∧
      Binary64.calcPrices
          [literalItem (1 / 100) 1, literalItem (9998 / 100) 1, literalItem (1 / 100) 1] =
        { itemsPrice := "100.00", shippingPrice := "0.00", taxPrice := "19.00",
          totalPrice := "119.00" } ∧
      Binary64.calcPrices
          [literalItem (1 / 100) 1, literalItem (1 / 100) 1, literalItem (9998 / 100) 1] =
        { itemsPrice := "100.00", shippingPrice := "10.00", taxPrice := "19.00",
          totalPrice := "129.00" } :=
  ⟨List.Perm.cons _ (List.Perm.swap _ _ _), by decide!, by decide!⟩

/-- C29 amended: `calcPrices` reads nothing of an item but price and qty, so
two lists with the same sequence of (price, qty) pairs have the same result;
and for whole prices and quantities below `2 ^ 53` in magnitude whose
products have magnitudes summing to less than `2 ^ 53`, the unrounded sum is
exact and `calcPrices` returns the same four values for the list and for any
permutation of it. -/
theorem calcPrices_of_whole_amounts (xs ys : List (ℤ × ℤ)) (hperm : xs.Perm ys)
    (hsmall : ∀ x ∈ xs, |x.1| < 2 ^ 53 ∧ |x.2| < 2 ^ 53)
    (hsum : (xs.map fun x => |x.1 * x.2|).sum < 2 ^ 53) :
    Binary64.calcPrices (ys.map wholeItem) = Binary64.calcPrices (xs.map wholeItem) ∧
      Binary64.itemsSum (xs.map wholeItem) =
        JSNum.fin (((xs.map fun x => x.1 * x.2).sum : ℤ) : ℚ) ∧
      ∀ first second : List ValidItem,
        first.map ValidItem.priced = second.map ValidItem.priced →
          Binary64.calcPrices (first.map ValidItem.priced) =
            Binary64.calcPrices (second.map ValidItem.priced) := by
  have hsmall2 : ∀ x ∈ ys, |x.1| < 2 ^ 53 ∧ |x.2| < 2 ^ 53 :=
    fun x hx => hsmall x (hperm.mem_iff.mpr hx)
  have hsum2 : (ys.map fun x => |x.1 * x.2|).sum < 2 ^ 53 := by
    rw [← (hperm.map fun x => |x.1 * x.2|).sum_eq]
    exact hsum
  refine ⟨?_, itemsSum_wholeItems xs hsmall hsum, ?_⟩
  · apply calcPrices_of_itemsSum_eq
    rw [itemsSum_wholeItems xs hsmall hsum, itemsSum_wholeItems ys hsmall2 hsum2,
      (hperm.map fun x => x.1 * x.2).sum_eq]
  · intro first second h
    rw [h]

/-- The two items of the example order, `10 × 2` and `5 × 1`, in the other
order. -/
theorem calcPrices_of_whole_amounts_witness :
    ([((10 : ℤ), (2 : ℤ)), (5, 1)].Perm [(5, 1), (10, 2)]) ∧
    (∀ x ∈ [((10 : ℤ), (2 : ℤ)), (5, 1)], |x.1| < 2 ^ 53 ∧ |x.2| < 2 ^ 53) ∧
    (([((10 : ℤ), (2 : ℤ)), (5, 1)].map fun x => |x.1 * x.2|).sum < 2 ^ 53) ∧
    Binary64.calcPrices ([((5 : ℤ), (1 : ℤ)), (10, 2)].map wholeItem) =
      Binary64.calcPrices ([((10 : ℤ), (2 : ℤ)), (5, 1)].map wholeItem) :=
  ⟨List.Perm.swap _ _ _, by decide, by decide,
    (calcPrices_of_whole_amounts [(10, 2), (5, 1)] [(5, 1), (10, 2)] (List.Perm.swap _ _ _)
      (by decide) (by decide)).1⟩

/-- The example orders of the exact reading give the same results in binary64
arithmetic: the empty order, the items `10 × 2` and `5 × 1`, and the single
item of price 100.004, whose binary64 sum is above 100. -/
theorem calcPrices_examples_binary64 :
    Binary64.calcPrices [] = calcPrices [] ∧
      Binary64.calcPrices [literalItem 10 2, literalItem 5 1] = calcPrices [⟨10, 2⟩, ⟨5, 1⟩] ∧
      Binary64.calcPrices [literalItem (100004 / 1000) 1] =
        calcPrices [⟨100004 / 1000, 1⟩] ∧
      JSNum.gt (Binary64.itemsSum [literalItem (100004 / 1000) 1]) (JSNum.fin 100) = true := by
  decide!

end OnlineShop
